import Mathlib

/-!
# Supervisor agent (`src/agent/agent-enhanced.js`): embedding and verified properties

JavaScript strings are embedded as lists of characters.  The platform pieces
the agent calls (the clock, the `tail` library, timers, child processes) are
inputs of the model; everything the agent's own code computes is a Lean
function translated from the source.
-/

namespace Agent

/-- A JavaScript string, as the list of its characters. -/
abbrev Str := List Char

/-! ## String primitives used by the agent -/

/-- If `p` is a prefix of the string, the rest of the string after it. -/
def stripPrefix : Str → Str → Option Str
  | [], s => some s
  | _ :: _, [] => none
  | p :: ps, c :: cs => if p = c then stripPrefix ps cs else none

/-- JavaScript `s.includes(sub)`: `sub` occurs somewhere in `s`. -/
def includes : Str → Str → Bool
  | [], sub => (stripPrefix sub []).isSome
  | c :: cs, sub => (stripPrefix sub (c :: cs)).isSome || includes cs sub

/-- JavaScript `s.split(sep)` for a non-empty separator `sep`, scanning left to
right; the counter is the number of characters of an already matched separator
that are still to be skipped (call it with `0`). -/
def splitFrom (sep : Str) : Nat → Str → List Str
  | _, [] => [[]]
  | k + 1, _ :: cs => splitFrom sep k cs
  | 0, c :: cs =>
    if (stripPrefix sep (c :: cs)).isSome then
      [] :: splitFrom sep (sep.length - 1) cs
    else
      match splitFrom sep 0 cs with
      | [] => [[c]]
      | seg :: segs => (c :: seg) :: segs

/-- JavaScript `s.split(sep)` (`sep` non-empty). -/
def jsSplit (s sep : Str) : List Str := splitFrom sep 0 s

/-- JavaScript `parts.join(sep)`. -/
def jsJoin (sep : Str) : List Str → Str
  | [] => []
  | [x] => x
  | x :: y :: rest => x ++ sep ++ jsJoin sep (y :: rest)

/-- JavaScript `xs.slice(-n)`: the last `n` elements (all, if there are fewer). -/
def sliceLast {α : Type} (n : Nat) (xs : List α) : List α := xs.drop (xs.length - n)

/-- The UTF-16 code units of a character: one unit below U+10000, a surrogate
pair from there on. -/
def utf16Units (c : Char) : List Nat :=
  if c.toNat < 0x10000 then [c.toNat]
  else [0xD800 + (c.toNat - 0x10000) / 0x400, 0xDC00 + (c.toNat - 0x10000) % 0x400]

/-- The UTF-16 code units of a string: what `length`, `slice` and the regular
expressions without the `u` flag count. -/
def codeUnits (s : Str) : List Nat := (s.map utf16Units).flatten

/-- On code units: if `p` is a prefix of the units, the rest after it. -/
def stripPrefixUnits : List Nat → List Nat → Option (List Nat)
  | [], s => some s
  | _ :: _, [] => none
  | p :: ps, c :: cs => if p = c then stripPrefixUnits ps cs else none

/-- JavaScript `s.includes(sub)` on the code units of the two strings. -/
def includesUnits : List Nat → List Nat → Bool
  | [], sub => (stripPrefixUnits sub []).isSome
  | c :: cs, sub => (stripPrefixUnits sub (c :: cs)).isSome || includesUnits cs sub

/-- ECMAScript *LineTerminator*: LF, CR, LS, PS (what `.` in a regex refuses). -/
def isLineTerminator (c : Char) : Bool :=
  c.toNat == 0x0A || c.toNat == 0x0D || c.toNat == 0x2028 || c.toNat == 0x2029

/-- ECMAScript *WhiteSpace* or *LineTerminator*: what `\s` matches and `trim` strips. -/
def isWhiteSpace (c : Char) : Bool :=
  isLineTerminator c || c.toNat == 0x09 || c.toNat == 0x0B || c.toNat == 0x0C ||
  c.toNat == 0x20 || c.toNat == 0xA0 || c.toNat == 0x1680 ||
  (0x2000 ≤ c.toNat && c.toNat ≤ 0x200A) ||
  c.toNat == 0x202F || c.toNat == 0x205F || c.toNat == 0x3000 || c.toNat == 0xFEFF

/-- JavaScript `s.trim()`. -/
def trim (s : Str) : Str :=
  ((s.dropWhile isWhiteSpace).reverse.dropWhile isWhiteSpace).reverse

/-! ## Marker literals -/

/-- The task announcement of the worker. -/
def taskMarker : Str := "Executing task:".toList

/-- The stop marker, read by the pull-based scan only. -/
def stopMarker : Str := "PAccountBuilder: Stopped".toList

/-- First failure signature. -/
def failMarker1 : Str := "PAccountBuilder: Failed to execute task".toList

/-- Second failure signature. -/
def failMarker2 : Str := "Failed tasks four times in a row".toList

/-- The literal of the failure pattern. -/
def pabMarker : Str := "PAccountBuilder: ".toList

/-- The login marker. -/
def loginMarker : Str := "LOGGED_IN".toList

/-- First error marker. -/
def errorMarker : Str := "ERROR".toList

/-- Second error marker. -/
def exceptionMarker : Str := "Exception".toList

/-! ## The two regular expressions of the tail handler

`/Executing task:\s*(.+)/` and `/PAccountBuilder: (.*)/`, each as the
backtracking search the regular expression denotes: leftmost start position,
greedy quantifiers, capture group 1 returned. -/

/-- The group `(.+)` at the head of `s`: the longest run of characters that are
not line terminators; fails when that run is empty. -/
def dotPlus (s : Str) : Option Str :=
  let cap := s.takeWhile (fun c => !isLineTerminator c)
  if cap = [] then none else some cap

/-- The tail `\s*(.+)` of the task pattern: greedy `\s*`, giving characters back
one at a time while `(.+)` fails. -/
def wsStarDotPlus : Str → Option Str
  | [] => dotPlus []
  | c :: cs =>
    if isWhiteSpace c then
      match wsStarDotPlus cs with
      | some cap => some cap
      | none => dotPlus (c :: cs)
    else dotPlus (c :: cs)

/-- The task pattern tried at the head of `s`. -/
def matchTaskAt (s : Str) : Option Str :=
  match stripPrefix taskMarker s with
  | some rest => wsStarDotPlus rest
  | none => none

/-- Group 1 of `line.match(/Executing task:\s*(.+)/)`, `none` when there is no match. -/
def matchTask : Str → Option Str
  | [] => matchTaskAt []
  | c :: cs =>
    match matchTaskAt (c :: cs) with
    | some cap => some cap
    | none => matchTask cs

/-- The failure pattern tried at the head of `s`: `(.*)` always succeeds. -/
def matchPabAt (s : Str) : Option Str :=
  match stripPrefix pabMarker s with
  | some rest => some (rest.takeWhile (fun c => !isLineTerminator c))
  | none => none

/-- Group 1 of `line.match(/PAccountBuilder: (.*)/)`, `none` when there is no match. -/
def matchPab : Str → Option Str
  | [] => matchPabAt []
  | c :: cs =>
    match matchPabAt (c :: cs) with
    | some cap => some cap
    | none => matchPab cs

/-! ## Pull-based task extraction -/

/-- The `for` loop of `extractCurrentTask` over the reversed lines.  `none`
stands for the `TypeError` that `undefined.trim()` would raise. -/
def extractLoop : List Str → Option Str
  | [] => some "Idle".toList
  | line :: rest =>
    if includes line taskMarker then
      match (jsSplit line taskMarker)[1]? with
      | some seg => some (trim seg)
      | none => none
    else if includes line stopMarker then some "Stopped".toList
    else extractLoop rest

/-- The function `extractCurrentTask(logs)`. -/
def extractCurrentTask (logs : Str) : Option Str :=
  extractLoop (jsSplit logs "\n".toList).reverse

/-! ## The rolling log -/

/-- Characters that `/[^a-zA-Z0-9_@.-]/g` leaves in place. -/
def isLogNameChar (c : Char) : Bool :=
  ('a'.toNat ≤ c.toNat && c.toNat ≤ 'z'.toNat) || ('A'.toNat ≤ c.toNat && c.toNat ≤ 'Z'.toNat) ||
  ('0'.toNat ≤ c.toNat && c.toNat ≤ '9'.toNat) || c == '_' || c == '@' || c == '.' || c == '-'

/-- The replacement `username.replace(/[^a-zA-Z0-9_@.-]/g, '_')`: the pattern
has no `u` flag, so each code unit outside the class becomes one `_` (two for
a character from U+10000 on). -/
def sanitize (username : Str) : Str :=
  (username.map (fun c =>
    if isLogNameChar c then [c] else List.replicate (utf16Units c).length '_')).flatten

/-- The path `path.join(LOG_DIR, sanitized + '.log')` with `LOG_DIR = '/tmp/bot-logs'`. -/
def logPath (username : Str) : Str :=
  "/tmp/bot-logs/".toList ++ sanitize username ++ ".log".toList

/-- JavaScript `s.replace(a, b)` for one-character strings: the first `a` becomes `b`. -/
def replaceFirst (a b : Char) : Str → Str
  | [] => []
  | c :: cs => if c = a then b :: cs else c :: replaceFirst a b cs

/-- The timestamp of a log line, from the text `iso` that
`new Date().toISOString()` returned:
`iso.replace('T', ' ').split('.')[0] + ' GMT'`. -/
def timestamp (iso : Str) : Str :=
  (match jsSplit (replaceFirst 'T' ' ' iso) ".".toList with
   | seg :: _ => seg
   | [] => []) ++ " GMT".toList

/-- Size in bytes of a text written as UTF-8 (`fs.statSync(file).size`). -/
def byteLength (s : Str) : Nat := (s.map Char.utf8Size).sum

/-- A directory of text files: path and content. -/
abbrev Files := List (Str × Str)

/-- The content of a file (`none`: there is no such file). -/
def readFile (fs : Files) (path : Str) : Option Str :=
  match fs.find? (fun f => f.1 = path) with
  | some f => some f.2
  | none => none

/-- The directory without the file (`fs.unlinkSync`). -/
def unlinkFile (fs : Files) (path : Str) : Files := fs.filter (fun f => f.1 ≠ path)

/-- The directory with the file set to `content`. -/
def writeFile (fs : Files) (path content : Str) : Files := (path, content) :: unlinkFile fs path

/-- What `writeToCustomLog` leaves in the log file whose content was `old`
(`none`: no file yet), for the line `line` (newline included): the line is
appended, and a file that is then larger than 500000 bytes is cut to the last
500 pieces of `content.split('\n')`. -/
def appendRolling (old : Option Str) (line : Str) : Str :=
  let content := old.getD [] ++ line
  if byteLength content > 500000 then
    jsJoin "\n".toList (sliceLast 500 (jsSplit content "\n".toList))
  else content

/-! ## Data model -/

/-- The lifecycle status of a record. -/
inductive Status
  | starting
  | running
  | stopped
  deriving DecidableEq, Repr

/-- JavaScript `a || b` on optional strings: `undefined` and `''` are falsy. -/
def strOr (a b : Option Str) : Option Str :=
  match a with
  | some x => if x = [] then b else some x
  | none => b

/-- The configuration snapshot `cfg` of `startBot` (the fields the agent reads). -/
structure Config where
  username : Str
  password : Str
  plugin : Option Str
  args : Option Str
  deriving DecidableEq, Repr

/-- A bot record, the object stored in `runningBots`.  `tailProcess` is the
index of the `Tail` object in `State.tails`; the child handle `process` is
represented by the pid it gave. -/
structure Bot where
  pid : Option Nat
  startTime : Nat
  config : Config
  status : Status
  currentTask : Option Str
  tailProcess : Option Nat
  deriving DecidableEq, Repr

/-- A `Tail` object of the `tail` library together with what its `line`
listener closes over (`username`, `bot`).  `watching` is false after `unwatch()`. -/
structure Tail where
  file : Str
  username : Str
  bot : Nat
  watching : Bool
  deriving DecidableEq, Repr

/-- The settle-delay timer `setTimeout(..., 3000)` of one `startBot` call. -/
structure Settle where
  username : Str
  bot : Nat
  setAt : Nat
  done : Bool
  deriving DecidableEq, Repr

/-- The liveness timer `checkInterval` of one record; `inflight` counts the
`tasklist` probes that were started and have not answered yet. -/
structure Poll where
  username : Str
  bot : Nat
  active : Bool
  inflight : Nat
  deriving DecidableEq, Repr

/-- A grace timer `setTimeout(() => runningBots.delete(username), 5000)`; `bot`
is the record whose exit branch set it. -/
structure Removal where
  username : Str
  bot : Nat
  setAt : Nat
  done : Bool
  deriving DecidableEq, Repr

/-- A stop request that waits for its `taskkill` command. -/
structure Kill where
  username : Str
  bot : Nat
  pid : Nat
  done : Bool
  deriving DecidableEq, Repr

/-- The outbound webhook post of `sendDiscordAlert`. -/
structure Post where
  url : Str
  title : Str
  description : Str
  pid : Str
  deriving DecidableEq, Repr

/-- An HTTP answer of the agent. -/
inductive Response
  | started (pid : Option Nat)
  | success
  | error (code : Nat) (message : Str)
  | logs (logs : Str) (status : Status) (currentTask : Str)
  deriving DecidableEq, Repr

/-- The agent: its module-level variables, the objects its closures hold, its
pending timers, the rolling logs, and a record of the calls it made (newest
first). -/
structure State where
  now : Nat
  clock : Str
  webhook : Str
  runningBots : List (Str × Nat)
  currentTasks : List (Str × Str)
  bots : List Bot
  tails : List Tail
  settles : List Settle
  polls : List Poll
  removals : List Removal
  kills : List Kill
  files : Files
  broadcasts : List (Str × Str)
  alerts : List (Str × Str)
  posts : List Post
  unwatched : List Nat
  spawned : List (List Str)
  killed : List Nat
  responses : List Response
  deriving DecidableEq, Repr

/-- The agent right after the module is loaded, with the clock text and the log
directory it finds. -/
def initial (clock : Str) (files : Files) : State :=
  { now := 0, clock := clock, webhook := [], runningBots := [], currentTasks := [], bots := [],
    tails := [],
    settles := [], polls := [], removals := [], kills := [], files := files,
    broadcasts := [], alerts := [], posts := [], unwatched := [], spawned := [],
    killed := [], responses := [] }

/-! ## The `Map` operations on `runningBots` -/

/-- The call `runningBots.get(k)`. -/
def mapGet (m : List (Str × Nat)) (k : Str) : Option Nat :=
  match m.find? (fun e => e.1 = k) with
  | some e => some e.2
  | none => none

/-- The call `runningBots.set(k, v)`: a present key keeps its place. -/
def mapSet : List (Str × Nat) → Str → Nat → List (Str × Nat)
  | [], k, v => [(k, v)]
  | e :: m, k, v => if e.1 = k then (k, v) :: m else e :: mapSet m k v

/-- The call `runningBots.delete(k)`. -/
def mapDelete (m : List (Str × Nat)) (k : Str) : List (Str × Nat) :=
  m.filter (fun e => e.1 ≠ k)

/-- The call `currentTasks.get(k)`. -/
def taskGet (m : List (Str × Str)) (k : Str) : Option Str :=
  match m.find? (fun e => e.1 = k) with
  | some e => some e.2
  | none => none

/-- The call `currentTasks.set(k, v)`: a present key keeps its place. -/
def taskSet : List (Str × Str) → Str → Str → List (Str × Str)
  | [], k, v => [(k, v)]
  | e :: m, k, v => if e.1 = k then (k, v) :: m else e :: taskSet m k v

/-! ## Helpers of the agent -/

/-- The function `writeToCustomLog(username, message)`. -/
def writeToCustomLog (username message : Str) (s : State) : State :=
  let logFile := logPath username
  let line := timestamp s.clock ++ " ".toList ++ message ++ "\n".toList
  { s with files := writeFile s.files logFile (appendRolling (readFile s.files logFile) line) }

/-- The function `broadcastTask(username, task)`: one `{type:'task', username, task}`
message, sent to every open client. -/
def broadcastTask (username task : Str) (s : State) : State :=
  { s with broadcasts := (username, task) :: s.broadcasts }

/-- Decimal text of a number, as a template literal prints it. -/
def natText (n : Nat) : Str := (Nat.repr n).toList

/-- Text of an optional pid inside a template literal. -/
def pidText : Option Nat → Str
  | some n => natText n
  | none => "undefined".toList

/-- JavaScript truthiness of a pid: `null` and `0` are falsy. -/
def pidTruthy : Option Nat → Bool
  | some n => n != 0
  | none => false

/-- The `payload` of `sendDiscordAlert`, with the address it is posted to. -/
def alertPayload (url username error : Str) (bot : Option Bot) : Post :=
  { url := url, title := "Bot Failed: ".toList ++ username,
    description := "```".toList ++ error ++ "```".toList,
    pid := match bot with
      | some b => (match b.pid with
        | some n => natText n
        | none => "N/A".toList)
      | none => "N/A".toList }

/-- The function `sendDiscordAlert(username, error, bot)` up to its `fetch`:
the call is recorded, and nothing is posted while `DISCORD_WEBHOOK` is empty. -/
def sendDiscordAlert (username error : Str) (bot : Option Bot) (s : State) : State :=
  let s := { s with alerts := (username, error) :: s.alerts }
  if s.webhook = [] then s
  else { s with posts := alertPayload s.webhook username error bot :: s.posts }

/-- Apply `f` to the record object `b`. -/
def modifyBot (b : Nat) (f : Bot → Bot) (s : State) : State :=
  match s.bots[b]? with
  | some bot => { s with bots := s.bots.set b (f bot) }
  | none => s

/-- The call `tail.unwatch()` on the tail object `t`. -/
def unwatch (t : Nat) (s : State) : State :=
  match s.tails[t]? with
  | some tl => { s with tails := s.tails.set t { tl with watching := false },
                        unwatched := t :: s.unwatched }
  | none => { s with unwatched := t :: s.unwatched }

/-! ## The tail `line` listener -/

/-- The failure check of the listener: a line with a failure signature is
reported through `sendDiscordAlert`, described by group 1 of the failure
pattern, or by the whole line when there is no match or the group is empty. -/
def alertOnFailure (username : Str) (b : Nat) (line : Str) (s : State) : State :=
  if includes line failMarker1 || includes line failMarker2 then
    let errorMsg := match matchPab line with
      | some m => if m = [] then line else m
      | none => line
    sendDiscordAlert username errorMsg s.bots[b]? s
  else s

/-- The task check of the listener. -/
def recordTask (username : Str) (b : Nat) (line : Str) (s : State) : State :=
  if includes line taskMarker then
    match matchTask line with
    | some m =>
      let task := trim m
      broadcastTask username task (modifyBot b (fun bot => { bot with currentTask := some task }) s)
    | none => s
  else s

/-- The login check of the listener. -/
def recordLogin (b : Nat) (line : Str) (s : State) : State :=
  if includes line loginMarker then modifyBot b (fun bot => { bot with status := Status.running }) s
  else s

/-- The last statement of the listener: error lines are logged once more. -/
def relogError (username line : Str) (s : State) : State :=
  if includes line errorMarker || includes line exceptionMarker then
    writeToCustomLog username ("[ERROR] ".toList ++ line) s
  else s

/-- The listener `tail.on('line', ...)` that `startBot` installs for `username`
and the record object `b`: its five statements in order. -/
def onLine (username : Str) (b : Nat) (line : Str) (s : State) : State :=
  relogError username line
    (recordLogin b line
      (recordTask username b line
        (alertOnFailure username b line
          (writeToCustomLog username line s))))

/-! ## Launching -/

/-- One `forEach` step of `buildLaunchCommand`: for a pair that contains `=`,
`const [k, v] = pair.split('=')` and the argument `-D${k}="${v}"`. -/
def pairArg (pair : Str) : List Str :=
  if includes pair "=".toList then
    let parts := jsSplit pair "=".toList
    let k := (parts[0]?).getD "undefined".toList
    let v := (parts[1]?).getD "undefined".toList
    ["-D".toList ++ k ++ "=\"".toList ++ v ++ "\"".toList]
  else []

/-- The function `buildLaunchCommand(config)`; `javaPath` is the value of
`process.env.JAVA_PATH || detectJavaPath() || <default>`. -/
def buildLaunchCommand (javaPath : Str) (config : Config) : List Str :=
  let jvmArgs :=
    ["-Dusername=".toList ++ config.username, "-Dpassword=".toList ++ config.password,
     "-Xms512m".toList, "-Xmx4096m".toList] ++
    (match config.args with
     | some args => if args = [] then [] else ((jsSplit args "&".toList).map pairArg).flatten
     | none => [])
  ["cmd".toList, "/c".toList, "start".toList, "/B".toList, "\"\"".toList,
   "\"".toList ++ javaPath ++ "\"".toList] ++ jvmArgs ++
  ["-cp".toList, "PureInstaller.jar;RuneLite.jar".toList, "ca.arnah.runelite.LauncherHijack".toList]

/-- The function `startBot(username, body, res)`.  `account` is what
`getAccountDetails(username)` returned (password decrypted), `bodyPlugin` and
`bodyArgs` are the request's overrides, `childPid` is `child.pid` of the
spawned shell. -/
def startBot (username : Str) (account : Option Config) (bodyPlugin bodyArgs : Option Str)
    (javaPath : Str) (childPid : Option Nat) (s : State) : State :=
  match account with
  | none => { s with responses := Response.error 404 "Account not found".toList :: s.responses }
  | some account =>
    if account.password = [] then
      { s with responses := Response.error 400 "No password".toList :: s.responses }
    else
      let cfg : Config := { account with plugin := strOr bodyPlugin account.plugin,
                                         args := strOr bodyArgs account.args }
      let s := { s with files := unlinkFile s.files (logPath username) }
      let s := writeToCustomLog username "[AGENT] Starting bot".toList s
      let s := { s with spawned := buildLaunchCommand javaPath cfg :: s.spawned }
      let b := s.bots.length
      let bot : Bot :=
        { pid := if pidTruthy childPid then childPid else none, startTime := s.now, config := cfg,
          status := Status.starting, currentTask := none, tailProcess := none }
      let s := { s with bots := s.bots ++ [bot], runningBots := mapSet s.runningBots username b }
      let s := writeToCustomLog username ("[AGENT] Launched with PID ".toList ++ pidText childPid) s
      let s := { s with settles := s.settles ++
                  [({ username := username, bot := b, setAt := s.now, done := false } : Settle)] }
      { s with responses := Response.started childPid :: s.responses }

/-- The function `getAccountDetails(username)`: `accounts` is what
`loadAccounts()` returned (passwords encrypted), `decrypt` is the function of
`utils.js`, which gives `none` where it throws.  The result is `none` when
`decrypt` threw, otherwise the value returned: the first account of that name
with its password decrypted, or `undefined`. -/
def getAccountDetails (decrypt : Str → Option Str) (accounts : List Config) (username : Str) :
    Option (Option Config) :=
  match accounts.find? (fun a => a.username = username) with
  | some acc =>
    (match decrypt acc.password with
     | some password => some (some { acc with password := password })
     | none => none)
  | none => some none

/-- The call `startBot(username, body, res)` from its first statement on: an
exception of `getAccountDetails` rejects the call before it has done anything. -/
def startRequest (decrypt : Str → Option Str) (accounts : List Config) (username : Str)
    (bodyPlugin bodyArgs : Option Str) (javaPath : Str) (childPid : Option Nat) (s : State) :
    State :=
  match getAccountDetails decrypt accounts username with
  | some account => startBot username account bodyPlugin bodyArgs javaPath childPid s
  | none => s

/-! ## The settle-delay callback: PID resolution, log discovery, tailing, liveness timer -/

/-- A file of the shared log directory as `startBot` reads it: its name (which
stands for `path.join(sharedLogDir, name)`), modification time and content. -/
structure LogFile where
  name : Str
  time : Nat
  content : Str
  deriving DecidableEq, Repr

/-- JavaScript `name.endsWith(suffix)`. -/
def endsWith (name suffix : Str) : Bool := (stripPrefix suffix.reverse name.reverse).isSome

/-- The stable sort `.sort((a, b) => b.time - a.time)`: most recent first. -/
def sortByRecency (files : List LogFile) : List LogFile :=
  files.insertionSort (fun a b => b.time ≤ a.time)

/-- The loop over `files.slice(0, 5)`: the first file whose `snippet`, the last
5000 code units of its content (`.slice(-5000)`), contains `username`. -/
def firstMention (username : Str) : List LogFile → Option Str
  | [] => none
  | file :: rest =>
    if includesUnits (sliceLast 5000 (codeUnits file.content)) (codeUnits username) then
      some file.name
    else firstMention username rest

/-- Log discovery of `startBot`: `targetLog || files[0]?.path` over the `.log`
entries of the shared log directory. -/
def discoverLog (username : Str) (entries : List LogFile) : Option Str :=
  let files := sortByRecency (entries.filter (fun f => endsWith f.name ".log".toList))
  match firstMention username (files.take 5) with
  | some target => if target = [] then (files.head?).map (fun f => f.name) else some target
  | none => (files.head?).map (fun f => f.name)

/-- First block of the settle-delay callback, PID resolution: `wmic` is the
number `parseInt(match[1])` read from the output of the `wmic` query (`none`:
no match, or the command failed).  It is a Windows process id, below `2^32`,
where `parseInt` reads the digits exactly and the template literal prints
them back unchanged. -/
def resolvePid (username : Str) (b : Nat) (wmic : Option Nat) (s : State) : State :=
  match wmic with
  | some realPid =>
    writeToCustomLog username ("[AGENT] Java PID: ".toList ++ natText realPid)
      (modifyBot b (fun bot => { bot with pid := some realPid }) s)
  | none => s

/-- Second block of the settle-delay callback, log discovery and tailing: `dir`
is the shared log directory (`none`: it does not exist). -/
def startTail (username : Str) (b : Nat) (dir : Option (List LogFile)) (s : State) : State :=
  match dir with
  | some entries =>
    (match discoverLog username entries with
     | some latestLog =>
       if latestLog = [] then s
       else
         let s := writeToCustomLog username ("[AGENT] Tailing: ".toList ++ latestLog) s
         let t := s.tails.length
         let s := { s with tails := s.tails ++
                     [({ file := latestLog, username := username, bot := b, watching := true } : Tail)] }
         modifyBot b (fun bot => { bot with tailProcess := some t }) s
     | none => s)
  | none => s

/-- Third block of the settle-delay callback: the liveness timer `checkInterval`. -/
def startPolling (username : Str) (b : Nat) (s : State) : State :=
  { s with polls := s.polls ++
      [({ username := username, bot := b, active := true, inflight := 0 } : Poll)] }

/-- The body of the settle-delay callback of the `startBot` call that made the
record object `b`, from the answer of the `wmic` query on. -/
def settleBody (username : Str) (b : Nat) (wmic : Option Nat) (dir : Option (List LogFile))
    (s : State) : State :=
  startPolling username b (startTail username b dir (resolvePid username b wmic s))

/-! ## Liveness polling -/

/-- The call `clearInterval(checkInterval)` for the liveness timer `i`. -/
def cancelPoll (i : Nat) (s : State) : State :=
  match s.polls[i]? with
  | some p => { s with polls := s.polls.set i { p with active := false } }
  | none => s

/-- The statement `if (bot.tailProcess) bot.tailProcess.unwatch()`. -/
def releaseTail (b : Nat) (s : State) : State :=
  match s.bots[b]? with
  | some bot =>
    (match bot.tailProcess with
     | some t => unwatch t s
     | none => s)
  | none => s

/-- The call `setTimeout(() => runningBots.delete(username), 5000)`. -/
def scheduleRemoval (username : Str) (b : Nat) (s : State) : State :=
  { s with removals := s.removals ++
      [({ username := username, bot := b, setAt := s.now, done := false } : Removal)] }

/-- The `catch` branch of the liveness callback of timer `i` (record object `b`). -/
def exitBranch (i : Nat) (username : Str) (b : Nat) (s : State) : State :=
  writeToCustomLog username "[AGENT] Process exited".toList
    (scheduleRemoval username b
      (modifyBot b (fun bot => { bot with status := Status.stopped })
        (releaseTail b (cancelPoll i s))))

/-! ## Stop requests -/

/-- The end of the stop handler: `runningBots.delete(username)` and the answer. -/
def finishStop (username : Str) (s : State) : State :=
  { s with runningBots := mapDelete s.runningBots username,
           responses := Response.success :: s.responses }

/-- The handler of `POST /agent/stop` up to its `await`: with a usable pid the
`taskkill` command is issued and the handler waits for it; without one the
handler runs to its end. -/
def stopRequest (username : Str) (s : State) : State :=
  match mapGet s.runningBots username with
  | none => { s with responses := Response.success :: s.responses }
  | some b =>
    match s.bots[b]? with
    | none => { s with responses := Response.success :: s.responses }
    | some bot =>
      let s := match bot.tailProcess with
        | some t => modifyBot b (fun bot => { bot with tailProcess := none }) (unwatch t s)
        | none => s
      match bot.pid with
      | some pid =>
        if pid != 0 then
          { s with killed := pid :: s.killed,
                   kills := s.kills ++ [({ username := username, bot := b, pid := pid, done := false } : Kill)] }
        else finishStop username (writeToCustomLog username "[AGENT] No valid PID to kill".toList s)
      | none => finishStop username (writeToCustomLog username "[AGENT] No valid PID to kill".toList s)

/-- The stop handler after its `taskkill` answered: `err` is the error message
when the command failed. -/
def stopResume (k : Kill) (err : Option Str) (s : State) : State :=
  let s := match err with
    | none =>
      writeToCustomLog k.username
        ("[AGENT] Stopped via taskkill PID ".toList ++
          pidText (match s.bots[k.bot]? with
            | some bot => bot.pid
            | none => none)) s
    | some message =>
      writeToCustomLog k.username ("[AGENT] taskkill failed: ".toList ++ message) s
  finishStop k.username s

/-! ## The log query -/

/-- First block of the log query: `logs`, the last 1000 pieces of the rolling
log of `username` (empty when there is no file). -/
def readLogs (username : Str) (s : State) : Str :=
  match readFile s.files (logPath username) with
  | some content => jsJoin "\n".toList (sliceLast 1000 (jsSplit content "\n".toList))
  | none => []

/-- Second block of the log query: `if (oldTask !== currentTask)` the task is
stored in `currentTasks` and broadcast. -/
def publishTask (username currentTask : Str) (s : State) : State :=
  if taskGet s.currentTasks username ≠ some currentTask then
    broadcastTask username currentTask
      { s with currentTasks := taskSet s.currentTasks username currentTask }
  else s

/-- The expression `bot?.status || 'stopped'` of the log query. -/
def statusOrStopped (username : Str) (s : State) : Status :=
  match mapGet s.runningBots username with
  | some b =>
    (match s.bots[b]? with
     | some bot => bot.status
     | none => Status.stopped)
  | none => Status.stopped

/-- The handler of `GET /api/logs/:username`, for the decoded parameter
`username`.  The `catch` branch answers 500 with the message of the
`TypeError` that `extractCurrentTask` would raise. -/
def logsRoute (username : Str) (s : State) : State :=
  let logs := readLogs username s
  match extractCurrentTask logs with
  | some currentTask =>
    let s := publishTask username currentTask s
    { s with responses :=
        Response.logs logs (statusOrStopped username s) currentTask :: s.responses }
  | none =>
    { s with responses :=
        Response.error 500 "Cannot read properties of undefined (reading \x27trim\x27)".toList ::
          s.responses }

/-! ## Events and runs -/

/-- What can happen to the agent.  Timers and answers of child processes carry
the index of the pending item they belong to. -/
inductive Event
  | advance (dt : Nat) (clock : Str)
  | webhookLoaded (url : Str)
  | start (username : Str) (account : Option Config) (bodyPlugin bodyArgs : Option Str)
      (javaPath : Str) (childPid : Option Nat)
  | settle (k : Nat) (wmic : Option Nat) (dir : Option (List LogFile))
  | line (t : Nat) (text : Str)
  | tailError (t : Nat) (message : Str)
  | tick (i : Nat)
  | probeDone (i : Nat) (rejected : Bool)
  | stop (username : Str)
  | killDone (k : Nat) (err : Option Str)
  | removeFire (r : Nat)
  | logs (username : Str)

/-- One liveness tick of timer `i`: nothing without a pid, otherwise a
`tasklist` probe is started.  Only an active timer ticks; the period of 5000 ms
is not modelled, a tick may come at any time. -/
def tick (i : Nat) (s : State) : State :=
  match s.polls[i]? with
  | some p =>
    if p.active then
      match s.bots[p.bot]? with
      | some bot =>
        if pidTruthy bot.pid then { s with polls := s.polls.set i { p with inflight := p.inflight + 1 } }
        else s
      | none => s
    else s
  | none => s

/-- The answer of a `tasklist` probe of timer `i`: `rejected` when the command
failed, which is how the callback learns that the pid is gone. -/
def probeDone (i : Nat) (rejected : Bool) (s : State) : State :=
  match s.polls[i]? with
  | some p =>
    if p.inflight = 0 then s
    else
      let s := { s with polls := s.polls.set i { p with inflight := p.inflight - 1 } }
      if rejected then exitBranch i p.username p.bot s else s
  | none => s

/-- The settle-delay callback `k`, which runs 3000 ms after its `startBot` at
the earliest, and once. -/
def settle (k : Nat) (wmic : Option Nat) (dir : Option (List LogFile)) (s : State) : State :=
  match s.settles[k]? with
  | some st =>
    if st.done || s.now < st.setAt + 3000 then s
    else settleBody st.username st.bot wmic dir
      { s with settles := s.settles.set k { st with done := true } }
  | none => s

/-- A line that the tail object `t` emits; a tail that was unwatched emits none. -/
def lineEvent (t : Nat) (text : Str) (s : State) : State :=
  match s.tails[t]? with
  | some tl => if tl.watching then onLine tl.username tl.bot text s else s
  | none => s

/-- The listener `tail.on('error', ...)` of the tail object `t`. -/
def tailError (t : Nat) (message : Str) (s : State) : State :=
  match s.tails[t]? with
  | some tl => writeToCustomLog tl.username ("[AGENT] Tail error: ".toList ++ message) s
  | none => s

/-- The answer of the `taskkill` of the waiting stop request `k`. -/
def killDone (k : Nat) (err : Option Str) (s : State) : State :=
  match s.kills[k]? with
  | some kl =>
    if kl.done then s
    else stopResume kl err { s with kills := s.kills.set k { kl with done := true } }
  | none => s

/-- The grace timer `r` fires, 5000 ms after it was set at the earliest, and once. -/
def removeFire (r : Nat) (s : State) : State :=
  match s.removals[r]? with
  | some rm =>
    if rm.done || s.now < rm.setAt + 5000 then s
    else { s with runningBots := mapDelete s.runningBots rm.username,
                  removals := s.removals.set r { rm with done := true } }
  | none => s

/-- The successful branch of `loadDiscordWebhook`. -/
def webhookLoaded (url : Str) (s : State) : State :=
  if includes url "discord.com/api/webhooks".toList then { s with webhook := url } else s

/-- One event. -/
def step (s : State) : Event → State
  | Event.advance dt clock => { s with now := s.now + dt, clock := clock }
  | Event.webhookLoaded url => webhookLoaded url s
  | Event.start username account bodyPlugin bodyArgs javaPath childPid =>
    startBot username account bodyPlugin bodyArgs javaPath childPid s
  | Event.settle k wmic dir => settle k wmic dir s
  | Event.line t text => lineEvent t text s
  | Event.tailError t message => tailError t message s
  | Event.tick i => tick i s
  | Event.probeDone i rejected => probeDone i rejected s
  | Event.stop username => stopRequest username s
  | Event.killDone k err => killDone k err s
  | Event.removeFire r => removeFire r s
  | Event.logs username => logsRoute username s

/-- A run: the events in order. -/
def run (s : State) (events : List Event) : State := events.foldl step s

/-- The states the agent can be in. -/
def Reachable (s : State) : Prop :=
  ∃ clock files events, s = run (initial clock files) events

/-! ## Reading aids for the statements -/

/-- The text that follows the first occurrence of `marker` in a line; `none`
when the line does not contain it. -/
def textAfter (marker : Str) : Str → Option Str
  | [] => stripPrefix marker []
  | c :: cs =>
    match stripPrefix marker (c :: cs) with
    | some rest => some rest
    | none => textAfter marker cs

/-- The text before the first occurrence of `marker`; the whole text when
`marker` does not occur. -/
def textBefore (marker : Str) : Str → Str
  | [] => []
  | c :: cs => if (stripPrefix marker (c :: cs)).isSome then [] else c :: textBefore marker cs

/-- The task text the live tail reads behind the marker: leading white space
skipped, up to the first line terminator, trimmed. -/
def taskText (rest : Str) : Str :=
  trim ((rest.dropWhile isWhiteSpace).takeWhile (fun c => !isLineTerminator c))

/-- The description the tail handler hands to the alert: the text behind the
first `PAccountBuilder: ` up to the first line terminator, and the whole line
when that text is empty or the line has no `PAccountBuilder: `. -/
def failureText (line : Str) : Str :=
  match textAfter pabMarker line with
  | some rest =>
    if rest.takeWhile (fun c => !isLineTerminator c) = [] then line
    else rest.takeWhile (fun c => !isLineTerminator c)
  | none => line

/-- A line that the pull-based scan stops at. -/
def hasMarker (line : Str) : Bool := includes line taskMarker || includes line stopMarker

/-- The result the pull-based scan gives for a line it stops at: the trimmed
text between the first task marker of the line and the next one (the end of
the line when there is none); `Stopped` for a line without task marker. -/
def lineResult (line : Str) : Str :=
  match textAfter taskMarker line with
  | some rest => trim (textBefore taskMarker rest)
  | none => "Stopped".toList

/-- What the task check of one tailed line does to the fields of its record. -/
def taskUpdate (line : Str) (bot : Bot) : Bot :=
  if includes line taskMarker then
    match matchTask line with
    | some m => { bot with currentTask := some (trim m) }
    | none => bot
  else bot

/-- What the login check of one tailed line does to the fields of its record. -/
def loginUpdate (line : Str) (bot : Bot) : Bot :=
  if includes line loginMarker then { bot with status := Status.running } else bot

/-- What one tailed line does to the fields of its record. -/
def lineUpdate (line : Str) (bot : Bot) : Bot := loginUpdate line (taskUpdate line bot)

/-- The parts of the state that only timers, tails and requests change. -/
def SameObjects (s s' : State) : Prop :=
  s'.tails = s.tails ∧ s'.settles = s.settles ∧ s'.polls = s.polls ∧
  s'.removals = s.removals ∧ s'.kills = s.kills ∧ s'.runningBots = s.runningBots ∧
  s'.now = s.now ∧ s'.unwatched = s.unwatched ∧ s'.bots.length = s.bots.length

/-- The settle-delay callback of the record object `b` has run. -/
def Settled (s : State) (b : Nat) : Prop :=
  ∃ st, s.settles[b]? = some st ∧ st.done = true

/-- What holds of the objects in every state the agent can reach: each record
object has its own settle-delay callback, in creation order; tails and liveness
timers exist for settled records only; only a settled record is `stopped`; a tail
that is still watching is the `tailProcess` of its record, which is not
`stopped`; a grace timer belongs to a `stopped` record. -/
structure Consistent (s : State) : Prop where
  settles_len : s.settles.length = s.bots.length
  settles_bot : ∀ (k : Nat) (st : Settle), s.settles[k]? = some st → st.bot = k
  tails_settled : ∀ tl ∈ s.tails, Settled s tl.bot
  polls_settled : ∀ b ∈ s.polls.map Poll.bot, Settled s b
  stopped_settled : ∀ (b : Nat) (bot : Bot), s.bots[b]? = some bot →
    bot.status = Status.stopped → Settled s b
  watching : ∀ (t : Nat) (tl : Tail), s.tails[t]? = some tl → tl.watching = true →
    ∃ bot : Bot, s.bots[tl.bot]? = some bot ∧ bot.tailProcess = some t ∧ bot.status ≠ Status.stopped
  removals_stopped : ∀ b ∈ s.removals.map Removal.bot,
    ∃ bot : Bot, s.bots[b]? = some bot ∧ bot.status = Status.stopped

/-- Every record that is `stopped` in `s` is `stopped` in `s'`. -/
def KeepsStopped (s s' : State) : Prop :=
  ∀ (b : Nat) (bot : Bot), s.bots[b]? = some bot → bot.status = Status.stopped →
    ∃ bot' : Bot, s'.bots[b]? = some bot' ∧ bot'.status = Status.stopped

/-- No tail object of `s` is lost or starts watching again in `s'`. -/
def TailsEvolve (s s' : State) : Prop :=
  ∀ (t : Nat) (tl : Tail), s.tails[t]? = some tl →
    ∃ tl' : Tail, s'.tails[t]? = some tl' ∧ (tl'.watching = true → tl.watching = true)

/-- A log text from its lines: each line followed by a newline. -/
def unlines : List Str → Str
  | [] => []
  | l :: ls => l ++ '\n' :: unlines ls

/-- The lines that the tail listener writes into the rolling log for one
tailed line read at clock text `clock`: the line itself and, for an error
line, its `[ERROR]` copy, each behind the timestamp. -/
def lineEntries (clock line : Str) : List Str :=
  (timestamp clock ++ ' ' :: line) ::
    (if includes line errorMarker || includes line exceptionMarker then
      [timestamp clock ++ ' ' :: ("[ERROR] ".toList ++ line)]
     else [])

/-- All the lines written for a sequence of tailed lines, each with the clock
text at which it is read. -/
def writtenLines : List (Str × Str) → List Str
  | [] => []
  | (clock, line) :: rest => lineEntries clock line ++ writtenLines rest

/-- The tail listener of account `username` and record `b` fed with a
sequence of lines, each read at its clock text. -/
def feed (username : Str) (b : Nat) : State → List (Str × Str) → State
  | s, [] => s
  | s, (clock, line) :: rest =>
    feed username b (onLine username b line { s with clock := clock }) rest

/-- The task of a record as the observers see it: `Idle` for null. -/
def taskOrIdle : Option Str → Str
  | some task => task
  | none => "Idle".toList

/-- The characters of `Date.prototype.toISOString()`. -/
def isIsoChar (c : Char) : Bool :=
  ('0'.toNat ≤ c.toNat && c.toNat ≤ '9'.toNat) || c == '-' || c == ':' || c == '.' ||
  c == 'T' || c == 'Z' || c == '+'

/-- A worker line on which the two task derivations read the same: no line
terminator inside, no stop marker, and the task marker at most once, followed
by at least one character. -/
def plainLine (line : Str) : Bool :=
  line.all (fun c => !isLineTerminator c) && !includes line stopMarker &&
  (match textAfter taskMarker line with
   | some rest => rest != [] && !includes rest taskMarker
   | none => true)

/-- A stop request served to its end: the handler, and the answer of its
`taskkill` when it issued one (`err`: the error message when the command
failed).  Nothing else happens in between. -/
def stopServed (username : Str) (err : Option Str) (s : State) : State :=
  let s1 := stopRequest username s
  if s1.kills.length = s.kills.length then s1 else killDone s.kills.length err s1

/-- The `&`-separated pairs of the `args` of a configuration; none when `args`
is absent or empty. -/
def argPairs (args : Option Str) : List Str :=
  match args with
  | some a => if a = [] then [] else jsSplit a "&".toList
  | none => []

/-- The value that `buildLaunchCommand` reads in a pair `key=value`: the text
behind the first `=`, up to the next `=` when there is one. -/
def pairValue (pair : Str) : Str := textBefore "=".toList ((textAfter "=".toList pair).getD [])

/-- The argument `-Dkey="value"` for a pair. -/
def definitionArg (pair : Str) : Str :=
  "-D".toList ++ textBefore "=".toList pair ++ "=\"".toList ++ pairValue pair ++ "\"".toList

/-- The `.log` entries of a listing of the shared log directory: the files
whose name has the suffix `.log`. -/
def dotLogFiles (entries : List LogFile) : List LogFile :=
  entries.filter (fun f => decide (".log".toList <:+ f.name))

/-- The trailing window of the file contains the account name: the content,
as UTF-16 code units, has a suffix `window` of 5000 units (the whole content
when it is shorter) in which the units of the name occur as a block. -/
def mentions (username : Str) (f : LogFile) : Bool :=
  decide (∃ window ∈ (codeUnits f.content).tails,
    window.length = min 5000 (codeUnits f.content).length ∧ codeUnits username <:+: window)

/-! ## Sample data -/

/-- An account name. -/
def alice : Str := "alice".toList

/-- Alice's stored account, password decrypted. -/
def aliceAccount : Config :=
  { username := alice, password := "pw".toList, plugin := none, args := none }

/-- The clock text at the start. -/
def clock0 : Str := "2026-01-01T00:00:00.000Z".toList

/-- The clock text three seconds later. -/
def clock3 : Str := "2026-01-01T00:00:03.000Z".toList

/-- The worker's log file in the shared log directory. -/
def clientLog : LogFile :=
  { name := "client.log".toList, time := 5, content := "login alice".toList }

/-- The agent after alice was started (shell pid 4242) and her settle-delay
callback ran: java pid 777, `client.log` tailed, liveness timer set. -/
def aliceSettled : State :=
  run (initial clock0 [])
    [Event.start alice (some aliceAccount) none none "java".toList (some 4242),
     Event.advance 3000 clock3,
     Event.settle 0 (some 777) (some [clientLog])]

/-- The rolling log of alice in `aliceSettled`, line by line. -/
def aliceLogLines : List Str :=
  ["2026-01-01 00:00:00 GMT [AGENT] Starting bot".toList,
   "2026-01-01 00:00:00 GMT [AGENT] Launched with PID 4242".toList,
   "2026-01-01 00:00:03 GMT [AGENT] Java PID: 777".toList,
   "2026-01-01 00:00:03 GMT [AGENT] Tailing: client.log".toList]

/-- Two worker lines, read at `clock3`. -/
def aliceLines : List (Str × Str) :=
  [(clock3, "Executing task: Mine iron".toList), (clock3, "ERROR lost connection".toList)]

/-- The events up to alice's settled state. -/
def aliceEvents : List Event :=
  [Event.start alice (some aliceAccount) none none "java".toList (some 4242),
   Event.advance 3000 clock3,
   Event.settle 0 (some 777) (some [clientLog])]

/-- Alice's record in `aliceSettled`. -/
def aliceBot : Bot :=
  { pid := some 777, startTime := 0, config := aliceAccount, status := Status.starting,
    currentTask := none, tailProcess := some 0 }

/-- Alice's liveness timer in `aliceSettled`. -/
def alicePoll : Poll := { username := alice, bot := 0, active := true, inflight := 0 }

/-- The agent right after alice was started. -/
def aliceStarted : State :=
  run (initial clock0 [])
    [Event.start alice (some aliceAccount) none none "java".toList (some 4242)]

/-- Alice's record in `aliceStarted`. -/
def aliceStartBot : Bot :=
  { pid := some 4242, startTime := 0, config := aliceAccount, status := Status.starting,
    currentTask := none, tailProcess := none }

/-- Alice stopped after her settle-delay callback: request and `taskkill` answer. -/
def aliceStopped : State :=
  run aliceSettled [Event.stop alice, Event.killDone 0 none]

/-- Alice stopped before her settle-delay callback. -/
def aliceStoppedEarly : State :=
  run aliceStarted [Event.stop alice, Event.killDone 0 none]

/-- The settle-delay callback of the early-stopped alice runs. -/
def aliceLateSettle : State :=
  run aliceStoppedEarly [Event.advance 3000 clock3, Event.settle 0 (some 777) (some [clientLog])]

/-- Alice's process is found gone by the liveness callback. -/
def aliceExited : State :=
  run (initial clock0 []) (aliceEvents ++ [Event.tick 0, Event.probeDone 0 true])

/-- The grace delay after alice's exit has passed. -/
def aliceGrace : State :=
  run (initial clock0 [])
    (aliceEvents ++ [Event.tick 0, Event.probeDone 0 true,
      Event.advance 5000 "2026-01-01T00:00:08.000Z".toList])

/-- Alice is started again two seconds after her exit, and the grace delay of
that exit passes. -/
def aliceRestarted : State :=
  run aliceExited
    [Event.advance 2000 "2026-01-01T00:00:05.000Z".toList,
     Event.start alice (some aliceAccount) none none "java".toList (some 4343),
     Event.advance 3000 "2026-01-01T00:00:08.000Z".toList]

/-- Alice is started and the `wmic` query of her settle-delay callback finds no
`java.exe`: no pid was resolved. -/
def aliceUnresolved : State :=
  run (initial clock0 [])
    [Event.start alice (some aliceAccount) none none "java".toList (some 4242),
     Event.advance 3000 clock3,
     Event.settle 0 none (some [clientLog])]

/-- An account name without a record. -/
def bob : Str := "bob".toList

/-- A stand-in for `decrypt`: it strips the prefix `enc:` and throws without it. -/
def demoDecrypt (c : Str) : Option Str := stripPrefix "enc:".toList c

/-- The stored account of bob: his password decrypts to the empty text. -/
def bobStored : Config :=
  { username := bob, password := "enc:".toList, plugin := none, args := none }

/-- The stored accounts: alice and bob. -/
def storedAccounts : List Config :=
  [{ username := alice, password := "enc:pw".toList, plugin := none, args := none }, bobStored]

/-- An account name that is not stored. -/
def carol : Str := "carol".toList

/-- A configuration whose second pair has a value with `=` inside. -/
def scriptConfig : Config :=
  { username := alice, password := "pw".toList, plugin := none,
    args := some "world=301&fast&script=a=b".toList }

/-- A listing of the shared log directory: seven `.log` files and a text
file; the account name `alice` is in `c.log`, in `e.log` and in the two oldest. -/
def sharedDir : List LogFile :=
  [{ name := "a.log".toList, time := 1, content := "alice".toList },
   { name := "b.log".toList, time := 8, content := "bob".toList },
   { name := "notes.txt".toList, time := 9, content := "alice".toList },
   { name := "c.log".toList, time := 6, content := "login alice".toList },
   { name := "d.log".toList, time := 7, content := "carol".toList },
   { name := "e.log".toList, time := 4, content := "alice again".toList },
   { name := "f.log".toList, time := 5, content := "".toList },
   { name := "g.log".toList, time := 2, content := "alice".toList }]

/-- A line of a thousand characters. -/
def longLine : Str := List.replicate 1000 'a'

/-- A rolling log of 600 such lines: 600600 bytes. -/
def fullLog : Str := unlines (List.replicate 600 longLine)

/-- The agent with that rolling log for alice. -/
def fullState : State := initial clock0 [(logPath alice, fullLog)]

/-- Alice's worker announces a task on the live tail. -/
def aliceAnnounced : State :=
  run aliceSettled [Event.line 0 "Executing task: Mine iron".toList]

/-- A character outside the Basic Multilingual Plane: two code units in UTF-16. -/
def grin : Char := Char.ofNat 0x1F600

/-- A recent log that names `emouser` and then holds 2500 characters of two
code units each: the name is outside the last 5000 code units. -/
def emoLog : LogFile :=
  { name := "emo.log".toList, time := 9,
    content := "emouser".toList ++ List.replicate 2500 grin }

/-- An older log that names `emouser`. -/
def plainLog : LogFile :=
  { name := "t1.log".toList, time := 1, content := "login emouser".toList }

end Agent

namespace Agent

/-! ## Basic facts about the string primitives -/

theorem stripPrefix_eq_some {p s r : Str} (h : stripPrefix p s = some r) : s = p ++ r := by
  induction p generalizing s with
  | nil =>
    simp only [stripPrefix, Option.some.injEq] at h
    simp [h]
  | cons a p ih =>
    cases s with
    | nil => simp [stripPrefix] at h
    | cons c cs =>
      by_cases hac : a = c
      · subst hac
        simp only [stripPrefix, if_true] at h
        rw [ih h]; rfl
      · simp [stripPrefix, hac] at h

theorem stripPrefix_append (p r : Str) : stripPrefix p (p ++ r) = some r := by
  induction p with
  | nil => rfl
  | cons a p ih => simpa [stripPrefix] using ih

theorem includes_iff_textAfter (marker line : Str) :
    includes line marker = true ↔ ∃ rest, textAfter marker line = some rest := by
  induction line with
  | nil =>
    simp only [includes, textAfter, Option.isSome_iff_exists]
  | cons c cs ih =>
    simp only [includes, textAfter, Bool.or_eq_true, Option.isSome_iff_exists]
    cases h : stripPrefix marker (c :: cs) with
    | some r => simp
    | none => simpa using ih

theorem isWhiteSpace_of_isLineTerminator {c : Char} (h : isLineTerminator c = true) :
    isWhiteSpace c = true := by
  simp [isWhiteSpace, h]

theorem takeWhile_notLT_of_all {s : Str} (h : s.all isLineTerminator = true) :
    s.takeWhile (fun c => !isLineTerminator c) = [] := by
  cases s with
  | nil => rfl
  | cons c cs =>
    simp only [List.all_cons, Bool.and_eq_true] at h
    simp [List.takeWhile, h.1]

theorem dropWhile_ws_of_all {s : Str} (h : s.all isLineTerminator = true) :
    s.dropWhile isWhiteSpace = [] := by
  induction s with
  | nil => rfl
  | cons c cs ih =>
    simp only [List.all_cons, Bool.and_eq_true] at h
    simp [List.dropWhile, isWhiteSpace_of_isLineTerminator h.1, ih h.2]

theorem trim_nil : trim [] = [] := rfl

theorem trim_singleton_ws {c : Char} (h : isWhiteSpace c = true) : trim [c] = [] := by
  simp [trim, List.dropWhile, h]

/-- What `\s*(.+)` captures behind the marker. -/
theorem wsStarDotPlus_spec (rest : Str) :
    (wsStarDotPlus rest = none ∧ rest.all isLineTerminator = true) ∨
    (∃ cap, wsStarDotPlus rest = some cap ∧ trim cap = taskText rest ∧
      rest.all isLineTerminator = false) := by
  induction rest with
  | nil => left; exact ⟨rfl, rfl⟩
  | cons c cs ih =>
    by_cases hws : isWhiteSpace c = true
    · rcases ih with ⟨hn, hall⟩ | ⟨cap, hs, ht, hall⟩
      · by_cases hlt : isLineTerminator c = true
        · left
          refine ⟨?_, by simp [hlt, hall]⟩
          simp [wsStarDotPlus, hws, hn, dotPlus, List.takeWhile, hlt]
        · right
          refine ⟨[c], ?_, ?_, by simp [hlt]⟩
          · simp [wsStarDotPlus, hws, hn, dotPlus, List.takeWhile, hlt, takeWhile_notLT_of_all hall]
          · simp [taskText, List.dropWhile, hws, dropWhile_ws_of_all hall, trim_singleton_ws hws, trim_nil]
      · right
        refine ⟨cap, ?_, ?_, ?_⟩
        · simp [wsStarDotPlus, hws, hs]
        · simpa [taskText, List.dropWhile, hws] using ht
        · simp only [List.all_cons, hall, Bool.and_false]
    · have hlt : isLineTerminator c = false := by
        cases h : isLineTerminator c with
        | true => exact absurd (isWhiteSpace_of_isLineTerminator h) hws
        | false => rfl
      right
      refine ⟨c :: cs.takeWhile (fun c => !isLineTerminator c), ?_, ?_, by simp [hlt]⟩
      · simp [wsStarDotPlus, hws, dotPlus, List.takeWhile, hlt]
      · simp [taskText, List.dropWhile, hws, List.takeWhile, hlt]

theorem matchTask_eq_none_of_not_mem {l : Str} (h : 'E' ∉ l) : matchTask l = none := by
  induction l with
  | nil => rfl
  | cons c cs ih =>
    simp only [List.mem_cons, not_or] at h
    have hc : ¬ 'E' = c := h.1
    simp [matchTask, matchTaskAt, taskMarker, stripPrefix, hc, ih h.2]

theorem not_mem_of_all_lineTerminator {s : Str} (h : s.all isLineTerminator = true) : 'E' ∉ s := by
  intro hm
  have := List.all_eq_true.mp h _ hm
  revert this
  decide

/-- The task pattern finds its leftmost match at the first marker of the line. -/
theorem matchTask_eq (line rest : Str) (h : textAfter taskMarker line = some rest) :
    matchTask line = wsStarDotPlus rest := by
  induction line with
  | nil => simp [textAfter, taskMarker, stripPrefix] at h
  | cons c cs ih =>
    simp only [textAfter] at h
    cases hp : stripPrefix taskMarker (c :: cs) with
    | none =>
      rw [hp] at h
      simp only [matchTask, matchTaskAt, hp]
      exact ih h
    | some r =>
      rw [hp] at h
      simp only [Option.some.injEq] at h
      subst h
      simp only [matchTask, matchTaskAt, hp]
      cases hw : wsStarDotPlus r with
      | some cap => rfl
      | none =>
        simp only
        rcases wsStarDotPlus_spec r with ⟨_, hall⟩ | ⟨cap, hs, _, _⟩
        · have hcs := stripPrefix_eq_some hp
          have hcs2 : cs = "xecuting task:".toList ++ r := by
            have : c :: cs = 'E' :: ("xecuting task:".toList ++ r) := hcs
            exact (List.cons.inj this).2
          apply matchTask_eq_none_of_not_mem
          rw [hcs2]
          simp only [List.mem_append, not_or]
          exact ⟨by decide, not_mem_of_all_lineTerminator hall⟩
        · rw [hw] at hs; cases hs


/-! ## What the helpers leave untouched -/

@[simp] theorem writeToCustomLog_bots (u m : Str) (s : State) :
    (writeToCustomLog u m s).bots = s.bots := rfl

@[simp] theorem writeToCustomLog_broadcasts (u m : Str) (s : State) :
    (writeToCustomLog u m s).broadcasts = s.broadcasts := rfl

@[simp] theorem writeToCustomLog_alerts (u m : Str) (s : State) :
    (writeToCustomLog u m s).alerts = s.alerts := rfl

@[simp] theorem writeToCustomLog_posts (u m : Str) (s : State) :
    (writeToCustomLog u m s).posts = s.posts := rfl

@[simp] theorem writeToCustomLog_webhook (u m : Str) (s : State) :
    (writeToCustomLog u m s).webhook = s.webhook := rfl

@[simp] theorem sendDiscordAlert_bots (u e : Str) (bot : Option Bot) (s : State) :
    (sendDiscordAlert u e bot s).bots = s.bots := by
  unfold sendDiscordAlert
  by_cases h : s.webhook = [] <;> simp [h]

@[simp] theorem sendDiscordAlert_broadcasts (u e : Str) (bot : Option Bot) (s : State) :
    (sendDiscordAlert u e bot s).broadcasts = s.broadcasts := by
  unfold sendDiscordAlert
  by_cases h : s.webhook = [] <;> simp [h]

@[simp] theorem sendDiscordAlert_alerts (u e : Str) (bot : Option Bot) (s : State) :
    (sendDiscordAlert u e bot s).alerts = (u, e) :: s.alerts := by
  unfold sendDiscordAlert
  by_cases h : s.webhook = [] <;> simp [h]

@[simp] theorem modifyBot_broadcasts (b : Nat) (f : Bot → Bot) (s : State) :
    (modifyBot b f s).broadcasts = s.broadcasts := by
  unfold modifyBot
  cases s.bots[b]? <;> rfl

@[simp] theorem modifyBot_alerts (b : Nat) (f : Bot → Bot) (s : State) :
    (modifyBot b f s).alerts = s.alerts := by
  unfold modifyBot
  cases s.bots[b]? <;> rfl

@[simp] theorem modifyBot_posts (b : Nat) (f : Bot → Bot) (s : State) :
    (modifyBot b f s).posts = s.posts := by
  unfold modifyBot
  cases s.bots[b]? <;> rfl

theorem modifyBot_bots (b : Nat) (f : Bot → Bot) (s : State) :
    (modifyBot b f s).bots = match s.bots[b]? with
      | some bot => s.bots.set b (f bot)
      | none => s.bots := by
  unfold modifyBot
  cases s.bots[b]? <;> rfl

theorem modifyBot_get_same (b : Nat) (f : Bot → Bot) (s : State) :
    (modifyBot b f s).bots[b]? = (s.bots[b]?).map f := by
  rw [modifyBot_bots]
  cases h : s.bots[b]? with
  | none => simp [h]
  | some bot =>
    have hlt : b < s.bots.length := by
      rcases List.getElem?_eq_some.mp h with ⟨hlt, _⟩
      exact hlt
    simp [List.getElem?_set, hlt]

@[simp] theorem broadcastTask_bots (u t : Str) (s : State) :
    (broadcastTask u t s).bots = s.bots := rfl


@[simp] theorem unwatch_bots (t : Nat) (s : State) : (unwatch t s).bots = s.bots := by
  unfold unwatch
  cases s.tails[t]? <;> rfl

@[simp] theorem unwatch_polls (t : Nat) (s : State) : (unwatch t s).polls = s.polls := by
  unfold unwatch
  cases s.tails[t]? <;> rfl

@[simp] theorem unwatch_runningBots (t : Nat) (s : State) :
    (unwatch t s).runningBots = s.runningBots := by
  unfold unwatch
  cases s.tails[t]? <;> rfl

@[simp] theorem unwatch_removals (t : Nat) (s : State) : (unwatch t s).removals = s.removals := by
  unfold unwatch
  cases s.tails[t]? <;> rfl

@[simp] theorem unwatch_now (t : Nat) (s : State) : (unwatch t s).now = s.now := by
  unfold unwatch
  cases s.tails[t]? <;> rfl

@[simp] theorem unwatch_unwatched (t : Nat) (s : State) :
    (unwatch t s).unwatched = t :: s.unwatched := by
  unfold unwatch
  cases s.tails[t]? <;> rfl

theorem unwatch_tails (t : Nat) (s : State) :
    (unwatch t s).tails = match s.tails[t]? with
      | some tl => s.tails.set t { tl with watching := false }
      | none => s.tails := by
  unfold unwatch
  cases s.tails[t]? <;> rfl

@[simp] theorem unwatch_tails_length (t : Nat) (s : State) :
    (unwatch t s).tails.length = s.tails.length := by
  rw [unwatch_tails]
  cases s.tails[t]? <;> simp

@[simp] theorem modifyBot_polls (b : Nat) (f : Bot → Bot) (s : State) :
    (modifyBot b f s).polls = s.polls := by
  unfold modifyBot
  cases s.bots[b]? <;> rfl

@[simp] theorem modifyBot_tails (b : Nat) (f : Bot → Bot) (s : State) :
    (modifyBot b f s).tails = s.tails := by
  unfold modifyBot
  cases s.bots[b]? <;> rfl

@[simp] theorem modifyBot_runningBots (b : Nat) (f : Bot → Bot) (s : State) :
    (modifyBot b f s).runningBots = s.runningBots := by
  unfold modifyBot
  cases s.bots[b]? <;> rfl

@[simp] theorem modifyBot_removals (b : Nat) (f : Bot → Bot) (s : State) :
    (modifyBot b f s).removals = s.removals := by
  unfold modifyBot
  cases s.bots[b]? <;> rfl

@[simp] theorem modifyBot_unwatched (b : Nat) (f : Bot → Bot) (s : State) :
    (modifyBot b f s).unwatched = s.unwatched := by
  unfold modifyBot
  cases s.bots[b]? <;> rfl

@[simp] theorem modifyBot_responses (b : Nat) (f : Bot → Bot) (s : State) :
    (modifyBot b f s).responses = s.responses := by
  unfold modifyBot
  cases s.bots[b]? <;> rfl

@[simp] theorem unwatch_responses (t : Nat) (s : State) :
    (unwatch t s).responses = s.responses := by
  unfold unwatch
  cases s.tails[t]? <;> rfl

@[simp] theorem modifyBot_now (b : Nat) (f : Bot → Bot) (s : State) :
    (modifyBot b f s).now = s.now := by
  unfold modifyBot
  cases s.bots[b]? <;> rfl

/-- The log query changes the task map, the broadcasts and the answers only. -/
theorem logsRoute_same (u : Str) (s : State) :
    (logsRoute u s).runningBots = s.runningBots ∧ (logsRoute u s).bots = s.bots ∧
    (logsRoute u s).tails = s.tails ∧ (logsRoute u s).settles = s.settles ∧
    (logsRoute u s).polls = s.polls ∧ (logsRoute u s).removals = s.removals ∧
    (logsRoute u s).kills = s.kills ∧ (logsRoute u s).files = s.files ∧
    (logsRoute u s).unwatched = s.unwatched ∧ (logsRoute u s).killed = s.killed ∧
    (logsRoute u s).spawned = s.spawned ∧ (logsRoute u s).alerts = s.alerts ∧
    (logsRoute u s).posts = s.posts := by
  unfold logsRoute
  dsimp only
  cases extractCurrentTask (readLogs u s) with
  | none => simp
  | some t =>
    simp only [publishTask]
    split_ifs <;> simp [broadcastTask]

/-! ## How each handler changes the objects of the state -/

theorem modifyBot_getElem? (b j : Nat) (f : Bot → Bot) (s : State) :
    (modifyBot b f s).bots[j]? = if j = b then (s.bots[j]?).map f else s.bots[j]? := by
  rw [modifyBot_bots]
  by_cases hj : j = b
  · subst hj
    cases h : s.bots[j]? with
    | none => simp [h]
    | some bot =>
      have hlt : j < s.bots.length := (List.getElem?_eq_some.mp h).1
      simp [List.getElem?_set, hlt]
  · cases h : s.bots[b]? with
    | none => simp [hj]
    | some bot =>
      have hne : ¬ b = j := fun h => hj h.symm
      simp [List.getElem?_set, hj, hne]

@[simp] theorem modifyBot_length (b : Nat) (f : Bot → Bot) (s : State) :
    (modifyBot b f s).bots.length = s.bots.length := by
  rw [modifyBot_bots]
  cases s.bots[b]? <;> simp

@[simp] theorem modifyBot_settles (b : Nat) (f : Bot → Bot) (s : State) :
    (modifyBot b f s).settles = s.settles := by
  unfold modifyBot
  cases s.bots[b]? <;> rfl

@[simp] theorem modifyBot_kills (b : Nat) (f : Bot → Bot) (s : State) :
    (modifyBot b f s).kills = s.kills := by
  unfold modifyBot
  cases s.bots[b]? <;> rfl

@[simp] theorem modifyBot_files (b : Nat) (f : Bot → Bot) (s : State) :
    (modifyBot b f s).files = s.files := by
  unfold modifyBot
  cases s.bots[b]? <;> rfl

@[simp] theorem modifyBot_clock (b : Nat) (f : Bot → Bot) (s : State) :
    (modifyBot b f s).clock = s.clock := by
  unfold modifyBot
  cases s.bots[b]? <;> rfl

@[simp] theorem modifyBot_webhook (b : Nat) (f : Bot → Bot) (s : State) :
    (modifyBot b f s).webhook = s.webhook := by
  unfold modifyBot
  cases s.bots[b]? <;> rfl

@[simp] theorem unwatch_settles (t : Nat) (s : State) : (unwatch t s).settles = s.settles := by
  unfold unwatch
  cases s.tails[t]? <;> rfl

@[simp] theorem unwatch_kills (t : Nat) (s : State) : (unwatch t s).kills = s.kills := by
  unfold unwatch
  cases s.tails[t]? <;> rfl

@[simp] theorem unwatch_files (t : Nat) (s : State) : (unwatch t s).files = s.files := by
  unfold unwatch
  cases s.tails[t]? <;> rfl

theorem unwatch_getElem? (t j : Nat) (s : State) :
    (unwatch t s).tails[j]? =
      if j = t then (s.tails[j]?).map (fun tl => { tl with watching := false })
      else s.tails[j]? := by
  rw [unwatch_tails]
  by_cases hj : j = t
  · subst hj
    cases h : s.tails[j]? with
    | none => simp [h]
    | some tl =>
      have hlt : j < s.tails.length := (List.getElem?_eq_some.mp h).1
      simp [List.getElem?_set, hlt]
  · cases h : s.tails[t]? with
    | none => simp [hj]
    | some tl =>
      have hne : ¬ t = j := fun h => hj h.symm
      simp [List.getElem?_set, hj, hne]

@[simp] theorem writeToCustomLog_tails (u m : Str) (s : State) :
    (writeToCustomLog u m s).tails = s.tails := rfl

@[simp] theorem writeToCustomLog_settles (u m : Str) (s : State) :
    (writeToCustomLog u m s).settles = s.settles := rfl

@[simp] theorem writeToCustomLog_polls (u m : Str) (s : State) :
    (writeToCustomLog u m s).polls = s.polls := rfl

@[simp] theorem writeToCustomLog_removals (u m : Str) (s : State) :
    (writeToCustomLog u m s).removals = s.removals := rfl

@[simp] theorem writeToCustomLog_kills (u m : Str) (s : State) :
    (writeToCustomLog u m s).kills = s.kills := rfl

@[simp] theorem writeToCustomLog_runningBots (u m : Str) (s : State) :
    (writeToCustomLog u m s).runningBots = s.runningBots := rfl

@[simp] theorem writeToCustomLog_now (u m : Str) (s : State) :
    (writeToCustomLog u m s).now = s.now := rfl

@[simp] theorem writeToCustomLog_clock (u m : Str) (s : State) :
    (writeToCustomLog u m s).clock = s.clock := rfl

@[simp] theorem writeToCustomLog_unwatched (u m : Str) (s : State) :
    (writeToCustomLog u m s).unwatched = s.unwatched := rfl

@[simp] theorem writeToCustomLog_responses (u m : Str) (s : State) :
    (writeToCustomLog u m s).responses = s.responses := rfl

@[simp] theorem sendDiscordAlert_tails (u e : Str) (bot : Option Bot) (s : State) :
    (sendDiscordAlert u e bot s).tails = s.tails := by
  unfold sendDiscordAlert
  by_cases h : s.webhook = [] <;> simp [h]

@[simp] theorem sendDiscordAlert_settles (u e : Str) (bot : Option Bot) (s : State) :
    (sendDiscordAlert u e bot s).settles = s.settles := by
  unfold sendDiscordAlert
  by_cases h : s.webhook = [] <;> simp [h]

@[simp] theorem sendDiscordAlert_polls (u e : Str) (bot : Option Bot) (s : State) :
    (sendDiscordAlert u e bot s).polls = s.polls := by
  unfold sendDiscordAlert
  by_cases h : s.webhook = [] <;> simp [h]

@[simp] theorem sendDiscordAlert_removals (u e : Str) (bot : Option Bot) (s : State) :
    (sendDiscordAlert u e bot s).removals = s.removals := by
  unfold sendDiscordAlert
  by_cases h : s.webhook = [] <;> simp [h]

@[simp] theorem sendDiscordAlert_kills (u e : Str) (bot : Option Bot) (s : State) :
    (sendDiscordAlert u e bot s).kills = s.kills := by
  unfold sendDiscordAlert
  by_cases h : s.webhook = [] <;> simp [h]

@[simp] theorem sendDiscordAlert_runningBots (u e : Str) (bot : Option Bot) (s : State) :
    (sendDiscordAlert u e bot s).runningBots = s.runningBots := by
  unfold sendDiscordAlert
  by_cases h : s.webhook = [] <;> simp [h]

@[simp] theorem sendDiscordAlert_now (u e : Str) (bot : Option Bot) (s : State) :
    (sendDiscordAlert u e bot s).now = s.now := by
  unfold sendDiscordAlert
  by_cases h : s.webhook = [] <;> simp [h]

@[simp] theorem sendDiscordAlert_clock (u e : Str) (bot : Option Bot) (s : State) :
    (sendDiscordAlert u e bot s).clock = s.clock := by
  unfold sendDiscordAlert
  by_cases h : s.webhook = [] <;> simp [h]

@[simp] theorem sendDiscordAlert_files (u e : Str) (bot : Option Bot) (s : State) :
    (sendDiscordAlert u e bot s).files = s.files := by
  unfold sendDiscordAlert
  by_cases h : s.webhook = [] <;> simp [h]


theorem SameObjects.so_refl (s : State) : SameObjects s s :=
  ⟨rfl, rfl, rfl, rfl, rfl, rfl, rfl, rfl, rfl⟩

theorem SameObjects.so_trans {s1 s2 s3 : State} (h1 : SameObjects s1 s2) (h2 : SameObjects s2 s3) :
    SameObjects s1 s3 := by
  obtain ⟨a1, a2, a3, a4, a5, a6, a7, a8, a9⟩ := h1
  obtain ⟨b1, b2, b3, b4, b5, b6, b7, b8, b9⟩ := h2
  exact ⟨b1.trans a1, b2.trans a2, b3.trans a3, b4.trans a4, b5.trans a5, b6.trans a6,
    b7.trans a7, b8.trans a8, b9.trans a9⟩

theorem writeToCustomLog_same (u m : Str) (s : State) : SameObjects s (writeToCustomLog u m s) :=
  ⟨rfl, rfl, rfl, rfl, rfl, rfl, rfl, rfl, rfl⟩

theorem modifyBot_same (b : Nat) (f : Bot → Bot) (s : State) : SameObjects s (modifyBot b f s) := by
  unfold SameObjects
  simp

theorem sendDiscordAlert_same (u e : Str) (bot : Option Bot) (s : State) :
    SameObjects s (sendDiscordAlert u e bot s) := by
  unfold SameObjects sendDiscordAlert
  by_cases h : s.webhook = [] <;> simp [h]

theorem alertOnFailure_same (u : Str) (b : Nat) (line : Str) (s : State) :
    SameObjects s (alertOnFailure u b line s) := by
  unfold alertOnFailure
  split_ifs
  · exact sendDiscordAlert_same _ _ _ _
  · exact SameObjects.so_refl s

theorem recordTask_same (u : Str) (b : Nat) (line : Str) (s : State) :
    SameObjects s (recordTask u b line s) := by
  unfold recordTask
  split_ifs
  · split
    · exact modifyBot_same _ _ _
    · exact SameObjects.so_refl s
  · exact SameObjects.so_refl s

theorem recordLogin_same (b : Nat) (line : Str) (s : State) :
    SameObjects s (recordLogin b line s) := by
  unfold recordLogin
  split_ifs
  · exact modifyBot_same _ _ _
  · exact SameObjects.so_refl s

theorem relogError_same (u line : Str) (s : State) : SameObjects s (relogError u line s) := by
  unfold relogError
  split_ifs
  · exact writeToCustomLog_same _ _ _
  · exact SameObjects.so_refl s

/-- The objects other than the record that a tailed line leaves alone. -/
theorem onLine_same (username : Str) (b : Nat) (line : Str) (s : State) :
    SameObjects s (onLine username b line s) :=
  (((((writeToCustomLog_same username line s).so_trans (alertOnFailure_same _ _ _ _)).so_trans
    (recordTask_same _ _ _ _)).so_trans (recordLogin_same _ _ _)).so_trans (relogError_same _ _ _))

@[simp] theorem alertOnFailure_bots (u : Str) (b : Nat) (line : Str) (s : State) :
    (alertOnFailure u b line s).bots = s.bots := by
  unfold alertOnFailure
  split_ifs <;> simp

@[simp] theorem alertOnFailure_broadcasts (u : Str) (b : Nat) (line : Str) (s : State) :
    (alertOnFailure u b line s).broadcasts = s.broadcasts := by
  unfold alertOnFailure
  split_ifs <;> simp

@[simp] theorem relogError_bots (u line : Str) (s : State) :
    (relogError u line s).bots = s.bots := by
  unfold relogError
  split_ifs <;> simp

@[simp] theorem relogError_broadcasts (u line : Str) (s : State) :
    (relogError u line s).broadcasts = s.broadcasts := by
  unfold relogError
  split_ifs <;> simp

@[simp] theorem relogError_alerts (u line : Str) (s : State) :
    (relogError u line s).alerts = s.alerts := by
  unfold relogError
  split_ifs <;> simp

@[simp] theorem relogError_posts (u line : Str) (s : State) :
    (relogError u line s).posts = s.posts := by
  unfold relogError
  split_ifs <;> simp

@[simp] theorem recordLogin_broadcasts (b : Nat) (line : Str) (s : State) :
    (recordLogin b line s).broadcasts = s.broadcasts := by
  unfold recordLogin
  split_ifs <;> simp

@[simp] theorem recordLogin_alerts (b : Nat) (line : Str) (s : State) :
    (recordLogin b line s).alerts = s.alerts := by
  unfold recordLogin
  split_ifs <;> simp

@[simp] theorem recordLogin_posts (b : Nat) (line : Str) (s : State) :
    (recordLogin b line s).posts = s.posts := by
  unfold recordLogin
  split_ifs <;> simp

@[simp] theorem recordTask_alerts (u : Str) (b : Nat) (line : Str) (s : State) :
    (recordTask u b line s).alerts = s.alerts := by
  unfold recordTask
  split_ifs
  · split <;> simp [broadcastTask]
  · rfl

@[simp] theorem recordTask_posts (u : Str) (b : Nat) (line : Str) (s : State) :
    (recordTask u b line s).posts = s.posts := by
  unfold recordTask
  split_ifs
  · split <;> simp [broadcastTask]
  · rfl

theorem recordTask_broadcasts (u : Str) (b : Nat) (line : Str) (s : State) :
    (recordTask u b line s).broadcasts =
      (if includes line taskMarker then
        match matchTask line with
        | some m => (u, trim m) :: s.broadcasts
        | none => s.broadcasts
       else s.broadcasts) := by
  unfold recordTask
  split_ifs
  · split <;> simp [broadcastTask]
  · rfl

theorem recordTask_getElem? (u : Str) (b : Nat) (line : Str) (s : State) (j : Nat) :
    (recordTask u b line s).bots[j]? =
      if j = b then (s.bots[j]?).map (taskUpdate line) else s.bots[j]? := by
  unfold recordTask taskUpdate
  split_ifs with h1 h2 h2
  · split <;> simp [broadcastTask, modifyBot_getElem?, h2]
  · split <;> simp [broadcastTask, modifyBot_getElem?, h2]
  · simp
  · rfl

theorem recordLogin_getElem? (b : Nat) (line : Str) (s : State) (j : Nat) :
    (recordLogin b line s).bots[j]? =
      if j = b then (s.bots[j]?).map (loginUpdate line) else s.bots[j]? := by
  unfold recordLogin loginUpdate
  split_ifs with h1 h2 h2 <;> simp [modifyBot_getElem?, h2]

/-- The record objects after a tailed line. -/
theorem onLine_bots (username : Str) (b : Nat) (line : Str) (s : State) (j : Nat) :
    (onLine username b line s).bots[j]? =
      if j = b then (s.bots[j]?).map (lineUpdate line) else s.bots[j]? := by
  unfold onLine
  rw [relogError_bots, recordLogin_getElem?, recordTask_getElem?]
  by_cases hj : j = b
  · simp only [hj, if_true, Option.map_map, alertOnFailure_bots, writeToCustomLog_bots]
    rfl
  · simp [hj]

/-- The record's task and the broadcasts after one tailed line. -/
theorem onLine_task (username : Str) (b : Nat) (line : Str) (s : State) :
    ((onLine username b line s).bots[b]?).map Bot.currentTask =
      (if includes line taskMarker then
        match matchTask line with
        | some m => (s.bots[b]?).map (fun _ => some (trim m))
        | none => (s.bots[b]?).map Bot.currentTask
       else (s.bots[b]?).map Bot.currentTask) ∧
    (onLine username b line s).broadcasts =
      (if includes line taskMarker then
        match matchTask line with
        | some m => (username, trim m) :: s.broadcasts
        | none => s.broadcasts
       else s.broadcasts) := by
  constructor
  · rw [onLine_bots]
    simp only [if_true, Option.map_map]
    unfold lineUpdate loginUpdate taskUpdate
    split_ifs <;> (try split) <;> simp [Function.comp_def]
  · unfold onLine
    simp [recordTask_broadcasts]


/-! ## C1: the task marker on the live tail -/

/-- C1 (as amended): for every record `b` and every tailed line that contains
the task marker, let `rest` be the text behind the first marker of the line.
If `rest` has a character that is not a line terminator, the handler sets
`currentTask` to `taskText rest` (the text behind the marker up to the first
line terminator, trimmed) and calls `broadcastTask` exactly once, with the
account's username and that same text.  If `rest` is empty or holds line
terminators only, the pattern does not match: `currentTask` keeps its value
and nothing is broadcast. -/
theorem onLine_task_marker (username : Str) (b : Nat) (line : Str) (s : State)
    (hb : b < s.bots.length) (hline : includes line taskMarker = true) :
    ∃ rest, textAfter taskMarker line = some rest ∧
      ((onLine username b line s).bots[b]?).map Bot.currentTask =
        (if rest.all isLineTerminator then (s.bots[b]?).map Bot.currentTask
         else some (some (taskText rest))) ∧
      (onLine username b line s).broadcasts =
        (if rest.all isLineTerminator then s.broadcasts
         else (username, taskText rest) :: s.broadcasts) := by
  obtain ⟨rest, hrest⟩ := (includes_iff_textAfter taskMarker line).mp hline
  refine ⟨rest, hrest, ?_⟩
  have hm := matchTask_eq line rest hrest
  have hget : s.bots[b]? = some (s.bots[b]) := List.getElem?_eq_getElem hb
  obtain ⟨h1, h2⟩ := onLine_task username b line s
  rw [h1, h2]
  simp only [hline, if_true, hm]
  rcases wsStarDotPlus_spec rest with ⟨hn, hall⟩ | ⟨cap, hs, ht, hall⟩
  · simp [hn, hall]
  · simp [hs, hall, ht, hget]

/-- The instance of `onLine_task_marker` for the line
`Executing task: Mine iron` tailed for alice. -/
theorem onLine_task_marker_witness :
    (0 < aliceSettled.bots.length ∧
      includes "Executing task: Mine iron".toList taskMarker = true) ∧
    ∃ rest, textAfter taskMarker "Executing task: Mine iron".toList = some rest ∧
      ((onLine alice 0 "Executing task: Mine iron".toList aliceSettled).bots[0]?).map
          Bot.currentTask =
        (if rest.all isLineTerminator then (aliceSettled.bots[0]?).map Bot.currentTask
         else some (some (taskText rest))) ∧
      (onLine alice 0 "Executing task: Mine iron".toList aliceSettled).broadcasts =
        (if rest.all isLineTerminator then aliceSettled.broadcasts
         else (alice, taskText rest) :: aliceSettled.broadcasts) :=
  ⟨⟨by decide, by decide⟩,
    onLine_task_marker alice 0 "Executing task: Mine iron".toList aliceSettled
      (by decide) (by decide)⟩

/-- The example of the specification: the line `Executing task: Mine iron`
for alice gives `currentTask = "Mine iron"` and one broadcast of it. -/
theorem onLine_mine_iron :
    ((onLine alice 0 "Executing task: Mine iron".toList aliceSettled).bots[0]?).map
        Bot.currentTask = some (some "Mine iron".toList) ∧
    (onLine alice 0 "Executing task: Mine iron".toList aliceSettled).broadcasts =
      [(alice, "Mine iron".toList)] := by
  decide

/-- C1 (as stated) fails: the line `Executing task:` contains the marker, yet
the handler leaves `currentTask` null and broadcasts nothing. -/
theorem onLine_bare_marker :
    includes "Executing task:".toList taskMarker = true ∧
    ((onLine alice 0 "Executing task:".toList aliceSettled).bots[0]?).map Bot.currentTask =
      some none ∧
    (onLine alice 0 "Executing task:".toList aliceSettled).broadcasts = [] := by
  decide

/-! ## C2: failure signatures on the live tail -/

/-- The failure pattern finds its leftmost match at the first `PAccountBuilder: `. -/
theorem matchPab_eq (line : Str) :
    matchPab line =
      (textAfter pabMarker line).map (fun rest => rest.takeWhile (fun c => !isLineTerminator c)) := by
  induction line with
  | nil => simp [matchPab, matchPabAt, textAfter]; cases stripPrefix pabMarker [] <;> rfl
  | cons c cs ih =>
    simp only [matchPab, matchPabAt, textAfter]
    cases hp : stripPrefix pabMarker (c :: cs) with
    | none => simpa using ih
    | some r => simp

@[simp] theorem sendDiscordAlert_posts (u e : Str) (bot : Option Bot) (s : State) :
    (sendDiscordAlert u e bot s).posts =
      if s.webhook = [] then s.posts else alertPayload s.webhook u e bot :: s.posts := by
  unfold sendDiscordAlert
  by_cases h : s.webhook = [] <;> simp [h]

/-- C2 (as amended): a tailed line that contains one of the two failure
signatures (or both) makes exactly one call of `sendDiscordAlert`, whether or
not the webhook is configured; the description passed is `failureText line`:
the text behind the first `PAccountBuilder: ` up to the end of the line, and
the whole line when that text is empty or the line has no `PAccountBuilder: `.
With an empty webhook nothing is posted, otherwise one payload is.  A line
with neither signature makes no call and no post. -/
theorem onLine_failure_alert (username : Str) (b : Nat) (line : Str) (s : State) :
    (onLine username b line s).alerts =
      (if includes line failMarker1 || includes line failMarker2 then
        (username, failureText line) :: s.alerts
       else s.alerts) ∧
    (onLine username b line s).posts =
      (if includes line failMarker1 || includes line failMarker2 then
        (if s.webhook = [] then s.posts
         else alertPayload s.webhook username (failureText line) s.bots[b]? :: s.posts)
       else s.posts) := by
  have hdesc : (match matchPab line with
      | some m => if m = [] then line else m
      | none => line) = failureText line := by
    rw [matchPab_eq]
    unfold failureText
    cases textAfter pabMarker line <;> simp
  unfold onLine
  simp only [relogError_alerts, relogError_posts, recordLogin_alerts, recordLogin_posts,
    recordTask_alerts, recordTask_posts]
  unfold alertOnFailure
  simp only [hdesc]
  constructor <;> split_ifs <;> simp_all

/-- The scenario of the specification: `PAccountBuilder: Failed to execute task X`
is reported once, as `Failed to execute task X`, and not posted while the
webhook is empty. -/
theorem onLine_failed_task_x :
    (onLine alice 0 "PAccountBuilder: Failed to execute task X".toList aliceSettled).alerts =
      [(alice, "Failed to execute task X".toList)] ∧
    (onLine alice 0 "PAccountBuilder: Failed to execute task X".toList aliceSettled).posts = [] := by
  decide

/-- C2 (as stated) fails: the line `Failed tasks four times in a row` carries a
failure signature and no `PAccountBuilder: `; the description passed is the
whole line, not a text that follows `PAccountBuilder: `. -/
theorem onLine_failure_without_prefix :
    includes "Failed tasks four times in a row".toList failMarker2 = true ∧
    textAfter pabMarker "Failed tasks four times in a row".toList = none ∧
    (onLine alice 0 "Failed tasks four times in a row".toList aliceSettled).alerts =
      [(alice, "Failed tasks four times in a row".toList)] := by
  decide

/-! ## C3: pull-based task extraction -/

theorem splitFrom_skip (sep : Str) (k : Nat) (s : Str) :
    splitFrom sep k s = splitFrom sep 0 (s.drop k) := by
  induction k generalizing s with
  | zero => rfl
  | succ k ih =>
    cases s with
    | nil => rfl
    | cons c cs => simpa [splitFrom] using ih cs

theorem textAfter_nil_of_ne {sep : Str} (h : sep ≠ []) : textAfter sep [] = none := by
  cases sep with
  | nil => exact absurd rfl h
  | cons a p => rfl

/-- How `split` cuts at the first separator. -/
theorem splitFrom_eq (sep : Str) (hsep : sep ≠ []) (s : Str) :
    splitFrom sep 0 s =
      match textAfter sep s with
      | some rest => textBefore sep s :: splitFrom sep 0 rest
      | none => [s] := by
  induction s with
  | nil => simp [textAfter_nil_of_ne hsep, splitFrom]
  | cons c cs ih =>
    cases hp : stripPrefix sep (c :: cs) with
    | some r =>
      have hcs := stripPrefix_eq_some hp
      cases sep with
      | nil => exact absurd rfl hsep
      | cons a p =>
        have h2 : cs = p ++ r := (List.cons.inj hcs).2
        simp only [textAfter, hp, splitFrom, Option.isSome_some, if_true, textBefore]
        rw [splitFrom_skip, h2]
        simp
    | none =>
      simp only [textAfter, hp, splitFrom, Option.isSome_none, textBefore]
      rw [ih]
      cases textAfter sep cs <;> simp

theorem textBefore_eq_of_textAfter_none (sep : Str) (s : Str)
    (h : textAfter sep s = none) : textBefore sep s = s := by
  induction s with
  | nil => rfl
  | cons c cs ih =>
    simp only [textAfter] at h
    cases hp : stripPrefix sep (c :: cs) with
    | some r => rw [hp] at h; cases h
    | none =>
      rw [hp] at h
      simp [textBefore, hp, ih h]

theorem splitFrom_head (sep : Str) (hsep : sep ≠ []) (s : Str) :
    (splitFrom sep 0 s)[0]? = some (textBefore sep s) := by
  rw [splitFrom_eq sep hsep]
  cases h : textAfter sep s with
  | some rest => simp
  | none => simp [textBefore_eq_of_textAfter_none sep s h]

/-- The piece `line.split(marker)[1]`: the text between the first marker and the next. -/
theorem jsSplit_second (sep : Str) (hsep : sep ≠ []) (line rest : Str)
    (h : textAfter sep line = some rest) :
    (jsSplit line sep)[1]? = some (textBefore sep rest) := by
  unfold jsSplit
  rw [splitFrom_eq sep hsep, h]
  simpa using splitFrom_head sep hsep rest

theorem taskMarker_ne_nil : taskMarker ≠ [] := by decide

/-- C3 (as amended): `extractCurrentTask` always returns; it scans the lines
of the log from last to first and returns the result of the first line, in
that order, that contains a marker: for a line with the task marker the
trimmed text between its first `Executing task:` and the next one on the line
(the end of the line when there is none), otherwise `Stopped`.  When no line
contains a marker the result is `Idle`. -/
theorem extractCurrentTask_eq (logs : Str) :
    extractCurrentTask logs =
      some (match (jsSplit logs "\n".toList).reverse.find? hasMarker with
        | some line => lineResult line
        | none => "Idle".toList) := by
  unfold extractCurrentTask
  generalize (jsSplit logs "\n".toList).reverse = lines
  induction lines with
  | nil => rfl
  | cons line rest ih =>
    by_cases ht : includes line taskMarker = true
    · obtain ⟨r, hr⟩ := (includes_iff_textAfter taskMarker line).mp ht
      simp [extractLoop, ht, jsSplit_second taskMarker taskMarker_ne_nil line r hr,
        List.find?, hasMarker, lineResult, hr]
    · have hnone : textAfter taskMarker line = none := by
        cases h : textAfter taskMarker line with
        | none => rfl
        | some r => exact absurd ((includes_iff_textAfter taskMarker line).mpr ⟨r, h⟩) ht
      by_cases hs : includes line stopMarker = true
      · simp [extractLoop, ht, hs, List.find?, hasMarker, lineResult, hnone]
      · simp [extractLoop, ht, hs, List.find?, hasMarker, ih]

/-- C3 (as stated) fails: `Idle` is also returned for a log whose last marker
line announces a task called `Idle`, and the text behind the marker is cut at
a second marker on the same line. -/
theorem extractCurrentTask_idle_task :
    (extractCurrentTask "Executing task: Idle".toList = some "Idle".toList ∧
      includes "Executing task: Idle".toList taskMarker = true) ∧
    (extractCurrentTask "Executing task: A Executing task: B".toList = some "A".toList ∧
      textAfter taskMarker "Executing task: A Executing task: B".toList =
        some " A Executing task: B".toList) := by
  decide

/-! ## C5: one liveness tick -/

theorem set_set_getElem {α : Type} (l : List α) (i : Nat) (a b : α) (h : l[i]? = some b) :
    (l.set i a).set i b = l := by
  rw [List.set_set]
  apply List.ext_getElem?
  intro j
  by_cases hj : i = j
  · subst hj
    have hlt : i < l.length := (List.getElem?_eq_some.mp h).1
    simp [List.getElem?_set, hlt, h]
  · simp [List.getElem?_set, hj]

theorem tick_of_no_pid (i : Nat) (p : Poll) (bot : Bot) (s : State)
    (hp : s.polls[i]? = some p) (hb : s.bots[p.bot]? = some bot)
    (hpid : pidTruthy bot.pid = false) : tick i s = s := by
  simp [tick, hp, hb, hpid]

theorem tick_probe_alive (i : Nat) (p : Poll) (bot : Bot) (s : State)
    (hp : s.polls[i]? = some p) (hact : p.active = true) (hb : s.bots[p.bot]? = some bot)
    (hpid : pidTruthy bot.pid = true) : probeDone i false (tick i s) = s := by
  have hlt : i < s.polls.length := (List.getElem?_eq_some.mp hp).1
  obtain ⟨u, pb, act, inf⟩ := p
  simp only at hact hb
  subst hact
  have hset := set_set_getElem s.polls i
    { username := u, bot := pb, active := true, inflight := inf + 1 } _ hp
  simp [tick, hp, hb, hpid, probeDone, List.getElem?_set, hlt, hset]

theorem tick_probe_gone (i : Nat) (p : Poll) (bot : Bot) (s : State)
    (hp : s.polls[i]? = some p) (hact : p.active = true) (hb : s.bots[p.bot]? = some bot)
    (hpid : pidTruthy bot.pid = true) :
    probeDone i true (tick i s) = exitBranch i p.username p.bot s := by
  have hlt : i < s.polls.length := (List.getElem?_eq_some.mp hp).1
  obtain ⟨u, pb, act, inf⟩ := p
  simp only at hact hb
  subst hact
  have hset := set_set_getElem s.polls i
    { username := u, bot := pb, active := true, inflight := inf + 1 } _ hp
  simp [tick, hp, hb, hpid, probeDone, List.getElem?_set, hlt, hset]

/-- What the exit branch of the liveness callback does to a state. -/
theorem exitBranch_effect (i : Nat) (p : Poll) (bot : Bot) (s : State)
    (hp : s.polls[i]? = some p) (hb : s.bots[p.bot]? = some bot) :
    (exitBranch i p.username p.bot s).polls = s.polls.set i { p with active := false } ∧
    (exitBranch i p.username p.bot s).bots = s.bots.set p.bot { bot with status := Status.stopped } ∧
    (exitBranch i p.username p.bot s).runningBots = s.runningBots ∧
    (exitBranch i p.username p.bot s).removals = s.removals ++
      [{ username := p.username, bot := p.bot, setAt := s.now, done := false }] ∧
    (exitBranch i p.username p.bot s).unwatched =
      (match bot.tailProcess with
       | some t => t :: s.unwatched
       | none => s.unwatched) ∧
    (exitBranch i p.username p.bot s).tails =
      (match bot.tailProcess with
       | some t => (match s.tails[t]? with
         | some tl => s.tails.set t { tl with watching := false }
         | none => s.tails)
       | none => s.tails) := by
  unfold exitBranch scheduleRemoval releaseTail cancelPoll
  simp only [hp, hb]
  cases ht : bot.tailProcess with
  | none => simp [writeToCustomLog, modifyBot_bots, hb, ht]
  | some t => simp [writeToCustomLog, modifyBot_bots, hb, unwatch_tails, ht]

theorem mapGet_mapDelete (m : List (Str × Nat)) (k : Str) : mapGet (mapDelete m k) k = none := by
  unfold mapGet mapDelete
  have : (m.filter (fun e => e.1 ≠ k)).find? (fun e => e.1 = k) = none := by
    rw [List.find?_eq_none]
    intro x hx
    have := (List.mem_filter.mp hx).2
    simpa using this
  rw [this]

/-- C5 (as amended): one liveness tick of an active timer `i` of record
`p.bot`, taken together with the answer of the probe it starts.  What the tick
tests is the record's `pid` field (`if (!bot.pid) return`): the field holds
the pid of the spawned shell from `startBot` on, and the pid of `java.exe`
once the resolver has found one, so it is set whether or not a pid was
resolved; `rejected` is the failing `tasklist` command, the report that the
pid is absent.
* With the field null (or 0) the tick leaves the whole state as it is (record,
  tail, timer and Registry included).
* With the field set and a probe that finds the process, the state is again
  unchanged.
* With the field set and a probe that reports it absent, the state changes: the timer
  is cancelled, the record's tail is unwatched if `tailProcess` is set, the
  status is `stopped`, the Registry is as before, and a grace timer is set that
  does nothing while fewer than 5000 ms have passed and removes the account
  from the Registry when it fires after that. -/
theorem poll_tick (i : Nat) (p : Poll) (bot : Bot) (s : State)
    (hp : s.polls[i]? = some p) (hact : p.active = true) (hb : s.bots[p.bot]? = some bot) :
    (pidTruthy bot.pid = false → tick i s = s) ∧
    (pidTruthy bot.pid = true → probeDone i false (tick i s) = s) ∧
    (pidTruthy bot.pid = true →
      probeDone i true (tick i s) ≠ s ∧
      (probeDone i true (tick i s)).polls = s.polls.set i { p with active := false } ∧
      (probeDone i true (tick i s)).bots =
        s.bots.set p.bot { bot with status := Status.stopped } ∧
      (probeDone i true (tick i s)).unwatched =
        (match bot.tailProcess with
         | some t => t :: s.unwatched
         | none => s.unwatched) ∧
      (probeDone i true (tick i s)).tails =
        (match bot.tailProcess with
         | some t => (match s.tails[t]? with
           | some tl => s.tails.set t { tl with watching := false }
           | none => s.tails)
         | none => s.tails) ∧
      (probeDone i true (tick i s)).runningBots = s.runningBots ∧
      (probeDone i true (tick i s)).removals = s.removals ++
        [{ username := p.username, bot := p.bot, setAt := s.now, done := false }] ∧
      (∀ later : State,
        later.removals[s.removals.length]? =
          some { username := p.username, bot := p.bot, setAt := s.now, done := false } →
        (later.now < s.now + 5000 → removeFire s.removals.length later = later) ∧
        (s.now + 5000 ≤ later.now →
          mapGet (removeFire s.removals.length later).runningBots p.username = none))) := by
  refine ⟨tick_of_no_pid i p bot s hp hb, tick_probe_alive i p bot s hp hact hb, ?_⟩
  intro hpid
  rw [tick_probe_gone i p bot s hp hact hb hpid]
  obtain ⟨h1, h2, h3, h4, h5, h6⟩ := exitBranch_effect i p bot s hp hb
  refine ⟨?_, h1, h2, h5, h6, h3, h4, ?_⟩
  · intro heq
    have := congrArg (fun st => st.removals.length) heq
    simp [h4] at this
  · intro later hl
    constructor
    · intro hlt
      simp [removeFire, hl, hlt]
    · intro hge
      have : ¬ later.now < s.now + 5000 := Nat.not_lt.mpr hge
      simp [removeFire, hl, this, mapGet_mapDelete]


/-! ## The invariant of the reachable states -/

theorem Consistent.congr {s s' : State} (h : Consistent s) (hb : s'.bots = s.bots) (ht : s'.tails = s.tails)
    (hs : s'.settles = s.settles) (hp : s'.polls.map Poll.bot = s.polls.map Poll.bot)
    (hr : s'.removals.map Removal.bot = s.removals.map Removal.bot) : Consistent s' := by
  obtain ⟨h1, h2, h3, h4, h5, h6, h7⟩ := h
  constructor
  · rw [hs, hb]; exact h1
  · rw [hs]; exact h2
  · rw [ht]; unfold Settled; rw [hs]; exact h3
  · rw [hp]; unfold Settled; rw [hs]; exact h4
  · rw [hb]; unfold Settled; rw [hs]; exact h5
  · rw [ht, hb]; exact h6
  · rw [hr, hb]; exact h7

theorem Consistent.initial (clock : Str) (files : Files) : Consistent (initial clock files) := by
  constructor <;> simp [Agent.initial, Settled]

theorem map_set_same {α β : Type} (f : α → β) (l : List α) (i : Nat) (a b : α)
    (h : l[i]? = some a) (hf : f b = f a) : (l.set i b).map f = l.map f := by
  rw [List.map_set, hf]
  apply List.ext_getElem?
  intro j
  by_cases hj : i = j
  · subst hj
    have hlt : i < l.length := (List.getElem?_eq_some.mp h).1
    have hlt2 : i < (l.map f).length := by simpa using hlt
    rw [List.getElem?_set, if_pos rfl, if_pos hlt2, List.getElem?_map, h]
    rfl
  · simp [List.getElem?_set, hj]

theorem Consistent.tick {s : State} (h : Consistent s) (i : Nat) : Consistent (tick i s) := by
  unfold Agent.tick
  cases hp : s.polls[i]? with
  | none => exact h
  | some p =>
    simp only
    split_ifs
    · cases hb : s.bots[p.bot]? with
      | none => exact h
      | some bot =>
        simp only
        split_ifs
        · exact h.congr rfl rfl rfl (map_set_same _ _ _ _ _ hp rfl) rfl
        · exact h
    · exact h

theorem Consistent.removeFire {s : State} (h : Consistent s) (r : Nat) : Consistent (removeFire r s) := by
  unfold Agent.removeFire
  cases hr : s.removals[r]? with
  | none => exact h
  | some rm =>
    simp only
    split_ifs
    · exact h
    · exact h.congr rfl rfl rfl rfl (map_set_same _ _ _ _ _ hr rfl)

theorem Consistent.webhookLoaded {s : State} (h : Consistent s) (url : Str) : Consistent (webhookLoaded url s) := by
  unfold Agent.webhookLoaded
  split_ifs
  · exact h.congr rfl rfl rfl rfl rfl
  · exact h

theorem Consistent.writeToCustomLog {s : State} (h : Consistent s) (u m : Str) : Consistent (writeToCustomLog u m s) :=
  h.congr rfl rfl rfl rfl rfl

theorem Consistent.finishStop {s : State} (h : Consistent s) (u : Str) : Consistent (finishStop u s) :=
  h.congr rfl rfl rfl rfl rfl

theorem Consistent.killDone {s : State} (h : Consistent s) (k : Nat) (err : Option Str) :
    Consistent (killDone k err s) := by
  unfold Agent.killDone
  cases hk : s.kills[k]? with
  | none => exact h
  | some kl =>
    simp only
    split_ifs
    · exact h
    · unfold stopResume
      apply Consistent.finishStop
      cases err with
      | none =>
        apply Consistent.writeToCustomLog
        exact h.congr rfl rfl rfl rfl rfl
      | some m =>
        apply Consistent.writeToCustomLog
        exact h.congr rfl rfl rfl rfl rfl


/-- A change of the fields of one record object keeps the invariant, provided
it does not stop an unsettled record, keeps `tailProcess` and a live status
while the record's tail is watching, and keeps `stopped`. -/
theorem Consistent.modifyBot {s : State} (h : Consistent s) (b : Nat) (g : Bot → Bot)
    (hg1 : ∀ bot, s.bots[b]? = some bot → (g bot).status = Status.stopped → Settled s b)
    (hg2 : ∀ (bot : Bot) (t : Nat) (tl : Tail), s.bots[b]? = some bot → s.tails[t]? = some tl →
      tl.watching = true → tl.bot = b →
      (g bot).tailProcess = some t ∧ (g bot).status ≠ Status.stopped)
    (hg3 : ∀ bot, s.bots[b]? = some bot → bot.status = Status.stopped →
      (g bot).status = Status.stopped) :
    Consistent (modifyBot b g s) := by
  obtain ⟨h1, h2, h3, h4, h5, h6, h7⟩ := h
  constructor
  · simpa using h1
  · simpa using h2
  · simpa [Settled] using h3
  · simpa [Settled] using h4
  · intro j bot' hj hst
    rw [modifyBot_getElem?] at hj
    unfold Settled
    rw [modifyBot_settles]
    by_cases hjb : j = b
    · subst hjb
      simp only [if_true] at hj
      cases hb : s.bots[j]? with
      | none => simp [hb] at hj
      | some bot =>
        simp only [hb, Option.map_some', Option.some.injEq] at hj
        subst hj
        exact hg1 bot hb hst
    · simp only [hjb, if_false] at hj
      exact h5 j bot' hj hst
  · intro t tl ht hw
    rw [modifyBot_tails] at ht
    obtain ⟨bot, hb, htp, hns⟩ := h6 t tl ht hw
    rw [modifyBot_getElem?]
    by_cases hjb : tl.bot = b
    · obtain ⟨e1, e2⟩ := hg2 bot t tl (hjb ▸ hb) ht hw hjb
      exact ⟨g bot, by rw [if_pos hjb, hb]; rfl, e1, e2⟩
    · exact ⟨bot, by rw [if_neg hjb, hb], htp, hns⟩
  · intro j hj
    rw [modifyBot_removals] at hj
    obtain ⟨bot, hb, hst⟩ := h7 j hj
    rw [modifyBot_getElem?]
    by_cases hjb : j = b
    · subst hjb
      exact ⟨g bot, by rw [if_pos rfl, hb]; rfl, hg3 bot hb hst⟩
    · exact ⟨bot, by rw [if_neg hjb, hb], hst⟩

theorem Consistent.unwatch {s : State} (h : Consistent s) (t : Nat) : Consistent (unwatch t s) := by
  obtain ⟨h1, h2, h3, h4, h5, h6, h7⟩ := h
  constructor
  · simpa using h1
  · simpa using h2
  · intro tl htl
    obtain ⟨j, hj⟩ := List.getElem?_of_mem htl
    rw [unwatch_getElem?] at hj
    unfold Settled
    rw [unwatch_settles]
    by_cases hjt : j = t
    · simp only [hjt, if_true] at hj
      cases ht : s.tails[t]? with
      | none => simp [ht] at hj
      | some tl0 =>
        simp only [ht, Option.map_some', Option.some.injEq] at hj
        subst hj
        exact h3 tl0 (List.getElem?_mem ht)
    · simp only [hjt, if_false] at hj
      exact h3 tl (List.getElem?_mem hj)
  · simpa [Settled] using h4
  · simpa [Settled] using h5
  · intro j tl hj hw
    rw [unwatch_getElem?] at hj
    rw [unwatch_bots]
    by_cases hjt : j = t
    · simp only [hjt, if_true] at hj
      cases ht : s.tails[t]? with
      | none => simp [ht] at hj
      | some tl0 =>
        simp only [ht, Option.map_some', Option.some.injEq] at hj
        subst hj
        simp at hw
    · simp only [hjt, if_false] at hj
      exact h6 j tl hj hw
  · simpa using h7

/-- After `unwatch t` the tail object `t` is not watching. -/
theorem unwatch_not_watching (t : Nat) (s : State) (tl : Tail)
    (h : (unwatch t s).tails[t]? = some tl) : tl.watching = false := by
  rw [unwatch_getElem?] at h
  simp only [if_true] at h
  cases ht : s.tails[t]? with
  | none => simp [ht] at h
  | some tl0 =>
    simp only [ht, Option.map_some', Option.some.injEq] at h
    subst h
    rfl

theorem lineUpdate_tailProcess (line : Str) (bot : Bot) :
    (lineUpdate line bot).tailProcess = bot.tailProcess := by
  unfold lineUpdate loginUpdate taskUpdate
  split_ifs <;> (try split) <;> rfl

theorem lineUpdate_pid (line : Str) (bot : Bot) : (lineUpdate line bot).pid = bot.pid := by
  unfold lineUpdate loginUpdate taskUpdate
  split_ifs <;> (try split) <;> rfl

theorem lineUpdate_status (line : Str) (bot : Bot) :
    (lineUpdate line bot).status =
      if includes line loginMarker then Status.running else bot.status := by
  unfold lineUpdate loginUpdate taskUpdate
  split_ifs <;> (try split) <;> rfl

/-- A tailed line keeps the invariant. -/
theorem Consistent.lineEvent {s : State} (h : Consistent s) (t : Nat) (text : Str) :
    Consistent (lineEvent t text s) := by
  unfold Agent.lineEvent
  cases ht : s.tails[t]? with
  | none => exact h
  | some tl =>
    simp only
    split_ifs with hw
    · obtain ⟨bot, hb, htp, hns⟩ := h.watching t tl ht hw
      have hm : Consistent (Agent.modifyBot tl.bot (lineUpdate text) s) := by
        apply h.modifyBot
        · intro bot' hb' hst
          rw [lineUpdate_status] at hst
          split_ifs at hst
          exact h.stopped_settled _ _ hb' hst
        · intro bot' t' tl' hb' ht' hw' hbb
          obtain ⟨bot2, hb2, htp2, hns2⟩ := h.watching t' tl' ht' hw'
          rw [hbb, hb'] at hb2
          cases hb2
          rw [lineUpdate_tailProcess, lineUpdate_status]
          refine ⟨htp2, ?_⟩
          split_ifs
          · simp
          · exact hns2
        · intro bot' hb' hst
          rw [hb] at hb'
          cases hb'
          exact absurd hst hns
      obtain ⟨e1, e2, e3, e4, e5, e6, e7, e8, e9⟩ := onLine_same tl.username tl.bot text s
      have hbots : (onLine tl.username tl.bot text s).bots =
          (Agent.modifyBot tl.bot (lineUpdate text) s).bots := by
        apply List.ext_getElem?
        intro j
        rw [onLine_bots, modifyBot_getElem?]
      exact hm.congr hbots (by simp [e1]) (by simp [e2]) (by simp [e3]) (by simp [e4])
    · exact h


theorem Settled.bot_exists {s : State} (h : Consistent s) {b : Nat} (hs : Settled s b) :
    ∃ bot, s.bots[b]? = some bot := by
  obtain ⟨st, hst, _⟩ := hs
  have hlt : b < s.settles.length := (List.getElem?_eq_some.mp hst).1
  rw [h.settles_len] at hlt
  exact ⟨s.bots[b], List.getElem?_eq_getElem hlt⟩

/-- Releasing the tail of a record and clearing its `tailProcess` keeps the invariant. -/
theorem Consistent.release {s : State} (h : Consistent s) (b t : Nat) (bot : Bot)
    (hb : s.bots[b]? = some bot) (htp : bot.tailProcess = some t) (g : Bot → Bot)
    (hg1 : ∀ bot, (g bot).status = Status.stopped → bot.status = Status.stopped ∨ Settled s b)
    (hg3 : ∀ bot, bot.status = Status.stopped → (g bot).status = Status.stopped) :
    Consistent (Agent.modifyBot b g (Agent.unwatch t s)) := by
  apply (h.unwatch t).modifyBot
  · intro bot' hb' hst
    rw [unwatch_bots] at hb'
    unfold Settled
    rw [unwatch_settles]
    rcases hg1 bot' hst with h1 | h1
    · exact h.stopped_settled b bot' hb' h1
    · exact h1
  · intro bot' t' tl' hb' ht' hw' hbb
    obtain ⟨bot2, hb2, htp2, _⟩ := (h.unwatch t).watching t' tl' ht' hw'
    rw [unwatch_bots] at hb2
    rw [hbb, hb] at hb2
    cases hb2
    rw [htp] at htp2
    cases htp2
    have := unwatch_not_watching t s tl' ht'
    rw [this] at hw'
    cases hw'
  · intro bot' _ hst
    exact hg3 bot' hst

theorem Consistent.stopRequest {s : State} (h : Consistent s) (u : Str) :
    Consistent (stopRequest u s) := by
  unfold Agent.stopRequest
  cases hg : mapGet s.runningBots u with
  | none => exact h.congr rfl rfl rfl rfl rfl
  | some b =>
    simp only
    cases hb : s.bots[b]? with
    | none => exact h.congr rfl rfl rfl rfl rfl
    | some bot =>
      simp only
      have h1 : Consistent (match bot.tailProcess with
          | some t => Agent.modifyBot b (fun bot => { bot with tailProcess := none }) (Agent.unwatch t s)
          | none => s) := by
        cases htp : bot.tailProcess with
        | none => exact h
        | some t =>
          exact h.release b t bot hb htp (fun bot => { bot with tailProcess := none })
            (fun _ hst => Or.inl hst) (fun _ hst => hst)
      cases bot.pid with
      | none =>
        apply Consistent.finishStop
        apply Consistent.writeToCustomLog
        exact h1
      | some pid =>
        simp only
        split_ifs
        · exact h1.congr rfl rfl rfl rfl rfl
        · apply Consistent.finishStop
          apply Consistent.writeToCustomLog
          exact h1

theorem Consistent.addRemoval {s : State} (h : Consistent s) (rm : Removal) (bot : Bot)
    (hb : s.bots[rm.bot]? = some bot) (hst : bot.status = Status.stopped) :
    Consistent { s with removals := s.removals ++ [rm] } := by
  obtain ⟨h1, h2, h3, h4, h5, h6, h7⟩ := h
  refine ⟨h1, h2, h3, h4, h5, h6, ?_⟩
  intro j hj
  simp only [List.map_append, List.mem_append, List.map_cons, List.map_nil,
    List.mem_singleton] at hj
  rcases hj with hj | hj
  · exact h7 j hj
  · subst hj
    exact ⟨bot, hb, hst⟩

theorem Consistent.exitBranch {s : State} (h : Consistent s) (i : Nat) (u : Str) (b : Nat)
    (hs : Settled s b) : Consistent (exitBranch i u b s) := by
  unfold Agent.exitBranch
  apply Consistent.writeToCustomLog
  have h1 : Consistent (cancelPoll i s) ∧ (cancelPoll i s).bots = s.bots ∧
      (cancelPoll i s).settles = s.settles := by
    unfold cancelPoll
    cases hp : s.polls[i]? with
    | none => exact ⟨h, rfl, rfl⟩
    | some p => exact ⟨h.congr rfl rfl rfl (map_set_same _ _ _ _ _ hp rfl) rfl, rfl, rfl⟩
  obtain ⟨c1, hb1, hs1⟩ := h1
  generalize cancelPoll i s = s1 at c1 hb1 hs1
  have hs' : Settled s1 b := by
    unfold Settled
    rw [hs1]
    exact hs
  obtain ⟨bot, hb⟩ := hs'.bot_exists c1
  have h2 : Consistent (Agent.modifyBot b (fun bot => { bot with status := Status.stopped })
      (releaseTail b s1)) := by
    unfold releaseTail
    simp only [hb]
    cases htp : bot.tailProcess with
    | some t =>
      exact c1.release b t bot hb htp (fun bot => { bot with status := Status.stopped })
        (fun _ _ => Or.inr hs') (fun _ _ => rfl)
    | none =>
      apply c1.modifyBot
      · intro _ _ _
        exact hs'
      · intro bot' t' tl' hb' ht' hw' hbb
        obtain ⟨bot2, hb2, htp2, _⟩ := c1.watching t' tl' ht' hw'
        rw [hbb, hb] at hb2
        cases hb2
        rw [htp] at htp2
        cases htp2
      · intro _ _ _
        rfl
  have hb2 : (Agent.modifyBot b (fun bot => { bot with status := Status.stopped })
      (releaseTail b s1)).bots[b]? = some { bot with status := Status.stopped } := by
    rw [modifyBot_getElem?, if_pos rfl]
    unfold releaseTail
    simp only [hb]
    cases htp : bot.tailProcess <;> simp [hb, htp]
  exact h2.addRemoval { username := u, bot := b, setAt := _, done := false } _ hb2 rfl

theorem Consistent.probeDone {s : State} (h : Consistent s) (i : Nat) (rejected : Bool) :
    Consistent (probeDone i rejected s) := by
  unfold Agent.probeDone
  cases hp : s.polls[i]? with
  | none => exact h
  | some p =>
    simp only
    have h1 : Consistent { s with polls := s.polls.set i { p with inflight := p.inflight - 1 } } :=
      h.congr rfl rfl rfl (map_set_same _ _ _ _ _ hp rfl) rfl
    split_ifs
    · exact h
    · apply h1.exitBranch
      have hmem : p.bot ∈ s.polls.map Poll.bot :=
        List.mem_map_of_mem _ (List.getElem?_mem hp)
      exact h.polls_settled _ hmem
    · exact h1


theorem getElem?_append_singleton {α : Type} (l : List α) (a x : α) (j : Nat)
    (h : (l ++ [a])[j]? = some x) : l[j]? = some x ∨ (j = l.length ∧ x = a) := by
  by_cases hj : j < l.length
  · left
    rwa [List.getElem?_append_left hj] at h
  · right
    have hge : l.length ≤ j := Nat.le_of_not_lt hj
    rw [List.getElem?_append_right hge] at h
    cases hd : j - l.length with
    | zero =>
      rw [hd] at h
      simp only [List.getElem?_cons_zero, Option.some.injEq] at h
      exact ⟨by omega, h.symm⟩
    | succ n =>
      rw [hd] at h
      simp at h

theorem getElem?_append_of_some {α : Type} (l l' : List α) (x : α) (j : Nat)
    (h : l[j]? = some x) : (l ++ l')[j]? = some x := by
  have hj : j < l.length := (List.getElem?_eq_some.mp h).1
  rw [List.getElem?_append_left hj]
  exact h

/-- A change of fields other than `status` and `tailProcess` keeps the invariant. -/
theorem Consistent.modifyOther {s : State} (h : Consistent s) (b : Nat) (g : Bot → Bot)
    (hg : ∀ bot, (g bot).status = bot.status ∧ (g bot).tailProcess = bot.tailProcess) :
    Consistent (Agent.modifyBot b g s) := by
  apply h.modifyBot
  · intro bot hb hst
    rw [(hg bot).1] at hst
    exact h.stopped_settled b bot hb hst
  · intro bot t tl hb ht hw hbb
    obtain ⟨bot2, hb2, htp2, hns2⟩ := h.watching t tl ht hw
    rw [hbb, hb] at hb2
    cases hb2
    rw [(hg bot).1, (hg bot).2]
    exact ⟨htp2, hns2⟩
  · intro bot _ hst
    rw [(hg bot).1]
    exact hst

theorem Consistent.markDone {s : State} (h : Consistent s) (k : Nat) (st : Settle)
    (hk : s.settles[k]? = some st) :
    Consistent { s with settles := s.settles.set k { st with done := true } } ∧
    Settled { s with settles := s.settles.set k { st with done := true } } k ∧
    (∀ b, Settled s b → Settled { s with settles := s.settles.set k { st with done := true } } b) := by
  have hlt : k < s.settles.length := (List.getElem?_eq_some.mp hk).1
  have hmono : ∀ b, Settled s b →
      Settled { s with settles := s.settles.set k { st with done := true } } b := by
    intro b ⟨st', hst', hd⟩
    unfold Settled
    simp only [List.getElem?_set]
    by_cases hkb : k = b
    · subst hkb
      exact ⟨{ st with done := true }, by simp [hlt], rfl⟩
    · exact ⟨st', by simp [hkb, hst'], hd⟩
  have hk' : Settled { s with settles := s.settles.set k { st with done := true } } k := by
    unfold Settled
    simp only [List.getElem?_set]
    exact ⟨{ st with done := true }, by simp [hlt], rfl⟩
  refine ⟨?_, hk', hmono⟩
  obtain ⟨h1, h2, h3, h4, h5, h6, h7⟩ := h
  constructor
  · simpa using h1
  · intro j x hj
    simp only [List.getElem?_set] at hj
    by_cases hkj : k = j
    · subst hkj
      simp only [if_true, hlt, Option.some.injEq] at hj
      subst hj
      exact h2 k st hk
    · simp only [hkj, if_false] at hj
      exact h2 j x hj
  · intro tl htl
    exact hmono _ (h3 tl htl)
  · intro b hb
    exact hmono _ (h4 b hb)
  · intro b bot hb hst
    exact hmono _ (h5 b bot hb hst)
  · exact h6
  · exact h7

theorem Consistent.addPoll {s : State} (h : Consistent s) (p : Poll) (hs : Settled s p.bot) :
    Consistent { s with polls := s.polls ++ [p] } := by
  obtain ⟨h1, h2, h3, h4, h5, h6, h7⟩ := h
  refine ⟨h1, h2, h3, ?_, h5, h6, h7⟩
  intro j hj
  simp only [List.map_append, List.mem_append, List.map_cons, List.map_nil,
    List.mem_singleton] at hj
  rcases hj with hj | hj
  · exact h4 j hj
  · subst hj
    exact hs

theorem Consistent.addTail {s : State} (h : Consistent s) (b : Nat) (file u : Str) (bot : Bot)
    (hs : Settled s b) (hno : ∀ tl ∈ s.tails, tl.bot ≠ b) (hb : s.bots[b]? = some bot)
    (hns : bot.status ≠ Status.stopped) :
    Consistent (Agent.modifyBot b (fun bot => { bot with tailProcess := some s.tails.length })
      { s with tails := s.tails ++
          [({ file := file, username := u, bot := b, watching := true } : Tail)] }) := by
  obtain ⟨h1, h2, h3, h4, h5, h6, h7⟩ := h
  constructor
  · simpa using h1
  · simpa using h2
  · intro tl htl
    simp only [modifyBot_tails, List.mem_append, List.mem_singleton] at htl
    unfold Settled
    rw [modifyBot_settles]
    rcases htl with htl | htl
    · exact h3 tl htl
    · subst htl
      exact hs
  · simpa [Settled] using h4
  · intro j bot' hj hst
    unfold Settled
    rw [modifyBot_settles]
    rw [modifyBot_getElem?] at hj
    by_cases hjb : j = b
    · subst hjb
      exact hs
    · simp only [hjb, if_false] at hj
      exact h5 j bot' hj hst
  · intro t tl ht hw
    rw [modifyBot_tails] at ht
    rw [modifyBot_getElem?]
    rcases getElem?_append_singleton _ _ _ _ ht with ht' | ⟨ht', hx⟩
    · have hne : tl.bot ≠ b := hno tl (List.getElem?_mem ht')
      obtain ⟨bot2, hb2, htp2, hns2⟩ := h6 t tl ht' hw
      exact ⟨bot2, by rw [if_neg hne]; exact hb2, htp2, hns2⟩
    · subst hx
      refine ⟨{ bot with tailProcess := some s.tails.length }, ?_, ?_, hns⟩
      · simp only [if_true]
        rw [show (s.bots[b]?) = some bot from hb]
        rfl
      · simp only [ht']
  · intro j hj
    rw [modifyBot_removals] at hj
    obtain ⟨bot2, hb2, hst2⟩ := h7 j hj
    rw [modifyBot_getElem?]
    by_cases hjb : j = b
    · subst hjb
      exact ⟨{ bot2 with tailProcess := some s.tails.length },
        by rw [if_pos rfl, show s.bots[j]? = some bot2 from hb2]; rfl, hst2⟩
    · exact ⟨bot2, by rw [if_neg hjb]; exact hb2, hst2⟩


/-- The state in which the settle-delay callback of record `k` works: the
invariant holds, the callback is marked as run, the record has no tail yet
and is not stopped. -/
theorem settle_ready {s : State} (h : Consistent s) (k : Nat) (st : Settle)
    (hk : s.settles[k]? = some st) (hd : st.done = false) :
    (∀ tl ∈ s.tails, tl.bot ≠ k) ∧ ∃ bot, s.bots[k]? = some bot ∧ bot.status ≠ Status.stopped := by
  have hnot : ¬ Settled s k := by
    intro ⟨st', hst', hd'⟩
    rw [hk] at hst'
    cases hst'
    rw [hd] at hd'
    cases hd'
  constructor
  · intro tl htl hbk
    exact hnot (hbk ▸ h.tails_settled tl htl)
  · have hlt : k < s.settles.length := (List.getElem?_eq_some.mp hk).1
    rw [h.settles_len] at hlt
    refine ⟨s.bots[k], List.getElem?_eq_getElem hlt, ?_⟩
    intro hst
    exact hnot (h.stopped_settled k _ (List.getElem?_eq_getElem hlt) hst)

theorem Consistent.settleBody {s : State} (h : Consistent s) (u : Str) (k : Nat)
    (wmic : Option Nat) (dir : Option (List LogFile)) (hs : Settled s k)
    (hno : ∀ tl ∈ s.tails, tl.bot ≠ k)
    (hb : ∃ bot, s.bots[k]? = some bot ∧ bot.status ≠ Status.stopped) :
    Consistent (settleBody u k wmic dir s) := by
  unfold Agent.settleBody
  -- the state after PID resolution
  have h1 : Consistent (resolvePid u k wmic s) ∧ Settled (resolvePid u k wmic s) k ∧
      (∀ tl ∈ (resolvePid u k wmic s).tails, tl.bot ≠ k) ∧
      ∃ bot, (resolvePid u k wmic s).bots[k]? = some bot ∧ bot.status ≠ Status.stopped := by
    unfold resolvePid
    cases wmic with
    | none => exact ⟨h, hs, hno, hb⟩
    | some realPid =>
      refine ⟨?_, ?_, ?_, ?_⟩
      · apply Consistent.writeToCustomLog
        exact h.modifyOther k _ (fun _ => ⟨rfl, rfl⟩)
      · unfold Settled
        simpa using hs
      · simpa using hno
      · obtain ⟨bot, hbot, hns⟩ := hb
        refine ⟨{ bot with pid := some realPid }, ?_, hns⟩
        simp only [writeToCustomLog_bots]
        rw [modifyBot_getElem?, if_pos rfl, hbot]
        rfl
  obtain ⟨c1, sk1, no1, bot1, hb1, hns1⟩ := h1
  generalize resolvePid u k wmic s = s1 at c1 sk1 no1 hb1
  -- the state after log discovery
  have h2 : Consistent (startTail u k dir s1) ∧ Settled (startTail u k dir s1) k := by
    unfold startTail
    cases dir with
    | none => exact ⟨c1, sk1⟩
    | some entries =>
      simp only
      cases hdl : discoverLog u entries with
      | none => exact ⟨c1, sk1⟩
      | some latestLog =>
        simp only
        split_ifs
        · exact ⟨c1, sk1⟩
        · constructor
          · exact (c1.writeToCustomLog u _).addTail k latestLog u bot1
              (by unfold Settled; simpa using sk1) (by simpa using no1) (by simpa using hb1) hns1
          · unfold Settled
            simpa using sk1
  obtain ⟨c2, sk2⟩ := h2
  exact c2.addPoll { username := u, bot := k, active := true, inflight := 0 } sk2

theorem Consistent.settle {s : State} (h : Consistent s) (k : Nat) (wmic : Option Nat)
    (dir : Option (List LogFile)) : Consistent (settle k wmic dir s) := by
  unfold Agent.settle
  cases hk : s.settles[k]? with
  | none => exact h
  | some st =>
    simp only
    split_ifs with hc
    · exact h
    · have hd : st.done = false := by
        cases hdone : st.done with
        | false => rfl
        | true => simp [hdone] at hc
      have hbk : st.bot = k := h.settles_bot k st hk
      obtain ⟨su, sb, sa, sd⟩ := st
      simp only at hbk
      subst hbk
      obtain ⟨hno, hb⟩ := settle_ready h _ _ hk hd
      obtain ⟨c0, sk0, _⟩ := h.markDone _ _ hk
      exact c0.settleBody su sb wmic dir sk0 hno hb

theorem Consistent.startBot {s : State} (h : Consistent s) (u : Str) (account : Option Config)
    (bodyPlugin bodyArgs : Option Str) (javaPath : Str) (childPid : Option Nat) :
    Consistent (startBot u account bodyPlugin bodyArgs javaPath childPid s) := by
  unfold Agent.startBot
  cases account with
  | none => exact h.congr rfl rfl rfl rfl rfl
  | some account =>
    simp only
    by_cases hpw : account.password = []
    · rw [if_pos hpw]
      exact h.congr rfl rfl rfl rfl rfl
    · rw [if_neg hpw]
      obtain ⟨h1, h2, h3, h4, h5, h6, h7⟩ := h
      have hmono : ∀ (b : Nat) (x : Settle), Settled s b →
          ∃ st, (s.settles ++ [x])[b]? = some st ∧ st.done = true := by
        intro b x ⟨st, hst, hd⟩
        exact ⟨st, getElem?_append_of_some _ _ _ _ hst, hd⟩
      constructor
      · simp [writeToCustomLog, h1]
      · intro k st hk
        simp only [writeToCustomLog] at hk
        rcases getElem?_append_singleton _ _ _ _ hk with hk' | ⟨hk', hx⟩
        · exact h2 k st hk'
        · subst hx
          simp [hk', h1]
      · intro tl htl
        exact hmono _ _ (h3 tl htl)
      · intro b hb
        exact hmono _ _ (h4 b hb)
      · intro b bot hb hst
        simp only [writeToCustomLog] at hb
        rcases getElem?_append_singleton _ _ _ _ hb with hb' | ⟨_, hx⟩
        · exact hmono _ _ (h5 b bot hb' hst)
        · subst hx
          cases hst
      · intro t tl ht hw
        obtain ⟨bot, hb, htp, hns⟩ := h6 t tl ht hw
        exact ⟨bot, getElem?_append_of_some _ _ _ _ hb, htp, hns⟩
      · intro b hb
        obtain ⟨bot, hbot, hst⟩ := h7 b hb
        exact ⟨bot, getElem?_append_of_some _ _ _ _ hbot, hst⟩

/-- Every event keeps the invariant. -/
theorem Consistent.step {s : State} (h : Consistent s) (e : Event) : Consistent (step s e) := by
  cases e with
  | advance dt clock => exact h.congr rfl rfl rfl rfl rfl
  | webhookLoaded url => exact h.webhookLoaded url
  | start u account bodyPlugin bodyArgs javaPath childPid =>
    exact h.startBot u account bodyPlugin bodyArgs javaPath childPid
  | settle k wmic dir => exact h.settle k wmic dir
  | line t text => exact h.lineEvent t text
  | tailError t message =>
    simp only [Agent.step, Agent.tailError]
    cases s.tails[t]? with
    | none => exact h
    | some tl => exact h.writeToCustomLog _ _
  | tick i => exact h.tick i
  | probeDone i rejected => exact h.probeDone i rejected
  | stop u => exact h.stopRequest u
  | killDone k err => exact h.killDone k err
  | removeFire r => exact h.removeFire r
  | logs u =>
    obtain ⟨_, hb, ht, hs, hp, hr, _⟩ := logsRoute_same u s
    exact h.congr hb ht hs (by rw [Agent.step, hp]) (by rw [Agent.step, hr])

theorem Consistent.run {s : State} (h : Consistent s) (events : List Event) :
    Consistent (run s events) := by
  induction events generalizing s with
  | nil => exact h
  | cons e es ih => exact ih (h.step e)

/-- The invariant holds in every reachable state. -/
theorem Reachable.consistent {s : State} (h : Reachable s) : Consistent s := by
  obtain ⟨clock, files, events, rfl⟩ := h
  exact (Consistent.initial clock files).run events

theorem Reachable.extend {s : State} (h : Reachable s) (events : List Event) :
    Reachable (run s events) := by
  obtain ⟨clock, files, evs, rfl⟩ := h
  exact ⟨clock, files, evs ++ events, by simp [Agent.run, List.foldl_append]⟩


/-! ## C10: `stopped` is terminal -/

theorem KeepsStopped.ks_refl (s : State) : KeepsStopped s s :=
  fun _ bot hb hst => ⟨bot, hb, hst⟩

theorem KeepsStopped.ks_trans {s1 s2 s3 : State} (h1 : KeepsStopped s1 s2)
    (h2 : KeepsStopped s2 s3) : KeepsStopped s1 s3 := by
  intro b bot hb hst
  obtain ⟨bot2, hb2, hst2⟩ := h1 b bot hb hst
  exact h2 b bot2 hb2 hst2

theorem KeepsStopped.ks_of_eq {s s' : State} (h : s'.bots = s.bots) : KeepsStopped s s' := by
  intro b bot hb hst
  exact ⟨bot, by rw [h]; exact hb, hst⟩

theorem KeepsStopped.ks_modifyBot (s : State) (b : Nat) (g : Bot → Bot)
    (hg : ∀ bot, s.bots[b]? = some bot → bot.status = Status.stopped →
      (g bot).status = Status.stopped) :
    KeepsStopped s (modifyBot b g s) := by
  intro j bot hb hst
  rw [modifyBot_getElem?]
  by_cases hjb : j = b
  · subst hjb
    exact ⟨g bot, by rw [if_pos rfl, hb]; rfl, hg bot hb hst⟩
  · exact ⟨bot, by rw [if_neg hjb]; exact hb, hst⟩

theorem KeepsStopped.ks_startBot (s : State) (u : Str) (account : Option Config)
    (bodyPlugin bodyArgs : Option Str) (javaPath : Str) (childPid : Option Nat) :
    KeepsStopped s (startBot u account bodyPlugin bodyArgs javaPath childPid s) := by
  unfold Agent.startBot
  cases account with
  | none => exact KeepsStopped.ks_of_eq rfl
  | some account =>
    simp only
    by_cases hpw : account.password = []
    · rw [if_pos hpw]
      exact KeepsStopped.ks_of_eq rfl
    · rw [if_neg hpw]
      intro b bot hb hst
      exact ⟨bot, getElem?_append_of_some _ _ _ _ hb, hst⟩

theorem KeepsStopped.ks_settleBody (s : State) (u : Str) (k : Nat) (wmic : Option Nat)
    (dir : Option (List LogFile)) : KeepsStopped s (settleBody u k wmic dir s) := by
  unfold Agent.settleBody
  have h1 : KeepsStopped s (resolvePid u k wmic s) := by
    unfold resolvePid
    cases wmic with
    | none => exact KeepsStopped.ks_refl s
    | some realPid =>
      exact (KeepsStopped.ks_modifyBot s k (fun bot => { bot with pid := some realPid })
        (fun _ _ hst => hst)).ks_trans (KeepsStopped.ks_of_eq rfl)
  have h2 : ∀ s1, KeepsStopped s1 (startTail u k dir s1) := by
    intro s1
    unfold startTail
    cases dir with
    | none => exact KeepsStopped.ks_refl s1
    | some entries =>
      simp only
      cases discoverLog u entries with
      | none => exact KeepsStopped.ks_refl s1
      | some latestLog =>
        simp only
        split_ifs
        · exact KeepsStopped.ks_refl s1
        · refine KeepsStopped.ks_trans ?_ (KeepsStopped.ks_modifyBot _ k _ (fun _ _ hst => hst))
          exact KeepsStopped.ks_of_eq rfl
  exact (h1.ks_trans (h2 _)).ks_trans (KeepsStopped.ks_of_eq rfl)

theorem releaseTail_bots (b : Nat) (s : State) : (releaseTail b s).bots = s.bots := by
  unfold releaseTail
  cases s.bots[b]? with
  | none => rfl
  | some bot =>
    simp only
    cases bot.tailProcess <;> simp

theorem cancelPoll_bots (i : Nat) (s : State) : (cancelPoll i s).bots = s.bots := by
  unfold cancelPoll
  cases s.polls[i]? <;> rfl

theorem KeepsStopped.ks_exitBranch (s : State) (i : Nat) (u : Str) (b : Nat) :
    KeepsStopped s (exitBranch i u b s) := by
  unfold Agent.exitBranch
  have h1 : KeepsStopped s (releaseTail b (cancelPoll i s)) :=
    KeepsStopped.ks_of_eq (by rw [releaseTail_bots, cancelPoll_bots])
  have h2 : KeepsStopped (releaseTail b (cancelPoll i s))
      (Agent.modifyBot b (fun bot => { bot with status := Status.stopped })
        (releaseTail b (cancelPoll i s))) :=
    KeepsStopped.ks_modifyBot _ b _ (fun _ _ _ => rfl)
  exact (h1.ks_trans h2).ks_trans (KeepsStopped.ks_of_eq rfl)

theorem KeepsStopped.ks_stopRequest (s : State) (u : Str) : KeepsStopped s (stopRequest u s) := by
  unfold Agent.stopRequest
  cases mapGet s.runningBots u with
  | none => exact KeepsStopped.ks_of_eq rfl
  | some b =>
    simp only
    cases hb : s.bots[b]? with
    | none => exact KeepsStopped.ks_of_eq rfl
    | some bot =>
      simp only
      have h1 : KeepsStopped s (match bot.tailProcess with
          | some t => Agent.modifyBot b (fun bot => { bot with tailProcess := none }) (Agent.unwatch t s)
          | none => s) := by
        cases bot.tailProcess with
        | none => exact KeepsStopped.ks_refl s
        | some t =>
          exact KeepsStopped.ks_trans (KeepsStopped.ks_of_eq (by simp))
            (KeepsStopped.ks_modifyBot _ b _ (fun _ _ hst => hst))
      cases bot.pid with
      | none => exact h1.ks_trans (KeepsStopped.ks_of_eq rfl)
      | some pid =>
        simp only
        split_ifs
        · exact h1.ks_trans (KeepsStopped.ks_of_eq rfl)
        · exact h1.ks_trans (KeepsStopped.ks_of_eq rfl)

theorem KeepsStopped.ks_settle (s : State) (k : Nat) (wmic : Option Nat)
    (dir : Option (List LogFile)) : KeepsStopped s (settle k wmic dir s) := by
  unfold Agent.settle
  cases s.settles[k]? with
  | none => exact KeepsStopped.ks_refl s
  | some st =>
    simp only
    split_ifs
    · exact KeepsStopped.ks_refl s
    · have h1 : KeepsStopped s { s with settles := s.settles.set k { st with done := true } } :=
        KeepsStopped.ks_of_eq rfl
      exact h1.ks_trans (KeepsStopped.ks_settleBody
        { s with settles := s.settles.set k { st with done := true } } st.username st.bot wmic dir)

theorem KeepsStopped.ks_lineEvent {s : State} (h : Consistent s) (t : Nat) (text : Str) :
    KeepsStopped s (lineEvent t text s) := by
  unfold Agent.lineEvent
  cases ht : s.tails[t]? with
  | none => exact KeepsStopped.ks_refl s
  | some tl =>
    simp only
    split_ifs with hw
    · obtain ⟨bot0, hb0, _, hns0⟩ := h.watching t tl ht hw
      intro b bot hb hst
      rw [onLine_bots]
      by_cases hbb : b = tl.bot
      · subst hbb
        rw [hb0] at hb
        cases hb
        exact absurd hst hns0
      · exact ⟨bot, by rw [if_neg hbb]; exact hb, hst⟩
    · exact KeepsStopped.ks_refl s

theorem KeepsStopped.ks_tick (s : State) (i : Nat) : KeepsStopped s (tick i s) := by
  unfold Agent.tick
  cases s.polls[i]? with
  | none => exact KeepsStopped.ks_refl s
  | some p =>
    simp only
    split_ifs
    · cases s.bots[p.bot]? with
      | none => exact KeepsStopped.ks_refl s
      | some bot =>
        simp only
        split_ifs
        · exact KeepsStopped.ks_of_eq rfl
        · exact KeepsStopped.ks_refl s
    · exact KeepsStopped.ks_refl s

theorem KeepsStopped.ks_probeDone (s : State) (i : Nat) (rejected : Bool) :
    KeepsStopped s (probeDone i rejected s) := by
  unfold Agent.probeDone
  cases s.polls[i]? with
  | none => exact KeepsStopped.ks_refl s
  | some p =>
    simp only
    split_ifs
    · exact KeepsStopped.ks_refl s
    · have h1 : KeepsStopped s
          { s with polls := s.polls.set i { p with inflight := p.inflight - 1 } } :=
        KeepsStopped.ks_of_eq rfl
      exact h1.ks_trans (KeepsStopped.ks_exitBranch
        { s with polls := s.polls.set i { p with inflight := p.inflight - 1 } } i p.username p.bot)
    · exact KeepsStopped.ks_of_eq rfl

theorem KeepsStopped.ks_killDone (s : State) (k : Nat) (err : Option Str) :
    KeepsStopped s (killDone k err s) := by
  unfold Agent.killDone
  cases s.kills[k]? with
  | none => exact KeepsStopped.ks_refl s
  | some kl =>
    simp only
    split_ifs
    · exact KeepsStopped.ks_refl s
    · unfold stopResume
      cases err <;> exact KeepsStopped.ks_of_eq rfl

theorem KeepsStopped.ks_removeFire (s : State) (r : Nat) : KeepsStopped s (removeFire r s) := by
  unfold Agent.removeFire
  cases s.removals[r]? with
  | none => exact KeepsStopped.ks_refl s
  | some rm =>
    simp only
    split_ifs
    · exact KeepsStopped.ks_refl s
    · exact KeepsStopped.ks_of_eq rfl

theorem KeepsStopped.ks_webhookLoaded (s : State) (url : Str) :
    KeepsStopped s (webhookLoaded url s) := by
  unfold Agent.webhookLoaded
  split_ifs
  · exact KeepsStopped.ks_of_eq rfl
  · exact KeepsStopped.ks_refl s

/-- One event leaves a stopped record stopped, in a state that satisfies the invariant. -/
theorem KeepsStopped.ks_step {s : State} (h : Consistent s) (e : Event) : KeepsStopped s (step s e) := by
  cases e with
  | advance dt clock => exact KeepsStopped.ks_of_eq rfl
  | webhookLoaded url => exact KeepsStopped.ks_webhookLoaded s url
  | start u account bodyPlugin bodyArgs javaPath childPid =>
    exact KeepsStopped.ks_startBot s u account bodyPlugin bodyArgs javaPath childPid
  | settle k wmic dir => exact KeepsStopped.ks_settle s k wmic dir
  | line t text => exact KeepsStopped.ks_lineEvent h t text
  | tailError t message =>
    simp only [Agent.step, Agent.tailError]
    cases s.tails[t]? with
    | none => exact KeepsStopped.ks_refl s
    | some tl => exact KeepsStopped.ks_of_eq rfl
  | tick i => exact KeepsStopped.ks_tick s i
  | probeDone i rejected => exact KeepsStopped.ks_probeDone s i rejected
  | stop u => exact KeepsStopped.ks_stopRequest s u
  | killDone k err => exact KeepsStopped.ks_killDone s k err
  | removeFire r => exact KeepsStopped.ks_removeFire s r
  | logs u => exact KeepsStopped.ks_of_eq (logsRoute_same u s).2.1

/-- C10: `stopped` is terminal.  In every state the agent can reach, a record
whose status is `stopped` has status `stopped` after every further sequence
of events, whatever they are: tailed lines (a `LOGGED_IN` line included),
liveness ticks and probe answers, settle callbacks, start and stop requests,
timers.  (The tail of a record is unwatched before, or when, the record is
stopped, and an unwatched tail delivers no line.) -/
theorem stopped_is_terminal (s : State) (hs : Reachable s) (b : Nat)
    (hst : (s.bots[b]?).map Bot.status = some Status.stopped) (events : List Event) :
    ((run s events).bots[b]?).map Bot.status = some Status.stopped := by
  obtain ⟨bot, hb, hst⟩ : ∃ bot, s.bots[b]? = some bot ∧ bot.status = Status.stopped := by
    cases hb : s.bots[b]? with
    | none => simp [hb] at hst
    | some bot => exact ⟨bot, rfl, by simpa [hb] using hst⟩
  have key : ∀ (events : List Event) (s : State), Consistent s → KeepsStopped s (run s events) := by
    intro events
    induction events with
    | nil => intro s _; exact KeepsStopped.ks_refl s
    | cons e es ih =>
      intro s hc
      exact (KeepsStopped.ks_step hc e).ks_trans (ih _ (hc.step e))
  obtain ⟨bot', hb', hst'⟩ := key events s hs.consistent b bot hb hst
  rw [hb']
  simp [hst']


/-! ## C6: what a stop request tears down -/

theorem TailsEvolve.te_refl (s : State) : TailsEvolve s s :=
  fun _ tl ht => ⟨tl, ht, id⟩

theorem TailsEvolve.te_trans {s1 s2 s3 : State} (h1 : TailsEvolve s1 s2) (h2 : TailsEvolve s2 s3) :
    TailsEvolve s1 s3 := by
  intro t tl ht
  obtain ⟨tl2, ht2, hw2⟩ := h1 t tl ht
  obtain ⟨tl3, ht3, hw3⟩ := h2 t tl2 ht2
  exact ⟨tl3, ht3, fun hw => hw2 (hw3 hw)⟩

theorem TailsEvolve.te_of_eq {s s' : State} (h : s'.tails = s.tails) : TailsEvolve s s' := by
  intro t tl ht
  exact ⟨tl, by rw [h]; exact ht, id⟩

theorem TailsEvolve.te_unwatch (s : State) (t : Nat) : TailsEvolve s (unwatch t s) := by
  intro j tl hj
  rw [unwatch_getElem?]
  by_cases hjt : j = t
  · exact ⟨{ tl with watching := false }, by rw [if_pos hjt, hj]; rfl, fun hw => by cases hw⟩
  · exact ⟨tl, by rw [if_neg hjt]; exact hj, id⟩

theorem TailsEvolve.te_startBot (s : State) (u : Str) (account : Option Config)
    (bodyPlugin bodyArgs : Option Str) (javaPath : Str) (childPid : Option Nat) :
    TailsEvolve s (startBot u account bodyPlugin bodyArgs javaPath childPid s) := by
  unfold Agent.startBot
  cases account with
  | none => exact TailsEvolve.te_of_eq rfl
  | some account =>
    simp only
    by_cases hpw : account.password = []
    · rw [if_pos hpw]
      exact TailsEvolve.te_of_eq rfl
    · rw [if_neg hpw]
      exact TailsEvolve.te_of_eq rfl

theorem TailsEvolve.te_settleBody (s : State) (u : Str) (k : Nat) (wmic : Option Nat)
    (dir : Option (List LogFile)) : TailsEvolve s (settleBody u k wmic dir s) := by
  unfold Agent.settleBody
  have h1 : TailsEvolve s (resolvePid u k wmic s) := by
    unfold resolvePid
    cases wmic with
    | none => exact TailsEvolve.te_refl s
    | some realPid => exact TailsEvolve.te_of_eq (by simp)
  have h2 : ∀ s1, TailsEvolve s1 (startTail u k dir s1) := by
    intro s1
    unfold startTail
    cases dir with
    | none => exact TailsEvolve.te_refl s1
    | some entries =>
      simp only
      cases discoverLog u entries with
      | none => exact TailsEvolve.te_refl s1
      | some latestLog =>
        simp only
        split_ifs
        · exact TailsEvolve.te_refl s1
        · intro t tl ht
          refine ⟨tl, ?_, id⟩
          rw [modifyBot_tails]
          exact getElem?_append_of_some _ _ _ _ ht
  exact (h1.te_trans (h2 _)).te_trans (TailsEvolve.te_of_eq rfl)

theorem TailsEvolve.te_settle (s : State) (k : Nat) (wmic : Option Nat)
    (dir : Option (List LogFile)) : TailsEvolve s (settle k wmic dir s) := by
  unfold Agent.settle
  cases s.settles[k]? with
  | none => exact TailsEvolve.te_refl s
  | some st =>
    simp only
    split_ifs
    · exact TailsEvolve.te_refl s
    · have h1 : TailsEvolve s { s with settles := s.settles.set k { st with done := true } } :=
        TailsEvolve.te_of_eq rfl
      exact h1.te_trans (TailsEvolve.te_settleBody
        { s with settles := s.settles.set k { st with done := true } } st.username st.bot wmic dir)

theorem TailsEvolve.te_lineEvent (s : State) (t : Nat) (text : Str) :
    TailsEvolve s (lineEvent t text s) := by
  unfold Agent.lineEvent
  cases s.tails[t]? with
  | none => exact TailsEvolve.te_refl s
  | some tl =>
    simp only
    split_ifs
    · exact TailsEvolve.te_of_eq (onLine_same tl.username tl.bot text s).1
    · exact TailsEvolve.te_refl s

theorem TailsEvolve.te_tick (s : State) (i : Nat) : TailsEvolve s (tick i s) := by
  unfold Agent.tick
  cases s.polls[i]? with
  | none => exact TailsEvolve.te_refl s
  | some p =>
    simp only
    split_ifs
    · cases s.bots[p.bot]? with
      | none => exact TailsEvolve.te_refl s
      | some bot =>
        simp only
        split_ifs
        · exact TailsEvolve.te_of_eq rfl
        · exact TailsEvolve.te_refl s
    · exact TailsEvolve.te_refl s

theorem TailsEvolve.te_exitBranch (s : State) (i : Nat) (u : Str) (b : Nat) :
    TailsEvolve s (exitBranch i u b s) := by
  unfold Agent.exitBranch
  have h1 : TailsEvolve s (cancelPoll i s) := by
    unfold cancelPoll
    cases s.polls[i]? <;> exact TailsEvolve.te_of_eq rfl
  have h2 : ∀ s1, TailsEvolve s1 (releaseTail b s1) := by
    intro s1
    unfold releaseTail
    cases s1.bots[b]? with
    | none => exact TailsEvolve.te_refl s1
    | some bot =>
      simp only
      cases bot.tailProcess with
      | none => exact TailsEvolve.te_refl s1
      | some t => exact TailsEvolve.te_unwatch s1 t
  exact (h1.te_trans (h2 _)).te_trans (TailsEvolve.te_of_eq (by simp [scheduleRemoval]))

theorem TailsEvolve.te_probeDone (s : State) (i : Nat) (rejected : Bool) :
    TailsEvolve s (probeDone i rejected s) := by
  unfold Agent.probeDone
  cases s.polls[i]? with
  | none => exact TailsEvolve.te_refl s
  | some p =>
    simp only
    split_ifs
    · exact TailsEvolve.te_refl s
    · have h1 : TailsEvolve s
          { s with polls := s.polls.set i { p with inflight := p.inflight - 1 } } :=
        TailsEvolve.te_of_eq rfl
      exact h1.te_trans (TailsEvolve.te_exitBranch
        { s with polls := s.polls.set i { p with inflight := p.inflight - 1 } } i p.username p.bot)
    · exact TailsEvolve.te_of_eq rfl

theorem TailsEvolve.te_stopRequest (s : State) (u : Str) : TailsEvolve s (stopRequest u s) := by
  unfold Agent.stopRequest
  cases mapGet s.runningBots u with
  | none => exact TailsEvolve.te_of_eq rfl
  | some b =>
    simp only
    cases s.bots[b]? with
    | none => exact TailsEvolve.te_of_eq rfl
    | some bot =>
      simp only
      have h1 : TailsEvolve s (match bot.tailProcess with
          | some t => Agent.modifyBot b (fun bot => { bot with tailProcess := none }) (Agent.unwatch t s)
          | none => s) := by
        cases bot.tailProcess with
        | none => exact TailsEvolve.te_refl s
        | some t => exact (TailsEvolve.te_unwatch s t).te_trans (TailsEvolve.te_of_eq (by simp))
      cases bot.pid with
      | none => exact h1.te_trans (TailsEvolve.te_of_eq rfl)
      | some pid =>
        simp only
        split_ifs
        · exact h1.te_trans (TailsEvolve.te_of_eq rfl)
        · exact h1.te_trans (TailsEvolve.te_of_eq rfl)

theorem TailsEvolve.te_killDone (s : State) (k : Nat) (err : Option Str) :
    TailsEvolve s (killDone k err s) := by
  unfold Agent.killDone
  cases s.kills[k]? with
  | none => exact TailsEvolve.te_refl s
  | some kl =>
    simp only
    split_ifs
    · exact TailsEvolve.te_refl s
    · unfold stopResume
      cases err <;> exact TailsEvolve.te_of_eq rfl

theorem TailsEvolve.te_removeFire (s : State) (r : Nat) : TailsEvolve s (removeFire r s) := by
  unfold Agent.removeFire
  cases s.removals[r]? with
  | none => exact TailsEvolve.te_refl s
  | some rm =>
    simp only
    split_ifs
    · exact TailsEvolve.te_refl s
    · exact TailsEvolve.te_of_eq rfl

theorem TailsEvolve.te_webhookLoaded (s : State) (url : Str) :
    TailsEvolve s (webhookLoaded url s) := by
  unfold Agent.webhookLoaded
  split_ifs
  · exact TailsEvolve.te_of_eq rfl
  · exact TailsEvolve.te_refl s

theorem TailsEvolve.te_step (s : State) (e : Event) : TailsEvolve s (step s e) := by
  cases e with
  | advance dt clock => exact TailsEvolve.te_of_eq rfl
  | webhookLoaded url => exact TailsEvolve.te_webhookLoaded s url
  | start u account bodyPlugin bodyArgs javaPath childPid =>
    exact TailsEvolve.te_startBot s u account bodyPlugin bodyArgs javaPath childPid
  | settle k wmic dir => exact TailsEvolve.te_settle s k wmic dir
  | line t text => exact TailsEvolve.te_lineEvent s t text
  | tailError t message =>
    simp only [Agent.step, Agent.tailError]
    cases s.tails[t]? with
    | none => exact TailsEvolve.te_refl s
    | some tl => exact TailsEvolve.te_of_eq rfl
  | tick i => exact TailsEvolve.te_tick s i
  | probeDone i rejected => exact TailsEvolve.te_probeDone s i rejected
  | stop u => exact TailsEvolve.te_stopRequest s u
  | killDone k err => exact TailsEvolve.te_killDone s k err
  | removeFire r => exact TailsEvolve.te_removeFire s r
  | logs u => exact TailsEvolve.te_of_eq (logsRoute_same u s).2.2.1

theorem TailsEvolve.te_run (s : State) (events : List Event) : TailsEvolve s (run s events) := by
  induction events generalizing s with
  | nil => exact TailsEvolve.te_refl s
  | cons e es ih => exact (TailsEvolve.te_step s e).te_trans (ih (Agent.step s e))


theorem stopRequest_effect (username : Str) (b t : Nat) (bot : Bot) (s : State)
    (hreg : mapGet s.runningBots username = some b) (hb : s.bots[b]? = some bot)
    (htp : bot.tailProcess = some t) :
    (stopRequest username s).unwatched = t :: s.unwatched ∧
    (stopRequest username s).bots[b]? = some { bot with tailProcess := none } ∧
    (stopRequest username s).tails = (unwatch t s).tails := by
  have hb' : (Agent.modifyBot b (fun bot => { bot with tailProcess := none })
      (unwatch t s)).bots[b]? = some { bot with tailProcess := none } := by
    rw [modifyBot_getElem?, if_pos rfl, unwatch_bots, hb]
    rfl
  unfold stopRequest
  simp only [hreg, hb, htp]
  cases hpid : bot.pid with
  | none =>
    rw [hpid] at hb'
    simp [finishStop, hb']
  | some pid =>
    rw [hpid] at hb'
    simp only
    split_ifs <;> simp [finishStop, hb']

/-- C6 (as amended): serving a stop request for an account whose record holds
a tail subscription releases that subscription before the request returns
(one `unwatch` call, `tailProcess` set to null), and the subscription stays
released: after any further events that tail is not watching, and a line
event for it changes nothing (Registry, records and rolling logs included). -/
theorem stop_releases_tail (username : Str) (b t : Nat) (s : State)
    (hreg : mapGet s.runningBots username = some b)
    (htail : (s.bots[b]?).bind Bot.tailProcess = some t) (ht : t < s.tails.length)
    (events : List Event) :
    (stopRequest username s).unwatched = t :: s.unwatched ∧
    ((stopRequest username s).bots[b]?).map Bot.tailProcess = some none ∧
    ((run (stopRequest username s) events).tails[t]?).map Tail.watching = some false ∧
    ∀ text, lineEvent t text (run (stopRequest username s) events) =
      run (stopRequest username s) events := by
  obtain ⟨bot, hb, htp⟩ : ∃ bot, s.bots[b]? = some bot ∧ bot.tailProcess = some t := by
    cases hb : s.bots[b]? with
    | none => simp [hb] at htail
    | some bot => exact ⟨bot, rfl, by simpa [hb] using htail⟩
  obtain ⟨e1, e2, e3⟩ := stopRequest_effect username b t bot s hreg hb htp
  have h0 : ∃ tl0, (stopRequest username s).tails[t]? = some tl0 ∧ tl0.watching = false := by
    rw [e3]
    have hlt : t < (unwatch t s).tails.length := by simpa using ht
    exact ⟨(unwatch t s).tails[t], List.getElem?_eq_getElem hlt,
      unwatch_not_watching t s _ (List.getElem?_eq_getElem hlt)⟩
  obtain ⟨tl0, htl0, hw0⟩ := h0
  obtain ⟨tl1, htl1, hw1⟩ := TailsEvolve.te_run (stopRequest username s) events t tl0 htl0
  have hoff : tl1.watching = false := by
    cases hw : tl1.watching with
    | false => rfl
    | true => rw [hw1 hw] at hw0; cases hw0
  refine ⟨e1, by rw [e2]; rfl, by rw [htl1]; simp [hoff], ?_⟩
  intro text
  simp [lineEvent, htl1, hoff]

/-! ## C7: a stop request that overtakes the settle-delay callback -/

theorem settleBody_runningBots (u : Str) (k : Nat) (wmic : Option Nat)
    (dir : Option (List LogFile)) (s : State) :
    (settleBody u k wmic dir s).runningBots = s.runningBots ∧
    (settleBody u k wmic dir s).responses = s.responses := by
  unfold settleBody startPolling
  have h1 : (resolvePid u k wmic s).runningBots = s.runningBots ∧
      (resolvePid u k wmic s).responses = s.responses := by
    unfold resolvePid
    cases wmic with
    | none => exact ⟨rfl, rfl⟩
    | some realPid =>
      simp only [writeToCustomLog_runningBots, modifyBot_runningBots, writeToCustomLog_responses]
      unfold modifyBot
      cases s.bots[k]? <;> simp
  have h2 : ∀ s1, (startTail u k dir s1).runningBots = s1.runningBots ∧
      (startTail u k dir s1).responses = s1.responses := by
    intro s1
    unfold startTail
    cases dir with
    | none => exact ⟨rfl, rfl⟩
    | some entries =>
      simp only
      cases discoverLog u entries with
      | none => exact ⟨rfl, rfl⟩
      | some latestLog =>
        simp only
        split_ifs
        · exact ⟨rfl, rfl⟩
        · simp only [modifyBot_runningBots]
          unfold modifyBot
          simp only [writeToCustomLog_bots]
          cases s1.bots[k]? <;> simp [writeToCustomLog]
  simp only [(h2 _).1, (h2 _).2, h1.1, h1.2, and_self]

theorem settle_runningBots (k : Nat) (wmic : Option Nat) (dir : Option (List LogFile))
    (s : State) :
    (settle k wmic dir s).runningBots = s.runningBots ∧
    (settle k wmic dir s).responses = s.responses := by
  unfold settle
  cases s.settles[k]? with
  | none => exact ⟨rfl, rfl⟩
  | some st =>
    simp only
    split_ifs
    · exact ⟨rfl, rfl⟩
    · exact settleBody_runningBots _ _ _ _ _


theorem mapGet_cons (e : Str × Nat) (m : List (Str × Nat)) (u : Str) :
    mapGet (e :: m) u = if e.1 = u then some e.2 else mapGet m u := by
  unfold mapGet
  by_cases h : e.1 = u <;> simp [List.find?_cons, h]

theorem mapDelete_cons (e : Str × Nat) (m : List (Str × Nat)) (k : Str) :
    mapDelete (e :: m) k = if e.1 = k then mapDelete m k else e :: mapDelete m k := by
  unfold mapDelete
  by_cases h : e.1 = k <;> simp [List.filter_cons, h]

theorem mapGet_mapDelete_ne (m : List (Str × Nat)) (k u : Str) (h : u ≠ k) :
    mapGet (mapDelete m k) u = mapGet m u := by
  induction m with
  | nil => rfl
  | cons e m ih =>
    rw [mapDelete_cons, mapGet_cons]
    by_cases hek : e.1 = k
    · have hne : ¬ e.1 = u := fun h' => h (h'.symm.trans hek)
      rw [if_pos hek, if_neg hne]
      exact ih
    · rw [if_neg hek, mapGet_cons, ih]

theorem mapGet_mapSet_ne (m : List (Str × Nat)) (k u : Str) (v : Nat) (h : u ≠ k) :
    mapGet (mapSet m k v) u = mapGet m u := by
  have hne : ¬ k = u := fun h' => h h'.symm
  induction m with
  | nil =>
    unfold mapSet
    rw [mapGet_cons, if_neg hne]
  | cons e m ih =>
    unfold mapSet
    by_cases hek : e.1 = k
    · have hne2 : ¬ e.1 = u := fun h' => h (h'.symm.trans hek)
      rw [if_pos hek, mapGet_cons, mapGet_cons, if_neg hne2]
      simp [hne]
    · rw [if_neg hek, mapGet_cons, mapGet_cons, ih]

theorem kills_after_stop (username : Str) (b : Nat) (bot : Bot) (s : State)
    (hreg : mapGet s.runningBots username = some b) (hb : s.bots[b]? = some bot)
    (hpid : pidTruthy bot.pid = true) :
    ∃ kl : Kill, kl.username = username ∧ kl.done = false ∧
      (stopRequest username s).kills = s.kills ++ [kl] ∧
      (stopRequest username s).responses = s.responses := by
  unfold stopRequest
  simp only [hreg, hb]
  cases hp : bot.pid with
  | none => simp [hp, pidTruthy] at hpid
  | some pid =>
    have hne : (pid != 0) = true := by simpa [hp, pidTruthy] using hpid
    simp only [hne, if_true]
    refine ⟨{ username := username, bot := b, pid := pid, done := false }, rfl, rfl, ?_, ?_⟩
    · cases bot.tailProcess <;> simp
    · cases bot.tailProcess <;> simp

/-- C7 (as amended): a stop request that is served before the account's
settle-delay callback has run still succeeds: without a usable pid it answers
success at once, otherwise as soon as its `taskkill` has answered, whatever
the answer; either way the account is then gone from the Registry.  The
settle-delay callback never changes the Registry, so it does not put the
account back. -/
theorem stop_before_settle (username : Str) (b : Nat) (bot : Bot) (s : State)
    (hreg : mapGet s.runningBots username = some b) (hb : s.bots[b]? = some bot) :
    (pidTruthy bot.pid = false →
      (stopRequest username s).responses = Response.success :: s.responses ∧
      mapGet (stopRequest username s).runningBots username = none) ∧
    (pidTruthy bot.pid = true → ∀ err : Option Str,
      (killDone s.kills.length err (stopRequest username s)).responses =
        Response.success :: s.responses ∧
      mapGet (killDone s.kills.length err (stopRequest username s)).runningBots username =
        none) ∧
    (∀ (k : Nat) (wmic : Option Nat) (dir : Option (List LogFile)) (later : State),
      (settle k wmic dir later).runningBots = later.runningBots) := by
  refine ⟨?_, ?_, fun k wmic dir later => (settle_runningBots k wmic dir later).1⟩
  · intro hpid
    unfold stopRequest
    simp only [hreg, hb]
    cases hp : bot.pid with
    | none =>
      simp only [finishStop, writeToCustomLog_responses, writeToCustomLog_runningBots,
        mapGet_mapDelete, and_true]
      cases bot.tailProcess <;> simp
    | some pid =>
      have hz : (pid != 0) = false := by simpa [hp, pidTruthy] using hpid
      simp only [hz, finishStop, writeToCustomLog_responses, writeToCustomLog_runningBots,
        mapGet_mapDelete, and_true]
      cases bot.tailProcess <;> simp [mapGet_mapDelete]
  · intro hpid err
    obtain ⟨kl, hu, hd, hk, hr⟩ := kills_after_stop username b bot s hreg hb hpid
    have hget : (stopRequest username s).kills[s.kills.length]? = some kl := by
      rw [hk]
      simp
    unfold killDone
    simp only [hget, hd]
    unfold stopResume finishStop
    cases err <;> simp [hu, hr, mapGet_mapDelete]


/-! ## C8: how a record leaves the Registry -/

theorem mapGet_mapSet_self (m : List (Str × Nat)) (k : Str) (v : Nat) :
    mapGet (mapSet m k v) k = some v := by
  induction m with
  | nil =>
    unfold mapSet
    rw [mapGet_cons, if_pos rfl]
  | cons e m ih =>
    unfold mapSet
    by_cases hek : e.1 = k
    · rw [if_pos hek, mapGet_cons, if_pos rfl]
    · rw [if_neg hek, mapGet_cons, if_neg hek, ih]

theorem startBot_keeps_entry (u' : Str) (account : Option Config) (bodyPlugin bodyArgs : Option Str)
    (javaPath : Str) (childPid : Option Nat) (s : State) (u : Str) (b : Nat)
    (hreg : mapGet s.runningBots u = some b) :
    mapGet (startBot u' account bodyPlugin bodyArgs javaPath childPid s).runningBots u ≠ none := by
  unfold startBot
  cases account with
  | none => simp [hreg]
  | some account =>
    simp only
    by_cases hpw : account.password = []
    · rw [if_pos hpw]
      simp [hreg]
    · rw [if_neg hpw]
      simp only [writeToCustomLog_runningBots]
      by_cases huu : u = u'
      · subst huu
        rw [mapGet_mapSet_self]
        simp
      · rw [mapGet_mapSet_ne _ _ _ _ huu]
        simp [writeToCustomLog, hreg]

theorem exitBranch_runningBots (i : Nat) (u : Str) (b : Nat) (s : State) :
    (exitBranch i u b s).runningBots = s.runningBots := by
  unfold exitBranch scheduleRemoval releaseTail cancelPoll
  simp only [writeToCustomLog_runningBots, modifyBot_runningBots]
  cases s.polls[i]? <;> simp only <;> cases s.bots[b]? <;> simp only <;>
    (try split) <;> simp

theorem probeDone_runningBots (i : Nat) (rejected : Bool) (s : State) :
    (probeDone i rejected s).runningBots = s.runningBots := by
  unfold probeDone
  cases s.polls[i]? with
  | none => rfl
  | some p =>
    simp only
    split_ifs
    · rfl
    · rw [exitBranch_runningBots]
    · rfl

theorem tick_runningBots (i : Nat) (s : State) : (tick i s).runningBots = s.runningBots := by
  unfold tick
  cases s.polls[i]? with
  | none => rfl
  | some p =>
    simp only
    split_ifs
    · cases s.bots[p.bot]? with
      | none => rfl
      | some bot =>
        simp only
        split_ifs <;> rfl
    · rfl

theorem lineEvent_runningBots (t : Nat) (text : Str) (s : State) :
    (lineEvent t text s).runningBots = s.runningBots := by
  unfold lineEvent
  cases s.tails[t]? with
  | none => rfl
  | some tl =>
    simp only
    split_ifs
    · exact (onLine_same tl.username tl.bot text s).2.2.2.2.2.1
    · rfl

theorem stopRequest_runningBots (u : Str) (s : State) :
    (stopRequest u s).runningBots = s.runningBots ∨
    (stopRequest u s).runningBots = mapDelete s.runningBots u := by
  unfold stopRequest
  cases mapGet s.runningBots u with
  | none => left; rfl
  | some b =>
    simp only
    cases s.bots[b]? with
    | none => left; rfl
    | some bot =>
      simp only
      cases bot.pid with
      | none =>
        right
        cases bot.tailProcess <;> simp [finishStop]
      | some pid =>
        simp only
        split_ifs
        · left
          cases bot.tailProcess <;> simp
        · right
          cases bot.tailProcess <;> simp [finishStop]

theorem entry_of_mapDelete (m : List (Str × Nat)) (k u : Str) (b : Nat)
    (hreg : mapGet m u = some b) (hgone : mapGet (mapDelete m k) u = none) : k = u := by
  by_contra hne
  rw [mapGet_mapDelete_ne m k u (fun h => hne h.symm), hreg] at hgone
  cases hgone

/-- C8 (as amended): in a reachable state, take an account whose Registry
entry holds the record `b`, and let every grace timer of that account that is
still pending be one that `b` itself set (none is left over from an earlier
record of the same name).  A step that takes the entry out of the Registry is
then one of these.  A stop request for that account (it deletes at once when
the record has no usable pid), or the end of a stop request for that account
when its `taskkill` has answered: both delete the record whatever its status
and without delay.  Or a grace timer that fires: it was set by the exit
branch of `b`, 5000 ms ago or earlier, and the status of `b`, the record that
is deleted, is `stopped`. -/
theorem registry_removal (s : State) (hs : Reachable s) (e : Event) (u : Str) (b : Nat)
    (hreg : mapGet s.runningBots u = some b)
    (hfresh : ∀ rm ∈ s.removals, rm.username = u → rm.done = false → rm.bot = b)
    (hgone : mapGet (step s e).runningBots u = none) :
    e = Event.stop u ∨
    (∃ k err kl, e = Event.killDone k err ∧ s.kills[k]? = some kl ∧ kl.username = u ∧
      kl.done = false) ∨
    (∃ r rm, e = Event.removeFire r ∧ s.removals[r]? = some rm ∧ rm.username = u ∧
      rm.bot = b ∧ rm.done = false ∧ rm.setAt + 5000 ≤ s.now ∧
      (s.bots[b]?).map Bot.status = some Status.stopped) := by
  have hc := hs.consistent
  cases e with
  | advance dt clock =>
    simp only [step] at hgone
    rw [hreg] at hgone
    cases hgone
  | webhookLoaded url =>
    simp only [step, webhookLoaded] at hgone
    split_ifs at hgone <;> (rw [hreg] at hgone; cases hgone)
  | start u' account bodyPlugin bodyArgs javaPath childPid =>
    exact absurd hgone (startBot_keeps_entry u' account bodyPlugin bodyArgs javaPath childPid s u b hreg)
  | settle k wmic dir =>
    simp only [step, (settle_runningBots k wmic dir s).1] at hgone
    rw [hreg] at hgone
    cases hgone
  | line t text =>
    simp only [step, lineEvent_runningBots] at hgone
    rw [hreg] at hgone
    cases hgone
  | tailError t message =>
    simp only [step, tailError] at hgone
    cases ht : s.tails[t]? with
    | none =>
      rw [ht] at hgone
      simp only at hgone
      rw [hreg] at hgone
      cases hgone
    | some tl =>
      rw [ht] at hgone
      simp only [writeToCustomLog_runningBots] at hgone
      rw [hreg] at hgone
      cases hgone
  | tick i =>
    simp only [step, tick_runningBots] at hgone
    rw [hreg] at hgone
    cases hgone
  | probeDone i rejected =>
    simp only [step, probeDone_runningBots] at hgone
    rw [hreg] at hgone
    cases hgone
  | stop u' =>
    left
    simp only [step] at hgone
    rcases stopRequest_runningBots u' s with h | h
    · rw [h, hreg] at hgone
      cases hgone
    · rw [h] at hgone
      rw [entry_of_mapDelete _ _ _ _ hreg hgone]
  | killDone k err =>
    right; left
    simp only [step, killDone] at hgone
    cases hk : s.kills[k]? with
    | none =>
      simp only [hk] at hgone
      rw [hreg] at hgone
      cases hgone
    | some kl =>
      simp only [hk] at hgone
      cases hd : kl.done with
      | true =>
        simp only [hd, if_true] at hgone
        rw [hreg] at hgone
        cases hgone
      | false =>
        simp only [hd] at hgone
        have : (stopResume kl err
            { s with kills := s.kills.set k { kl with done := true } }).runningBots =
            mapDelete s.runningBots kl.username := by
          unfold stopResume finishStop
          cases err <;> simp
        simp only [Bool.false_eq_true, if_false] at hgone
        rw [this] at hgone
        exact ⟨k, err, kl, rfl, hk, entry_of_mapDelete _ _ _ _ hreg hgone, hd⟩
  | removeFire r =>
    right; right
    simp only [step, removeFire] at hgone
    cases hr : s.removals[r]? with
    | none =>
      simp only [hr] at hgone
      rw [hreg] at hgone
      cases hgone
    | some rm =>
      simp only [hr] at hgone
      by_cases hcond : (rm.done || decide (s.now < rm.setAt + 5000)) = true
      · rw [if_pos hcond, hreg] at hgone
        cases hgone
      · rw [if_neg hcond] at hgone
        simp only [Bool.or_eq_true, decide_eq_true_eq, not_or, Bool.not_eq_true, not_lt] at hcond
        obtain ⟨bot, hbot, hst⟩ :=
          hc.removals_stopped rm.bot (List.mem_map_of_mem _ (List.getElem?_mem hr))
        have hu : rm.username = u := entry_of_mapDelete _ _ _ _ hreg hgone
        have hown : rm.bot = b := hfresh rm (List.getElem?_mem hr) hu hcond.1
        rw [hown] at hbot
        exact ⟨r, rm, rfl, hr, hu, hown, hcond.1, hcond.2, by rw [hbot]; simp [hst]⟩
  | logs u' =>
    simp only [step, (logsRoute_same u' s).1] at hgone
    rw [hreg] at hgone
    cases hgone


/-! ## C4: the pull-based derivation against the live tail -/

theorem unlines_append (a b : List Str) : unlines (a ++ b) = unlines a ++ unlines b := by
  induction a with
  | nil => rfl
  | cons l ls ih => simp [unlines, ih]

theorem byteLength_append (a b : Str) : byteLength (a ++ b) = byteLength a + byteLength b := by
  simp [byteLength]

theorem splitFrom_line (l rest : Str) (hl : '\n' ∉ l) :
    splitFrom ['\n'] 0 (l ++ '\n' :: rest) = l :: splitFrom ['\n'] 0 rest := by
  induction l with
  | nil => simp [splitFrom, stripPrefix]
  | cons c cs ih =>
    simp only [List.mem_cons, not_or] at hl
    have hc : ¬ '\n' = c := hl.1
    simp [splitFrom, stripPrefix, hc, ih hl.2]

/-- The lines of a log text. -/
theorem jsSplit_unlines (ls : List Str) (h : ∀ l ∈ ls, '\n' ∉ l) :
    jsSplit (unlines ls) "\n".toList = ls ++ [[]] := by
  unfold jsSplit
  induction ls with
  | nil => rfl
  | cons l ls ih =>
    have h1 : '\n' ∉ l := h l (List.mem_cons_self _ _)
    have h2 : ∀ x ∈ ls, '\n' ∉ x := fun x hx => h x (List.mem_cons_of_mem _ hx)
    show splitFrom ['\n'] 0 (l ++ '\n' :: unlines ls) = _
    rw [splitFrom_line l _ h1]
    simp [show splitFrom ['\n'] 0 (unlines ls) = ls ++ [[]] from ih h2]

theorem includes_nil_marker (m : Str) (hm : m ≠ []) : includes [] m = false := by
  cases m with
  | nil => exact absurd rfl hm
  | cons a p => rfl

/-- The pull-based scan of a log text given by its lines. -/
theorem extractCurrentTask_unlines (ls : List Str) (h : ∀ l ∈ ls, '\n' ∉ l) :
    extractCurrentTask (unlines ls) = extractLoop ls.reverse := by
  unfold extractCurrentTask
  rw [jsSplit_unlines ls h]
  simp only [List.reverse_append, List.reverse_cons, List.reverse_nil, List.nil_append,
    List.singleton_append]
  have e1 : includes [] taskMarker = false := by decide
  have e2 : includes [] stopMarker = false := by decide
  simp [extractLoop, e1, e2]

theorem textAfter_clean_prefix (p l : Str) (hp : ∀ c ∈ p, c ≠ 'E') :
    textAfter taskMarker (p ++ l) = textAfter taskMarker l := by
  induction p with
  | nil => rfl
  | cons c cs ih =>
    have hc : ¬ 'E' = c := fun h => hp c (List.mem_cons_self _ _) h.symm
    have h2 : ∀ x ∈ cs, x ≠ 'E' := fun x hx => hp x (List.mem_cons_of_mem _ hx)
    show textAfter taskMarker (c :: (cs ++ l)) = _
    simp [textAfter, taskMarker, stripPrefix, hc]
    simpa [taskMarker] using ih h2

theorem includes_stop_clean_prefix (p l : Str) (hp : ∀ c ∈ p, c ≠ 'P') :
    includes (p ++ l) stopMarker = includes l stopMarker := by
  induction p with
  | nil => rfl
  | cons c cs ih =>
    have hc : ¬ 'P' = c := fun h => hp c (List.mem_cons_self _ _) h.symm
    have h2 : ∀ x ∈ cs, x ≠ 'P' := fun x hx => hp x (List.mem_cons_of_mem _ hx)
    show includes (c :: (cs ++ l)) stopMarker = _
    simp [includes, stopMarker, stripPrefix, hc]
    simpa [stopMarker] using ih h2

theorem textAfter_error_prefix (l : Str) :
    textAfter taskMarker ("[ERROR] ".toList ++ l) = textAfter taskMarker l := by
  show textAfter taskMarker ('[' :: 'E' :: 'R' :: 'R' :: 'O' :: 'R' :: ']' :: ' ' :: l) = _
  simp [textAfter, taskMarker, stripPrefix]


theorem mem_textBefore (sep s : Str) (c : Char) (h : c ∈ textBefore sep s) : c ∈ s := by
  induction s with
  | nil => simp [textBefore] at h
  | cons x xs ih =>
    unfold textBefore at h
    split_ifs at h
    · simp at h
    · rcases List.mem_cons.mp h with h | h
      · exact h ▸ List.mem_cons_self _ _
      · exact List.mem_cons_of_mem _ (ih h)

theorem mem_replaceFirst (a b : Char) (s : Str) (c : Char) (h : c ∈ replaceFirst a b s) :
    c ∈ s ∨ c = b := by
  induction s with
  | nil => simp [replaceFirst] at h
  | cons x xs ih =>
    unfold replaceFirst at h
    split_ifs at h
    · rcases List.mem_cons.mp h with h | h
      · exact Or.inr h
      · exact Or.inl (List.mem_cons_of_mem _ h)
    · rcases List.mem_cons.mp h with h | h
      · exact Or.inl (h ▸ List.mem_cons_self _ _)
      · rcases ih h with h | h
        · exact Or.inl (List.mem_cons_of_mem _ h)
        · exact Or.inr h

/-- The characters of a timestamp: those of the clock text, a blank, `G`, `M`, `T`. -/
theorem mem_timestamp (clock : Str) (c : Char) (h : c ∈ timestamp clock) :
    c ∈ clock ∨ c = ' ' ∨ c = 'G' ∨ c = 'M' ∨ c = 'T' := by
  unfold timestamp at h
  rcases List.mem_append.mp h with h | h
  · have hhead := splitFrom_head ".".toList (by decide) (replaceFirst 'T' ' ' clock)
    unfold jsSplit at h
    cases hs : splitFrom ".".toList 0 (replaceFirst 'T' ' ' clock) with
    | nil => rw [hs] at h; simp at h
    | cons seg segs =>
      rw [hs] at h hhead
      simp only [List.getElem?_cons_zero, Option.some.injEq] at hhead
      simp only at h
      rw [hhead] at h
      rcases mem_replaceFirst _ _ _ _ (mem_textBefore _ _ _ h) with h | h
      · exact Or.inl h
      · exact Or.inr (Or.inl h)
  · have : c = ' ' ∨ c = 'G' ∨ c = 'M' ∨ c = 'T' := by
      simpa using h
    exact Or.inr this

theorem timestamp_clean (clock : Str) (hclock : clock.all isIsoChar = true) (c : Char)
    (h : c ∈ timestamp clock ++ [' ']) : c ≠ 'E' ∧ c ≠ 'P' ∧ c ≠ '\n' := by
  have hc : c ∈ clock ∨ c = ' ' ∨ c = 'G' ∨ c = 'M' ∨ c = 'T' := by
    rcases List.mem_append.mp h with h | h
    · exact mem_timestamp clock c h
    · exact Or.inr (Or.inl (by simpa using h))
  rcases hc with hc | hc | hc | hc | hc
  · have hi := List.all_eq_true.mp hclock c hc
    refine ⟨?_, ?_, ?_⟩ <;> (rintro rfl; revert hi; decide)
  all_goals (subst hc; decide)

theorem readFile_writeFile (fs : Files) (path content : Str) :
    readFile (writeFile fs path content) path = some content := by
  simp [readFile, writeFile, List.find?_cons]

/-- The rolling log of the account after `writeToCustomLog`. -/
theorem writeToCustomLog_log (u m : Str) (s : State) :
    readFile (writeToCustomLog u m s).files (logPath u) =
      some (appendRolling (readFile s.files (logPath u))
        (timestamp s.clock ++ " ".toList ++ m ++ "\n".toList)) := by
  unfold writeToCustomLog
  simp only [readFile_writeFile]

theorem appendRolling_small (old : Option Str) (line : Str)
    (h : byteLength (old.getD [] ++ line) ≤ 500000) :
    appendRolling old line = old.getD [] ++ line := by
  unfold appendRolling
  simp only
  rw [if_neg (Nat.not_lt.mpr h)]

@[simp] theorem alertOnFailure_files (u : Str) (b : Nat) (line : Str) (s : State) :
    (alertOnFailure u b line s).files = s.files := by
  unfold alertOnFailure
  split_ifs <;> simp

@[simp] theorem alertOnFailure_clock (u : Str) (b : Nat) (line : Str) (s : State) :
    (alertOnFailure u b line s).clock = s.clock := by
  unfold alertOnFailure
  split_ifs <;> simp

@[simp] theorem recordTask_files (u : Str) (b : Nat) (line : Str) (s : State) :
    (recordTask u b line s).files = s.files := by
  unfold recordTask
  split_ifs
  · split <;> simp [broadcastTask]
  · rfl

@[simp] theorem recordTask_clock (u : Str) (b : Nat) (line : Str) (s : State) :
    (recordTask u b line s).clock = s.clock := by
  unfold recordTask
  split_ifs
  · split <;> simp [broadcastTask]
  · rfl

@[simp] theorem recordLogin_files (b : Nat) (line : Str) (s : State) :
    (recordLogin b line s).files = s.files := by
  unfold recordLogin
  split_ifs <;> simp

@[simp] theorem recordLogin_clock (b : Nat) (line : Str) (s : State) :
    (recordLogin b line s).clock = s.clock := by
  unfold recordLogin
  split_ifs <;> simp

/-- The rolling log of the account after one tailed line, as long as it stays
within 500000 bytes: the lines of `lineEntries` are appended. -/
theorem onLine_log (u : Str) (b : Nat) (line : Str) (s : State) (old : Str)
    (hold : (readFile s.files (logPath u)).getD [] = old)
    (hsize : byteLength (old ++ unlines (lineEntries s.clock line)) ≤ 500000) :
    readFile (onLine u b line s).files (logPath u) =
      some (old ++ unlines (lineEntries s.clock line)) := by
  have h1 : readFile (writeToCustomLog u line s).files (logPath u) =
      some (old ++ (timestamp s.clock ++ ' ' :: line) ++ ['\n']) := by
    rw [writeToCustomLog_log, appendRolling_small]
    · simp [hold]
    · rw [hold]
      refine le_trans ?_ hsize
      unfold lineEntries
      simp only [unlines, byteLength_append]
      split_ifs <;> simp [byteLength, unlines] <;> omega
  unfold onLine relogError
  by_cases herr : (includes line errorMarker || includes line exceptionMarker) = true
  · rw [if_pos herr, writeToCustomLog_log]
    simp only [recordLogin_files, recordTask_files, alertOnFailure_files, recordLogin_clock,
      recordTask_clock, alertOnFailure_clock, writeToCustomLog_clock, h1]
    rw [appendRolling_small]
    · simp [lineEntries, herr, unlines]
    · refine le_trans (le_of_eq ?_) hsize
      simp [lineEntries, herr, unlines]
  · rw [if_neg herr]
    simp only [recordLogin_files, recordTask_files, alertOnFailure_files, h1]
    simp [lineEntries, herr, unlines]


theorem mem_of_textAfter (m l r : Str) (h : textAfter m l = some r) (c : Char) (hc : c ∈ r) :
    c ∈ l := by
  induction l with
  | nil =>
    simp only [textAfter] at h
    have := stripPrefix_eq_some h
    have hr : r = [] := (List.append_eq_nil.mp this.symm).2
    rw [hr] at hc
    cases hc
  | cons x xs ih =>
    simp only [textAfter] at h
    cases hp : stripPrefix m (x :: xs) with
    | some r' =>
      rw [hp] at h
      cases h
      rw [stripPrefix_eq_some hp]
      exact List.mem_append_right _ hc
    | none =>
      rw [hp] at h
      exact List.mem_cons_of_mem _ (ih h)

theorem dropWhile_dropWhile (p : Char → Bool) (l : Str) :
    (l.dropWhile p).dropWhile p = l.dropWhile p := by
  induction l with
  | nil => rfl
  | cons x xs ih =>
    by_cases hx : p x = true
    · simp [List.dropWhile, hx, ih]
    · simp [List.dropWhile, hx]

theorem takeWhile_all (p : Char → Bool) (l : Str) (h : ∀ c ∈ l, p c = true) :
    l.takeWhile p = l := by
  induction l with
  | nil => rfl
  | cons x xs ih =>
    simp [List.takeWhile, h x (List.mem_cons_self _ _),
      ih (fun c hc => h c (List.mem_cons_of_mem _ hc))]

theorem mem_dropWhile (p : Char → Bool) (l : Str) (c : Char) (h : c ∈ l.dropWhile p) : c ∈ l := by
  induction l with
  | nil => simp at h
  | cons x xs ih =>
    by_cases hx : p x = true
    · simp only [List.dropWhile, hx] at h
      exact List.mem_cons_of_mem _ (ih h)
    · simpa [List.dropWhile, hx] using h

/-- On a text without line terminators the live tail reads the trimmed text. -/
theorem taskText_eq_trim (r : Str) (h : ∀ c ∈ r, isLineTerminator c = false) :
    taskText r = trim r := by
  unfold taskText
  rw [takeWhile_all]
  · unfold trim
    rw [dropWhile_dropWhile]
  · intro c hc
    simp [h c (mem_dropWhile _ _ _ hc)]

/-- The task the live tail reads from a plain line with the marker. -/
theorem matchTask_plain (line rest : Str) (hrest : textAfter taskMarker line = some rest)
    (hne : rest ≠ []) (hlt : ∀ c ∈ line, isLineTerminator c = false) :
    ∃ cap, matchTask line = some cap ∧ trim cap = trim rest := by
  have hr : ∀ c ∈ rest, isLineTerminator c = false :=
    fun c hc => hlt c (mem_of_textAfter _ _ _ hrest c hc)
  rw [matchTask_eq line rest hrest]
  rcases wsStarDotPlus_spec rest with ⟨_, hall⟩ | ⟨cap, hs, ht, _⟩
  · cases rest with
    | nil => exact absurd rfl hne
    | cons x xs =>
      simp only [List.all_cons, Bool.and_eq_true] at hall
      rw [hr x (List.mem_cons_self _ _)] at hall
      cases hall.1
  · exact ⟨cap, hs, by rw [ht, taskText_eq_trim rest hr]⟩

/-- What the pull-based scan reads from a log line whose worker line is plain. -/
theorem extractLoop_entry (pfx line : Str) (rest : List Str)
    (hE : textAfter taskMarker (pfx ++ line) = textAfter taskMarker line)
    (hP : includes (pfx ++ line) stopMarker = includes line stopMarker)
    (hline : plainLine line = true) :
    extractLoop ((pfx ++ line) :: rest) =
      match textAfter taskMarker line with
      | some r => some (trim r)
      | none => extractLoop rest := by
  unfold plainLine at hline
  simp only [Bool.and_eq_true, Bool.not_eq_true', List.all_eq_true] at hline
  obtain ⟨⟨_, hstop⟩, htask⟩ := hline
  cases hr : textAfter taskMarker line with
  | some r =>
    rw [hr] at htask hE
    simp only [Bool.and_eq_true, bne_iff_ne, ne_eq, Bool.not_eq_true'] at htask
    have hinc : includes (pfx ++ line) taskMarker = true :=
      (includes_iff_textAfter _ _).mpr ⟨r, hE⟩
    have hnone : textAfter taskMarker r = none := by
      cases h : textAfter taskMarker r with
      | none => rfl
      | some x =>
        have := (includes_iff_textAfter taskMarker r).mpr ⟨x, h⟩
        rw [htask.2] at this
        cases this
    simp only [extractLoop, hinc, if_true,
      jsSplit_second taskMarker taskMarker_ne_nil _ r hE,
      textBefore_eq_of_textAfter_none _ _ hnone]
  | none =>
    rw [hr] at hE
    have hinc : includes (pfx ++ line) taskMarker = false := by
      cases h : includes (pfx ++ line) taskMarker with
      | false => rfl
      | true =>
        obtain ⟨x, hx⟩ := (includes_iff_textAfter _ _).mp h
        rw [hE] at hx
        cases hx
    simp [extractLoop, hinc, hP, hstop]

/-- The task of the record after one plain tailed line. -/
theorem onLine_currentTask_plain (u : Str) (b : Nat) (line : Str) (s : State)
    (hb : b < s.bots.length) (hline : plainLine line = true) :
    ((onLine u b line s).bots[b]?).bind Bot.currentTask =
      match textAfter taskMarker line with
      | some r => some (trim r)
      | none => (s.bots[b]?).bind Bot.currentTask := by
  have hget : s.bots[b]? = some (s.bots[b]) := List.getElem?_eq_getElem hb
  rw [onLine_bots, if_pos rfl, hget]
  simp only [Option.map_some', Option.some_bind]
  unfold plainLine at hline
  simp only [Bool.and_eq_true, Bool.not_eq_true', List.all_eq_true] at hline
  obtain ⟨⟨hlt, _⟩, htask⟩ := hline
  have hlt' : ∀ c ∈ line, isLineTerminator c = false := by
    intro c hc
    simpa using hlt c hc
  have hcur : (lineUpdate line s.bots[b]).currentTask = (taskUpdate line s.bots[b]).currentTask := by
    unfold lineUpdate loginUpdate
    split_ifs <;> rfl
  rw [hcur]
  unfold taskUpdate
  cases hr : textAfter taskMarker line with
  | some r =>
    rw [hr] at htask
    simp only [Bool.and_eq_true, bne_iff_ne, ne_eq, Bool.not_eq_true'] at htask
    obtain ⟨cap, hcap, htrim⟩ := matchTask_plain line r hr htask.1 hlt'
    have hinc : includes line taskMarker = true := (includes_iff_textAfter _ _).mpr ⟨r, hr⟩
    simp [hinc, hcap, htrim]
  | none =>
    have hinc : includes line taskMarker = false := by
      cases h : includes line taskMarker with
      | false => rfl
      | true =>
        obtain ⟨x, hx⟩ := (includes_iff_textAfter _ _).mp h
        rw [hr] at hx
        cases hx
    simp [hinc]


/-- One plain tailed line keeps the two derivations equal. -/
theorem feed_step (u : Str) (b : Nat) (s : State) (logLines : List Str) (line : Str)
    (hb : b < s.bots.length)
    (hfile : (readFile s.files (logPath u)).getD [] = unlines logLines)
    (hno : ∀ l ∈ logLines, '\n' ∉ l)
    (hagree : extractLoop logLines.reverse =
      some (taskOrIdle ((s.bots[b]?).bind Bot.currentTask)))
    (hclock : s.clock.all isIsoChar = true) (hline : plainLine line = true)
    (hsize : byteLength (unlines (logLines ++ lineEntries s.clock line)) ≤ 500000) :
    b < (onLine u b line s).bots.length ∧
    (readFile (onLine u b line s).files (logPath u)).getD [] =
      unlines (logLines ++ lineEntries s.clock line) ∧
    (∀ l ∈ logLines ++ lineEntries s.clock line, '\n' ∉ l) ∧
    extractLoop (logLines ++ lineEntries s.clock line).reverse =
      some (taskOrIdle (((onLine u b line s).bots[b]?).bind Bot.currentTask)) := by
  have hclean := timestamp_clean s.clock hclock
  have hlt : ∀ c ∈ line, isLineTerminator c = false := by
    unfold plainLine at hline
    simp only [Bool.and_eq_true, Bool.not_eq_true', List.all_eq_true] at hline
    intro c hc
    simpa using hline.1.1 c hc
  have hnl : '\n' ∉ line := by
    intro h
    have := hlt _ h
    revert this
    decide
  -- the two possible entries, as a clean prefix followed by the line
  have e1 : timestamp s.clock ++ ' ' :: line = (timestamp s.clock ++ [' ']) ++ line := by simp
  have e2 : timestamp s.clock ++ ' ' :: ("[ERROR] ".toList ++ line) =
      (timestamp s.clock ++ [' '] ++ "[ERROR] ".toList) ++ line := by simp
  have hE1 : textAfter taskMarker ((timestamp s.clock ++ [' ']) ++ line) =
      textAfter taskMarker line :=
    textAfter_clean_prefix _ _ (fun c hc => (hclean c hc).1)
  have hP1 : includes ((timestamp s.clock ++ [' ']) ++ line) stopMarker =
      includes line stopMarker :=
    includes_stop_clean_prefix _ _ (fun c hc => (hclean c hc).2.1)
  have hE2 : textAfter taskMarker ((timestamp s.clock ++ [' '] ++ "[ERROR] ".toList) ++ line) =
      textAfter taskMarker line := by
    rw [List.append_assoc, textAfter_clean_prefix _ _ (fun c hc => (hclean c hc).1),
      textAfter_error_prefix]
  have hP2 : includes ((timestamp s.clock ++ [' '] ++ "[ERROR] ".toList) ++ line) stopMarker =
      includes line stopMarker := by
    rw [List.append_assoc, includes_stop_clean_prefix _ _ (fun c hc => (hclean c hc).2.1),
      includes_stop_clean_prefix _ _ (by decide)]
  have hn1 : '\n' ∉ (timestamp s.clock ++ [' ']) ++ line := by
    intro h
    rcases List.mem_append.mp h with h | h
    · exact (hclean _ h).2.2 rfl
    · exact hnl h
  have hn2 : '\n' ∉ (timestamp s.clock ++ [' '] ++ "[ERROR] ".toList) ++ line := by
    intro h
    rcases List.mem_append.mp h with h | h
    · rcases List.mem_append.mp h with h | h
      · exact (hclean _ h).2.2 rfl
      · revert h
        decide
    · exact hnl h
  have hcur := onLine_currentTask_plain u b line s hb hline
  refine ⟨?_, ?_, ?_, ?_⟩
  · rw [(onLine_same u b line s).2.2.2.2.2.2.2.2]
    exact hb
  · rw [onLine_log u b line s (unlines logLines) hfile (by rw [← unlines_append]; exact hsize)]
    simp [unlines_append]
  · intro l hl
    rcases List.mem_append.mp hl with hl | hl
    · exact hno l hl
    · unfold lineEntries at hl
      rw [e1, e2] at hl
      split_ifs at hl
      · simp only [List.mem_cons, List.mem_singleton, List.not_mem_nil, or_false] at hl
        rcases hl with hl | hl
        · rw [hl]; exact hn1
        · rw [hl]; exact hn2
      · simp only [List.mem_singleton] at hl
        rw [hl]; exact hn1
  · rw [hcur]
    unfold lineEntries
    rw [e1, e2]
    split_ifs
    · simp only [List.reverse_append, List.reverse_cons, List.reverse_nil, List.nil_append,
        List.singleton_append, List.cons_append]
      rw [extractLoop_entry _ line _ hE2 hP2 hline, extractLoop_entry _ line _ hE1 hP1 hline]
      cases textAfter taskMarker line with
      | some r => rfl
      | none => exact hagree
    · simp only [List.reverse_append, List.reverse_cons, List.reverse_nil, List.nil_append,
        List.singleton_append]
      rw [extractLoop_entry _ line _ hE1 hP1 hline]
      cases textAfter taskMarker line with
      | some r => rfl
      | none => exact hagree

/-- A sequence of plain tailed lines keeps the two derivations equal. -/
theorem feed_agrees (u : Str) (b : Nat) (timed : List (Str × Str)) :
    ∀ (s : State) (logLines : List Str), b < s.bots.length →
    (readFile s.files (logPath u)).getD [] = unlines logLines →
    (∀ l ∈ logLines, '\n' ∉ l) →
    extractLoop logLines.reverse = some (taskOrIdle ((s.bots[b]?).bind Bot.currentTask)) →
    (∀ cl ∈ timed, cl.1.all isIsoChar = true) → (∀ cl ∈ timed, plainLine cl.2 = true) →
    byteLength (unlines (logLines ++ writtenLines timed)) ≤ 500000 →
    (readFile (feed u b s timed).files (logPath u)).getD [] =
      unlines (logLines ++ writtenLines timed) ∧
    (∀ l ∈ logLines ++ writtenLines timed, '\n' ∉ l) ∧
    extractLoop (logLines ++ writtenLines timed).reverse =
      some (taskOrIdle (((feed u b s timed).bots[b]?).bind Bot.currentTask)) := by
  induction timed with
  | nil =>
    intro s logLines _ hfile hno hagree _ _ _
    simp only [writtenLines, List.append_nil, feed]
    exact ⟨hfile, hno, hagree⟩
  | cons cl rest ih =>
    intro s logLines hb hfile hno hagree hclock hline hsize
    obtain ⟨clock, line⟩ := cl
    simp only [writtenLines, feed]
    have hsize' : byteLength (unlines ((logLines ++ lineEntries clock line) ++ writtenLines rest))
        ≤ 500000 := by
      rw [List.append_assoc]
      exact hsize
    have hsize1 : byteLength (unlines (logLines ++ lineEntries clock line)) ≤ 500000 := by
      rw [unlines_append, byteLength_append] at hsize'
      omega
    obtain ⟨k1, k2, k3, k4⟩ := feed_step u b { s with clock := clock } logLines line hb hfile hno
      hagree (hclock (clock, line) (List.mem_cons_self _ _))
      (hline (clock, line) (List.mem_cons_self _ _)) hsize1
    have := ih (onLine u b line { s with clock := clock }) (logLines ++ lineEntries clock line)
      k1 k2 k3 k4 (fun x hx => hclock x (List.mem_cons_of_mem _ hx))
      (fun x hx => hline x (List.mem_cons_of_mem _ hx)) hsize'
    rw [List.append_assoc] at this
    exact this

theorem extractLoop_no_marker (ls : List Str) (h : ∀ l ∈ ls, hasMarker l = false) :
    extractLoop ls = some "Idle".toList := by
  induction ls with
  | nil => rfl
  | cons l rest ih =>
    have hl := h l (List.mem_cons_self _ _)
    unfold hasMarker at hl
    simp only [Bool.or_eq_false_iff] at hl
    simp only [extractLoop, hl.1, hl.2, Bool.false_eq_true, if_false]
    exact ih (fun x hx => h x (List.mem_cons_of_mem _ hx))

/-- C4 (as amended): the pull-based and the live-tail derivation agree on
plain worker lines.  Take a record whose `currentTask` is still null and
whose rolling log holds lines without marker (a freshly started record), and
feed its tail listener any sequence of lines, each read at a clock text of
ISO characters.  If every line is plain (no line terminator inside, no
`PAccountBuilder: Stopped`, the task marker at most once and then followed
by at least one character) and the rolling log with the lines written stays
within 500000 bytes, then the rolling log is its old lines followed by the
lines the listener wrote, and `extractCurrentTask` of that text is the
record's `currentTask`, read as `Idle` when null. -/
theorem pull_agrees_with_tail (u : Str) (b : Nat) (s : State) (logLines : List Str)
    (timed : List (Str × Str)) (hb : b < s.bots.length)
    (hfresh : (s.bots[b]?).bind Bot.currentTask = none)
    (hfile : (readFile s.files (logPath u)).getD [] = unlines logLines)
    (hlog : ∀ l ∈ logLines, '\n' ∉ l ∧ hasMarker l = false)
    (hclock : ∀ cl ∈ timed, cl.1.all isIsoChar = true)
    (hplain : ∀ cl ∈ timed, plainLine cl.2 = true)
    (hsize : byteLength (unlines (logLines ++ writtenLines timed)) ≤ 500000) :
    (readFile (feed u b s timed).files (logPath u)).getD [] =
      unlines (logLines ++ writtenLines timed) ∧
    extractCurrentTask ((readFile (feed u b s timed).files (logPath u)).getD []) =
      some (taskOrIdle (((feed u b s timed).bots[b]?).bind Bot.currentTask)) := by
  have h0 : extractLoop logLines.reverse =
      some (taskOrIdle ((s.bots[b]?).bind Bot.currentTask)) := by
    rw [hfresh]
    exact extractLoop_no_marker _ (fun l hl => (hlog l (List.mem_reverse.mp hl)).2)
  obtain ⟨k1, k2, k3⟩ := feed_agrees u b timed s logLines hb hfile
    (fun l hl => (hlog l hl).1) h0 hclock hplain hsize
  refine ⟨k1, ?_⟩
  rw [k1, extractCurrentTask_unlines _ k2]
  exact k3

/-! ## C11: stopping an account that has no record -/

theorem stopRequest_absent (u : Str) (s : State) (h : mapGet s.runningBots u = none) :
    stopRequest u s = { s with responses := Response.success :: s.responses } := by
  unfold stopRequest
  rw [h]

theorem stopServed_absent (u : Str) (err : Option Str) (s : State)
    (h : mapGet s.runningBots u = none) :
    stopServed u err s = { s with responses := Response.success :: s.responses } := by
  unfold stopServed
  rw [stopRequest_absent u s h]
  simp

theorem stopServed_dangling (u : Str) (err : Option Str) (b : Nat) (s : State)
    (h : mapGet s.runningBots u = some b) (hb : s.bots[b]? = none) :
    stopServed u err s = { s with responses := Response.success :: s.responses } := by
  unfold stopServed stopRequest
  simp [h, hb]

theorem stopServed_live (u : Str) (err : Option Str) (b : Nat) (bot : Bot) (s : State)
    (hreg : mapGet s.runningBots u = some b) (hb : s.bots[b]? = some bot) :
    (stopServed u err s).responses = Response.success :: s.responses ∧
    mapGet (stopServed u err s).runningBots u = none := by
  by_cases hpid : pidTruthy bot.pid = true
  · obtain ⟨kl, hu, hd, hk, hr⟩ := kills_after_stop u b bot s hreg hb hpid
    have hget : (stopRequest u s).kills[s.kills.length]? = some kl := by
      rw [hk]
      simp
    have hlen : ¬ (stopRequest u s).kills.length = s.kills.length := by
      rw [hk]
      simp
    unfold stopServed
    simp only [hlen, if_false]
    unfold killDone
    simp only [hget, hd]
    unfold stopResume finishStop
    cases err <;> simp [hu, hr, mapGet_mapDelete]
  · have hstop : (stopRequest u s).kills = s.kills ∧
        (stopRequest u s).responses = Response.success :: s.responses ∧
        mapGet (stopRequest u s).runningBots u = none := by
      unfold stopRequest
      simp only [hreg, hb]
      cases hp : bot.pid with
      | none =>
        simp only [finishStop, writeToCustomLog_responses, writeToCustomLog_runningBots,
          mapGet_mapDelete, and_true]
        cases bot.tailProcess <;> simp [writeToCustomLog]
      | some pid =>
        have hz : (pid != 0) = false := by simpa [hp, pidTruthy] using hpid
        simp only [hz, finishStop, writeToCustomLog_responses, writeToCustomLog_runningBots,
          mapGet_mapDelete, and_true]
        cases bot.tailProcess <;> simp [mapGet_mapDelete, writeToCustomLog]
    unfold stopServed
    simp only [hstop.1, if_true]
    exact hstop.2

/-- C11: a stop request for an account that has no record answers success and
changes nothing else: the Registry, every record, the tails, the rolling logs
and the lists of issued `taskkill` and `unwatch` calls are as before.  And two
stop requests for one account, served one after the other, leave the Registry
as the first alone left it, and both answer success. -/
theorem stop_absent_noop (u : Str) (e1 e2 : Option Str) (s : State) :
    (mapGet s.runningBots u = none →
      stopRequest u s = { s with responses := Response.success :: s.responses }) ∧
    (stopServed u e2 (stopServed u e1 s)).runningBots = (stopServed u e1 s).runningBots ∧
    (stopServed u e2 (stopServed u e1 s)).responses =
      Response.success :: Response.success :: s.responses := by
  refine ⟨stopRequest_absent u s, ?_⟩
  have hnoop : ∀ s1 : State, s1.responses = Response.success :: s.responses →
      stopServed u e2 s1 = { s1 with responses := Response.success :: s1.responses } →
      (stopServed u e2 s1).runningBots = s1.runningBots ∧
      (stopServed u e2 s1).responses = Response.success :: Response.success :: s.responses := by
    intro s1 h1 h2
    rw [h2]
    exact ⟨rfl, by rw [h1]⟩
  cases hreg : mapGet s.runningBots u with
  | none =>
    have h1 := stopServed_absent u e1 s hreg
    apply hnoop _ (by rw [h1])
    apply stopServed_absent
    rw [h1]
    exact hreg
  | some b =>
    cases hb : s.bots[b]? with
    | none =>
      have h1 := stopServed_dangling u e1 b s hreg hb
      apply hnoop _ (by rw [h1])
      apply stopServed_dangling u e2 b
      · rw [h1]
        exact hreg
      · rw [h1]
        exact hb
    | some bot =>
      obtain ⟨hr, hg⟩ := stopServed_live u e1 b bot s hreg hb
      exact hnoop _ hr (stopServed_absent u e2 _ hg)

/-! ## C12: start requests that are refused -/

theorem find_none_of_no_name (accounts : List Config) (u : Str)
    (h : ∀ a ∈ accounts, a.username ≠ u) :
    accounts.find? (fun a => a.username = u) = none := by
  rw [List.find?_eq_none]
  intro a ha
  simpa using h a ha

/-- C12: `startBot` answers 404 when no stored account has the name, and 400
when the stored account of that name has a password that decrypts to the
empty text; in both cases the answer is all that happens: no record, no
Registry entry, no spawned process, no rolling log created or written. -/
theorem startBot_refuses (decrypt : Str → Option Str) (accounts : List Config) (u : Str)
    (bodyPlugin bodyArgs : Option Str) (javaPath : Str) (childPid : Option Nat) (s : State) :
    ((∀ a ∈ accounts, a.username ≠ u) →
      startRequest decrypt accounts u bodyPlugin bodyArgs javaPath childPid s =
        { s with responses := Response.error 404 "Account not found".toList :: s.responses }) ∧
    (∀ acc : Config, accounts.find? (fun a => a.username = u) = some acc →
      decrypt acc.password = some [] →
      startRequest decrypt accounts u bodyPlugin bodyArgs javaPath childPid s =
        { s with responses := Response.error 400 "No password".toList :: s.responses }) := by
  constructor
  · intro h
    unfold startRequest getAccountDetails
    rw [find_none_of_no_name accounts u h]
    rfl
  · intro acc hacc hpw
    unfold startRequest getAccountDetails
    rw [hacc]
    simp only [hpw]
    unfold startBot
    simp

/-! ## C16: the launch command -/

theorem pairArg_eq (pair : Str) :
    pairArg pair = if includes pair "=".toList then [definitionArg pair] else [] := by
  unfold pairArg
  by_cases h : includes pair "=".toList = true
  · obtain ⟨rest, hrest⟩ := (includes_iff_textAfter "=".toList pair).mp h
    have h0 : (jsSplit pair "=".toList)[0]? = some (textBefore "=".toList pair) :=
      splitFrom_head "=".toList (by decide) pair
    have h1 := jsSplit_second "=".toList (by decide) pair rest hrest
    simp only [h, if_true, h0, h1, Option.getD_some, definitionArg, pairValue, hrest]
  · simp only [h]
    rfl

theorem flatten_map_pairArg (pairs : List Str) :
    (pairs.map pairArg).flatten =
      (pairs.filter (fun pair => includes pair "=".toList)).map definitionArg := by
  induction pairs with
  | nil => rfl
  | cons p ps ih =>
    rw [List.map_cons, List.flatten_cons, ih, pairArg_eq, List.filter_cons]
    by_cases h : includes p "=".toList = true
    · rw [if_pos h, if_pos h]
      rfl
    · rw [if_neg h, if_neg h]
      rfl

/-- C16 (as amended): the launch command is the fixed prefix with the quoted
Java path, `-Dusername=`, `-Dpassword=`, `-Xms512m`, `-Xmx4096m`, then, for each
`&`-separated pair of `args` that contains `=`, in order, one argument
`-Dkey="value"` whose key is the text before the first `=` of the pair and
whose value is the text between the first `=` and the next `=` (the whole rest
when there is no other `=`), then the fixed suffix; of the configuration only
`username`, `password` and `args` are read. -/
theorem buildLaunchCommand_eq (javaPath : Str) (config : Config) :
    buildLaunchCommand javaPath config =
      ["cmd".toList, "/c".toList, "start".toList, "/B".toList, "\"\"".toList,
       "\"".toList ++ javaPath ++ "\"".toList] ++
      ["-Dusername=".toList ++ config.username, "-Dpassword=".toList ++ config.password,
       "-Xms512m".toList, "-Xmx4096m".toList] ++
      ((argPairs config.args).filter (fun pair => includes pair "=".toList)).map definitionArg ++
      ["-cp".toList, "PureInstaller.jar;RuneLite.jar".toList,
       "ca.arnah.runelite.LauncherHijack".toList] ∧
    (∀ other : Config, other.username = config.username → other.password = config.password →
      other.args = config.args →
      buildLaunchCommand javaPath other = buildLaunchCommand javaPath config) := by
  constructor
  · unfold buildLaunchCommand argPairs
    cases config.args with
    | none => simp
    | some a =>
      by_cases ha : a = []
      · simp [ha]
      · simp only [ha, if_false, flatten_map_pairArg]
        simp
  · intro other h1 h2 h3
    unfold buildLaunchCommand
    rw [h1, h2, h3]

/-! ## C15: log discovery -/

theorem stripPrefixUnits_isSome (p s : List Nat) :
    (stripPrefixUnits p s).isSome = true ↔ p <+: s := by
  induction p generalizing s with
  | nil => simp [stripPrefixUnits]
  | cons a p ih =>
    cases s with
    | nil => simp [stripPrefixUnits]
    | cons c cs =>
      by_cases hac : a = c
      · subst hac
        simp [stripPrefixUnits, ih, List.cons_prefix_cons]
      · simp [stripPrefixUnits, hac, List.cons_prefix_cons]

/-- The embedded `includes` on code units is the occurrence as a block. -/
theorem includesUnits_iff (s sub : List Nat) : includesUnits s sub = true ↔ sub <:+: s := by
  induction s with
  | nil =>
    simp only [includesUnits, stripPrefixUnits_isSome, List.infix_nil, List.prefix_nil]
  | cons c cs ih =>
    simp only [includesUnits, Bool.or_eq_true, stripPrefixUnits_isSome, ih, List.infix_cons_iff]

theorem stripPrefix_isSome (p s : Str) : (stripPrefix p s).isSome = true ↔ p <+: s := by
  constructor
  · intro h
    obtain ⟨r, hr⟩ := Option.isSome_iff_exists.mp h
    exact ⟨r, (stripPrefix_eq_some hr).symm⟩
  · rintro ⟨r, rfl⟩
    rw [stripPrefix_append]
    rfl

/-- The embedded `endsWith` is the suffix relation. -/
theorem endsWith_iff (name suffix : Str) : endsWith name suffix = true ↔ suffix <:+ name := by
  unfold endsWith
  rw [stripPrefix_isSome, List.reverse_prefix]

theorem filter_endsWith_eq (entries : List LogFile) :
    entries.filter (fun f => endsWith f.name ".log".toList) = dotLogFiles entries := by
  unfold dotLogFiles
  apply List.filter_congr
  intro f _
  by_cases h : endsWith f.name ".log".toList = true
  · rw [h]
    exact (decide_eq_true ((endsWith_iff _ _).mp h)).symm
  · have h1 : endsWith f.name ".log".toList = false := by simpa using h
    rw [h1]
    exact (decide_eq_false (fun hs => h ((endsWith_iff _ _).mpr hs))).symm

/-- The snippet `.slice(-5000)` of the code is the trailing window of the
statement: the one suffix of 5000 units, or the whole content. -/
theorem mentions_eq (username : Str) (f : LogFile) :
    mentions username f =
      includesUnits (sliceLast 5000 (codeUnits f.content)) (codeUnits username) := by
  have hlen : (sliceLast 5000 (codeUnits f.content)).length =
      min 5000 (codeUnits f.content).length := by
    unfold sliceLast
    rw [List.length_drop]
    omega
  have hwin : ∀ window : List Nat, window <:+ codeUnits f.content →
      window.length = min 5000 (codeUnits f.content).length →
      window = sliceLast 5000 (codeUnits f.content) := by
    intro window hsuf hl
    rw [List.suffix_iff_eq_drop] at hsuf
    have hk : (codeUnits f.content).length - min 5000 (codeUnits f.content).length =
        (codeUnits f.content).length - 5000 := by omega
    rw [hsuf, hl, hk]
    rfl
  unfold mentions
  by_cases h : includesUnits (sliceLast 5000 (codeUnits f.content)) (codeUnits username) = true
  · rw [h]
    apply decide_eq_true
    exact ⟨_, (List.mem_tails _ _).mpr (List.drop_suffix _ _), hlen, (includesUnits_iff _ _).mp h⟩
  · have h1 : includesUnits (sliceLast 5000 (codeUnits f.content)) (codeUnits username) = false := by
      simpa using h
    rw [h1]
    apply decide_eq_false
    rintro ⟨window, hmem, hl, hin⟩
    rw [hwin window ((List.mem_tails _ _).mp hmem) hl] at hin
    exact h ((includesUnits_iff _ _).mpr hin)

theorem sortByRecency_pairwise (files : List LogFile) :
    (sortByRecency files).Pairwise (fun a b => b.time ≤ a.time) := by
  haveI : IsTotal LogFile (fun a b => b.time ≤ a.time) :=
    ⟨fun a b => Nat.le_total b.time a.time⟩
  haveI : IsTrans LogFile (fun a b => b.time ≤ a.time) :=
    ⟨fun a b c hab hbc => Nat.le_trans hbc hab⟩
  exact List.sorted_insertionSort _ files

theorem sortByRecency_perm (files : List LogFile) : (sortByRecency files).Perm files :=
  List.perm_insertionSort _ files

/-- The loop over the candidates, most recent first: no candidate mentions the
name, or the result is the first that does, and no later one is more recent. -/
theorem firstMention_cases (u : Str) (l : List LogFile)
    (hs : l.Pairwise (fun a b => b.time ≤ a.time)) :
    (firstMention u l = none ∧ ∀ g ∈ l, mentions u g = false) ∨
    ∃ f ∈ l, firstMention u l = some f.name ∧ mentions u f = true ∧
      ∀ g ∈ l, mentions u g = true → g.time ≤ f.time := by
  induction l with
  | nil =>
    left
    exact ⟨rfl, fun g hg => by cases hg⟩
  | cons a l ih =>
    rw [List.pairwise_cons] at hs
    by_cases ha : includesUnits (sliceLast 5000 (codeUnits a.content)) (codeUnits u) = true
    · right
      refine ⟨a, List.mem_cons_self _ _, ?_, by rw [mentions_eq]; exact ha, ?_⟩
      · simp [firstMention, ha]
      · intro g hg _
        rcases List.mem_cons.mp hg with rfl | hg'
        · exact Nat.le_refl _
        · exact hs.1 g hg'
    · have hstep : firstMention u (a :: l) = firstMention u l := by
        simp [firstMention, ha]
      rcases ih hs.2 with ⟨hn, hall⟩ | ⟨f, hf, hsome, hm, hmax⟩
      · left
        refine ⟨by rw [hstep, hn], ?_⟩
        intro g hg
        rcases List.mem_cons.mp hg with rfl | hg'
        · rw [mentions_eq]
          simpa using ha
        · exact hall g hg'
      · right
        refine ⟨f, List.mem_cons_of_mem _ hf, by rw [hstep, hsome], hm, ?_⟩
        intro g hg hgm
        rcases List.mem_cons.mp hg with rfl | hg'
        · rw [mentions_eq] at hgm
          exact absurd hgm ha
        · exact hmax g hg' hgm

theorem name_ne_nil_of_dotLog (entries : List LogFile) (f : LogFile)
    (h : f ∈ dotLogFiles entries) : f.name ≠ [] := by
  unfold dotLogFiles at h
  rw [List.mem_filter] at h
  intro hn
  rw [hn] at h
  exact absurd h.2 (by decide)

/-- C15: with no `.log` file in the shared log directory no target is chosen
and no tail is started.  Otherwise the directory's `.log` files split into the
five most recently modified (all of them when there are fewer) and the rest,
and the target, on which the tail is started, is one of these files: when one
of the five mentions the account name in its trailing window (its last 5000
characters as JavaScript counts them, UTF-16 code units; the whole content
when it is shorter), the target is among the five, mentions the name, and
none of the five that mention it was modified later; when none of the five
does, no `.log` file at all was modified later than the target.  The `.log`
files, the window and the occurrence of the name are stated with the suffix
and block relations of lists, not with the functions of the embedding. -/
theorem discoverLog_choice (username : Str) (entries : List LogFile) :
    (dotLogFiles entries = [] →
      discoverLog username entries = none ∧
      ∀ (b : Nat) (s : State), startTail username b (some entries) s = s) ∧
    (dotLogFiles entries ≠ [] →
      ∃ (five rest : List LogFile) (f : LogFile),
        (five ++ rest).Perm (dotLogFiles entries) ∧
        five.length = min 5 (dotLogFiles entries).length ∧
        (∀ a ∈ five, ∀ c ∈ rest, c.time ≤ a.time) ∧
        f ∈ dotLogFiles entries ∧
        discoverLog username entries = some f.name ∧
        (∀ (b : Nat) (s : State),
          (startTail username b (some entries) s).tails =
            s.tails ++ [({ file := f.name, username := username, bot := b, watching := true } : Tail)]) ∧
        ((∃ g ∈ five, mentions username g = true) →
          f ∈ five ∧ mentions username f = true ∧
          ∀ g ∈ five, mentions username g = true → g.time ≤ f.time) ∧
        ((∀ g ∈ five, mentions username g = false) →
          ∀ g ∈ dotLogFiles entries, g.time ≤ f.time)) := by
  have hperm := sortByRecency_perm (dotLogFiles entries)
  have hsorted := sortByRecency_pairwise (dotLogFiles entries)
  have hdef : discoverLog username entries =
      match firstMention username ((sortByRecency (dotLogFiles entries)).take 5) with
      | some target =>
        if target = [] then ((sortByRecency (dotLogFiles entries)).head?).map (fun f => f.name)
        else some target
      | none => ((sortByRecency (dotLogFiles entries)).head?).map (fun f => f.name) := by
    unfold discoverLog
    rw [filter_endsWith_eq]
  have htail : ∀ (name : Str), name ≠ [] → discoverLog username entries = some name →
      ∀ (b : Nat) (s : State),
        (startTail username b (some entries) s).tails =
          s.tails ++ [({ file := name, username := username, bot := b, watching := true } : Tail)] := by
    intro name hne hd b s
    unfold startTail
    simp [hd, hne]
  constructor
  · intro hnil
    have hd : discoverLog username entries = none := by
      rw [hdef, hnil]
      rfl
    refine ⟨hd, ?_⟩
    intro b s
    unfold startTail
    simp [hd]
  · intro hne
    have hsplit : (sortByRecency (dotLogFiles entries)).take 5 ++
        (sortByRecency (dotLogFiles entries)).drop 5 = sortByRecency (dotLogFiles entries) :=
      List.take_append_drop 5 _
    have hpw := hsorted
    rw [← hsplit, List.pairwise_append] at hpw
    obtain ⟨hfive, _, hcross⟩ := hpw
    have hmem : ∀ g, g ∈ (sortByRecency (dotLogFiles entries)).take 5 → g ∈ dotLogFiles entries :=
      fun g hg => hperm.mem_iff.mp (List.mem_of_mem_take hg)
    rcases firstMention_cases username _ hfive with ⟨hnone, hall⟩ | ⟨f, hf, hsome, hm, hmax⟩
    · cases hsort : sortByRecency (dotLogFiles entries) with
      | nil =>
        rw [hsort] at hperm
        exact absurd hperm.nil_eq.symm hne
      | cons h t =>
        have hh : h ∈ dotLogFiles entries := by
          apply hperm.mem_iff.mp
          rw [hsort]
          exact List.mem_cons_self _ _
        have hd : discoverLog username entries = some h.name := by
          rw [hdef, hnone, hsort]
          rfl
        rw [hsort] at hsorted
        rw [List.pairwise_cons] at hsorted
        refine ⟨(h :: t).take 5, (h :: t).drop 5, h, ?_, ?_, ?_, hh, hd,
          htail h.name (name_ne_nil_of_dotLog entries h hh) hd, ?_, ?_⟩
        · rw [List.take_append_drop, ← hsort]
          exact hperm
        · rw [List.length_take, ← hsort, hperm.length_eq]
        · rw [← hsort]
          exact hcross
        · rintro ⟨g, hg, hgm⟩
          have hgf := hall g (by rw [hsort]; exact hg)
          rw [hgf] at hgm
          cases hgm
        · intro _ g hg
          have hg' : g ∈ h :: t := by
            rw [← hsort]
            exact hperm.mem_iff.mpr hg
          rcases List.mem_cons.mp hg' with rfl | hgt
          · exact Nat.le_refl _
          · exact hsorted.1 g hgt
    · have hfne : f.name ≠ [] := name_ne_nil_of_dotLog entries f (hmem f hf)
      have hd : discoverLog username entries = some f.name := by
        rw [hdef, hsome]
        simp [hfne]
      refine ⟨_, _, f, ?_, ?_, hcross, hmem f hf, hd, htail f.name hfne hd, ?_, ?_⟩
      · rw [hsplit]
        exact hperm
      · rw [List.length_take, hperm.length_eq]
      · intro _
        exact ⟨hf, hm, hmax⟩
      · intro hall
        rw [hall f hf] at hm
        cases hm

/-! ## C13: the rolling log -/

theorem jsJoin_snoc_nil (ls : List Str) : jsJoin "\n".toList (ls ++ [[]]) = unlines ls := by
  induction ls with
  | nil => rfl
  | cons l ls ih =>
    cases ls with
    | nil => simp [jsJoin, unlines]
    | cons m ms =>
      have hstep : jsJoin "\n".toList (l :: (m :: ms ++ [[]])) =
          l ++ "\n".toList ++ jsJoin "\n".toList (m :: ms ++ [[]]) := rfl
      rw [List.cons_append l, hstep, ih]
      simp [unlines]

theorem sliceLast_snoc {α : Type} (n : Nat) (xs : List α) (x : α) :
    sliceLast (n + 1) (xs ++ [x]) = sliceLast n xs ++ [x] := by
  unfold sliceLast
  have hlen : (xs ++ [x]).length - (n + 1) = xs.length - n := by
    rw [List.length_append, List.length_singleton]
    omega
  rw [hlen, List.drop_append_of_le_length (Nat.sub_le _ _)]

/-- The cut of `writeToCustomLog` on a log of whole lines: of the lines of the
log and the appended one, the last 499 stay. -/
theorem appendRolling_lines (ls : List Str) (line : Str) (hl : ∀ l ∈ ls, '\n' ∉ l)
    (hline : '\n' ∉ line)
    (hbig : 500000 < byteLength (unlines ls ++ (line ++ "\n".toList))) :
    appendRolling (some (unlines ls)) (line ++ "\n".toList) =
      unlines (sliceLast 499 (ls ++ [line])) := by
  have hcontent : unlines ls ++ (line ++ "\n".toList) = unlines (ls ++ [line]) := by
    rw [unlines_append]
    rfl
  have hall : ∀ l ∈ ls ++ [line], '\n' ∉ l := by
    intro l hmem
    rcases List.mem_append.mp hmem with h | h
    · exact hl l h
    · rw [List.mem_singleton.mp h]
      exact hline
  unfold appendRolling
  simp only [Option.getD_some]
  rw [if_pos hbig, hcontent, jsSplit_unlines _ hall, sliceLast_snoc, jsJoin_snoc_nil]

theorem length_le_byteLength (s : Str) : s.length ≤ byteLength s := by
  induction s with
  | nil => exact Nat.le_refl _
  | cons c cs ih =>
    have hc : 1 ≤ c.utf8Size := Char.utf8Size_pos c
    simp only [byteLength, List.map_cons, List.sum_cons, List.length_cons] at ih ⊢
    omega

theorem length_unlines_replicate (n : Nat) (l : Str) :
    (unlines (List.replicate n l)).length = n * (l.length + 1) := by
  induction n with
  | zero => simp [unlines]
  | succ n ih =>
    rw [List.replicate_succ]
    simp only [unlines, List.length_append, List.length_cons, ih]
    ring

theorem sliceLast_replicate_snoc (n : Nat) (l line : Str) (hn : 498 ≤ n) :
    sliceLast 499 (List.replicate n l ++ [line]) = List.replicate 498 l ++ [line] := by
  rw [sliceLast_snoc]
  unfold sliceLast
  rw [List.length_replicate, List.drop_replicate]
  have hk : n - (n - 498) = 498 := by omega
  rw [hk]

theorem readFile_head (fs : Files) (path content : Str) :
    readFile ((path, content) :: fs) path = some content := by
  simp [readFile]

/-! ## C14: the log query and the task map -/

@[simp] theorem writeToCustomLog_currentTasks (u m : Str) (s : State) :
    (writeToCustomLog u m s).currentTasks = s.currentTasks := rfl

@[simp] theorem modifyBot_currentTasks (b : Nat) (f : Bot → Bot) (s : State) :
    (modifyBot b f s).currentTasks = s.currentTasks := by
  unfold modifyBot
  cases s.bots[b]? <;> rfl

@[simp] theorem sendDiscordAlert_currentTasks (u e : Str) (bot : Option Bot) (s : State) :
    (sendDiscordAlert u e bot s).currentTasks = s.currentTasks := by
  unfold sendDiscordAlert
  by_cases h : s.webhook = [] <;> simp [h]

/-- The tail listener never writes the task map. -/
theorem onLine_currentTasks (u : Str) (b : Nat) (line : Str) (s : State) :
    (onLine u b line s).currentTasks = s.currentTasks := by
  have h1 : ∀ s1, (alertOnFailure u b line s1).currentTasks = s1.currentTasks := by
    intro s1
    unfold alertOnFailure
    split_ifs <;> simp
  have h2 : ∀ s1, (recordTask u b line s1).currentTasks = s1.currentTasks := by
    intro s1
    unfold recordTask
    split_ifs
    · cases matchTask line <;> simp [broadcastTask]
    · rfl
  have h3 : ∀ s1, (recordLogin b line s1).currentTasks = s1.currentTasks := by
    intro s1
    unfold recordLogin
    split_ifs <;> simp
  have h4 : ∀ s1, (relogError u line s1).currentTasks = s1.currentTasks := by
    intro s1
    unfold relogError
    split_ifs <;> simp
  unfold onLine
  rw [h4, h3, h2, h1, writeToCustomLog_currentTasks]

theorem lineEvent_currentTasks (t : Nat) (text : Str) (s : State) :
    (lineEvent t text s).currentTasks = s.currentTasks := by
  unfold lineEvent
  cases s.tails[t]? with
  | none => rfl
  | some tl =>
    simp only
    split_ifs
    · exact onLine_currentTasks _ _ _ _
    · rfl

theorem taskGet_taskSet_self (m : List (Str × Str)) (k v : Str) :
    taskGet (taskSet m k v) k = some v := by
  induction m with
  | nil => simp [taskSet, taskGet]
  | cons e m ih =>
    unfold taskSet
    by_cases hek : e.1 = k
    · simp [hek, taskGet]
    · rw [if_neg hek]
      unfold taskGet at ih ⊢
      simpa [List.find?_cons, hek] using ih

theorem extractCurrentTask_returns (logs : Str) : ∃ task, extractCurrentTask logs = some task := by
  unfold extractCurrentTask
  generalize (jsSplit logs "\n".toList).reverse = lines
  induction lines with
  | nil => exact ⟨_, rfl⟩
  | cons line rest ih =>
    by_cases ht : includes line taskMarker = true
    · obtain ⟨r, hr⟩ := (includes_iff_textAfter taskMarker line).mp ht
      exact ⟨trim (textBefore taskMarker r),
        by simp [extractLoop, ht, jsSplit_second taskMarker taskMarker_ne_nil line r hr]⟩
    · by_cases hs : includes line stopMarker = true
      · exact ⟨"Stopped".toList, by simp [extractLoop, ht, hs]⟩
      · obtain ⟨task, htask⟩ := ih
        exact ⟨task, by simp [extractLoop, ht, hs, htask]⟩

/-- The log query answers with the task it derives, and it broadcasts that
task exactly when the task map holds another value, or none, for the account;
afterwards the map holds the derived task. -/
theorem logsRoute_broadcasts (u : Str) (s : State) :
    ∃ task, extractCurrentTask (readLogs u s) = some task ∧
      (logsRoute u s).broadcasts =
        (if taskGet s.currentTasks u = some task then s.broadcasts
         else (u, task) :: s.broadcasts) ∧
      taskGet (logsRoute u s).currentTasks u = some task := by
  obtain ⟨task, htask⟩ := extractCurrentTask_returns (readLogs u s)
  refine ⟨task, htask, ?_⟩
  unfold logsRoute
  simp only [htask, publishTask]
  by_cases h : taskGet s.currentTasks u = some task
  · simp [h]
  · simp [h, broadcastTask, taskGet_taskSet_self]

theorem codeUnits_append (a b : Str) : codeUnits (a ++ b) = codeUnits a ++ codeUnits b := by
  simp [codeUnits]

theorem codeUnits_replicate (n : Nat) (c : Char) :
    (codeUnits (List.replicate n c)).length = n * (utf16Units c).length ∧
    ∀ x ∈ codeUnits (List.replicate n c), x ∈ utf16Units c := by
  induction n with
  | zero => simp [codeUnits]
  | succ n ih =>
    have hstep : codeUnits (List.replicate (n + 1) c) =
        utf16Units c ++ codeUnits (List.replicate n c) := by
      rw [List.replicate_succ]
      rfl
    rw [hstep]
    constructor
    · rw [List.length_append, ih.1]
      ring
    · intro x hx
      rcases List.mem_append.mp hx with h | h
      · exact h
      · exact ih.2 x h

theorem sliceLast_append_right {α : Type} (n : Nat) (a b : List α) (h : b.length = n) :
    sliceLast n (a ++ b) = b := by
  unfold sliceLast
  rw [List.length_append, h, Nat.add_sub_cancel, List.drop_left]

/-- Log discovery counts the window in code units: `emo.log` is the most
recent file and names `emouser`, but 5000 code units (2500 characters) follow
the name, so the loop passes it over and the target is the older `t1.log`. -/
theorem discoverLog_counts_code_units :
    discoverLog "emouser".toList [emoLog, plainLog] = some "t1.log".toList := by
  have hunits : (utf16Units grin).length = 2 := by decide
  have hwindow : sliceLast 5000 (codeUnits emoLog.content) =
      codeUnits (List.replicate 2500 grin) := by
    have hc : emoLog.content = "emouser".toList ++ List.replicate 2500 grin := rfl
    rw [hc, codeUnits_append]
    apply sliceLast_append_right
    rw [(codeUnits_replicate 2500 grin).1, hunits]
  have hemo : includesUnits (sliceLast 5000 (codeUnits emoLog.content))
      (codeUnits "emouser".toList) = false := by
    rw [hwindow]
    apply Bool.eq_false_iff.mpr
    intro hin
    rw [includesUnits_iff] at hin
    have hsub : ∀ x ∈ codeUnits "emouser".toList, x ∈ utf16Units grin :=
      fun x hx => (codeUnits_replicate 2500 grin).2 x (hin.subset hx)
    have he : (101 : Nat) ∈ utf16Units grin := hsub 101 (by decide)
    revert he
    decide
  have hplain : includesUnits (sliceLast 5000 (codeUnits plainLog.content))
      (codeUnits "emouser".toList) = true := by decide
  have hfirst : firstMention "emouser".toList [emoLog, plainLog] = some "t1.log".toList := by
    simp only [firstMention, hemo, hplain, if_true, Bool.false_eq_true, if_false]
    rfl
  have h1 : endsWith emoLog.name ".log".toList = true := by decide
  have h2 : endsWith plainLog.name ".log".toList = true := by decide
  have hfilter : [emoLog, plainLog].filter (fun f => endsWith f.name ".log".toList) =
      [emoLog, plainLog] := by
    simp only [List.filter_cons, h1, h2, if_true, List.filter_nil]
  have htime : plainLog.time ≤ emoLog.time := by decide
  have hsort : sortByRecency [emoLog, plainLog] = [emoLog, plainLog] := by
    simp only [sortByRecency, List.insertionSort, List.orderedInsert, htime, if_true]
  unfold discoverLog
  simp only [hfilter, hsort]
  have htake : List.take 5 [emoLog, plainLog] = [emoLog, plainLog] := rfl
  rw [htake, hfirst]
  rfl

/-! ## Concrete runs -/

set_option maxRecDepth 100000

/-- The instance of `poll_tick` for alice's liveness timer. -/
theorem poll_tick_witness :
    (aliceSettled.polls[0]? = some alicePoll ∧ alicePoll.active = true ∧
      aliceSettled.bots[alicePoll.bot]? = some aliceBot ∧ pidTruthy aliceBot.pid = true) ∧
    (probeDone 0 false (tick 0 aliceSettled) = aliceSettled ∧
      probeDone 0 true (tick 0 aliceSettled) ≠ aliceSettled ∧
      (probeDone 0 true (tick 0 aliceSettled)).bots =
        aliceSettled.bots.set alicePoll.bot { aliceBot with status := Status.stopped }) :=
  ⟨⟨by decide, by decide, by decide, by decide⟩,
    (poll_tick 0 alicePoll aliceBot aliceSettled (by decide) (by decide) (by decide)).2.1
      (by decide),
    ((poll_tick 0 alicePoll aliceBot aliceSettled (by decide) (by decide) (by decide)).2.2
      (by decide)).1,
    ((poll_tick 0 alicePoll aliceBot aliceSettled (by decide) (by decide) (by decide)).2.2
      (by decide)).2.2.1⟩

/-- C6 (as stated) fails: after alice's stop request was served (answer
`success`, record gone from the Registry) her liveness timer is still active,
and its next tick with a failing probe writes to the rolling log and sets a
grace timer. -/
theorem stop_leaves_timer_running :
    mapGet aliceSettled.runningBots alice = some 0 ∧
    aliceStopped.responses.head? = some Response.success ∧
    mapGet aliceStopped.runningBots alice = none ∧
    (aliceStopped.polls[0]?).map Poll.active = some true ∧
    (run aliceStopped [Event.tick 0, Event.probeDone 0 true]).files ≠ aliceStopped.files ∧
    (run aliceStopped [Event.tick 0, Event.probeDone 0 true]).removals.length = 1 := by
  decide

/-- The instance of `stop_releases_tail` for alice. -/
theorem stop_releases_tail_witness :
    (mapGet aliceSettled.runningBots alice = some 0 ∧
      (aliceSettled.bots[0]?).bind Bot.tailProcess = some 0 ∧ 0 < aliceSettled.tails.length) ∧
    ((stopRequest alice aliceSettled).unwatched = 0 :: aliceSettled.unwatched ∧
      ((stopRequest alice aliceSettled).bots[0]?).map Bot.tailProcess = some none ∧
      ((run (stopRequest alice aliceSettled) [Event.killDone 0 none]).tails[0]?).map
        Tail.watching = some false ∧
      ∀ text, lineEvent 0 text (run (stopRequest alice aliceSettled) [Event.killDone 0 none]) =
        run (stopRequest alice aliceSettled) [Event.killDone 0 none]) :=
  ⟨⟨by decide, by decide, by decide⟩,
    stop_releases_tail alice 0 0 aliceSettled (by decide) (by decide) (by decide)
      [Event.killDone 0 none]⟩

/-- C7 (as stated) fails: alice is stopped before her settle-delay callback
runs; the callback then still writes the java pid and a tail into the removed
record and starts tailing and liveness polling for it, and a tailed line is
written to the rolling log.  The Registry stays without alice. -/
theorem settle_after_stop_starts_tailing :
    mapGet aliceStoppedEarly.runningBots alice = none ∧
    aliceStoppedEarly.responses.head? = some Response.success ∧
    mapGet aliceLateSettle.runningBots alice = none ∧
    (aliceLateSettle.bots[0]?).map Bot.pid = some (some 777) ∧
    (aliceLateSettle.bots[0]?).map Bot.tailProcess = some (some 0) ∧
    (aliceLateSettle.tails[0]?).map Tail.watching = some true ∧
    (aliceLateSettle.polls[0]?).map Poll.active = some true ∧
    (step aliceLateSettle (Event.line 0 "hello".toList)).files ≠ aliceLateSettle.files := by
  decide

/-- The instance of `stop_before_settle` for alice, stopped right after her start. -/
theorem stop_before_settle_witness :
    (mapGet aliceStarted.runningBots alice = some 0 ∧
      aliceStarted.bots[0]? = some aliceStartBot) ∧
    ((killDone aliceStarted.kills.length none (stopRequest alice aliceStarted)).responses =
        Response.success :: aliceStarted.responses ∧
      mapGet (killDone aliceStarted.kills.length none
        (stopRequest alice aliceStarted)).runningBots alice = none) :=
  ⟨⟨by decide, by decide⟩,
    (stop_before_settle alice 0 aliceStartBot aliceStarted (by decide) (by decide)).2.1
      (by decide) none⟩

/-- C8 (as stated) fails: the end of alice's stop request deletes her record
while its status is `starting`, at the very time of the request and with no
grace timer set. -/
theorem stop_removes_at_once :
    mapGet (stopRequest alice aliceStarted).runningBots alice = some 0 ∧
    ((stopRequest alice aliceStarted).bots[0]?).map Bot.status = some Status.starting ∧
    (stopRequest alice aliceStarted).removals = [] ∧
    mapGet (step (stopRequest alice aliceStarted) (Event.killDone 0 none)).runningBots alice =
      none ∧
    (step (stopRequest alice aliceStarted) (Event.killDone 0 none)).now = aliceStarted.now := by
  decide

/-- The instance of `registry_removal` for the grace timer of alice's exit. -/
theorem registry_removal_witness :
    (mapGet aliceGrace.runningBots alice = some 0 ∧
      (∀ rm ∈ aliceGrace.removals, rm.username = alice → rm.done = false → rm.bot = 0) ∧
      mapGet (step aliceGrace (Event.removeFire 0)).runningBots alice = none) ∧
    (Event.removeFire 0 = Event.stop alice ∨
      (∃ k err kl, Event.removeFire 0 = Event.killDone k err ∧ aliceGrace.kills[k]? = some kl ∧
        kl.username = alice ∧ kl.done = false) ∨
      (∃ r rm, Event.removeFire 0 = Event.removeFire r ∧ aliceGrace.removals[r]? = some rm ∧
        rm.username = alice ∧ rm.bot = 0 ∧ rm.done = false ∧
        rm.setAt + 5000 ≤ aliceGrace.now ∧
        (aliceGrace.bots[0]?).map Bot.status = some Status.stopped)) :=
  ⟨⟨by decide, by decide, by decide⟩,
    registry_removal aliceGrace ⟨clock0, [], _, rfl⟩ (Event.removeFire 0) alice 0
      (by decide) (by decide) (by decide)⟩

/-- What the amended C8 leaves out: a grace timer left over from an earlier
record.  Alice's process exits (her record 0 is `stopped`, a grace timer is
set), she is started again within the grace delay (record 1, `starting`), and
the old timer then takes her new entry out of the Registry. -/
theorem stale_grace_timer_removes_restarted :
    mapGet aliceRestarted.runningBots alice = some 1 ∧
    (aliceRestarted.bots[1]?).map Bot.status = some Status.starting ∧
    (aliceRestarted.removals[0]?).map Removal.bot = some 0 ∧
    mapGet (step aliceRestarted (Event.removeFire 0)).runningBots alice = none := by
  decide

/-- C9: the code at the failing run.  After the liveness callback found
alice's process gone, her record is `stopped` and still holds its tail
(`tailProcess` is not null); a stop request within the grace delay calls
`unwatch` on that tail a second time. -/
theorem exit_then_stop_unwatches_twice :
    (aliceExited.bots[0]?).map Bot.status = some Status.stopped ∧
    (aliceExited.bots[0]?).map Bot.tailProcess = some (some 0) ∧
    aliceExited.unwatched = [0] ∧
    mapGet aliceExited.runningBots alice = some 0 ∧
    (step aliceExited (Event.stop alice)).unwatched = [0, 0] := by
  decide

/-- The instance of `stopped_is_terminal` for alice's stopped record and a
`LOGGED_IN` line. -/
theorem stopped_is_terminal_witness :
    (aliceExited.bots[0]?).map Bot.status = some Status.stopped ∧
    ((run aliceExited [Event.line 0 "LOGGED_IN".toList]).bots[0]?).map Bot.status =
      some Status.stopped :=
  ⟨by decide,
    stopped_is_terminal aliceExited ⟨clock0, [], _, rfl⟩ 0 (by decide)
      [Event.line 0 "LOGGED_IN".toList]⟩


/-- The instance of `pull_agrees_with_tail` for alice's tail and two lines. -/
theorem pull_agrees_with_tail_witness :
    (0 < aliceSettled.bots.length ∧
      (aliceSettled.bots[0]?).bind Bot.currentTask = none ∧
      (readFile aliceSettled.files (logPath alice)).getD [] = unlines aliceLogLines ∧
      (∀ l ∈ aliceLogLines, '\n' ∉ l ∧ hasMarker l = false) ∧
      (∀ cl ∈ aliceLines, cl.1.all isIsoChar = true) ∧
      (∀ cl ∈ aliceLines, plainLine cl.2 = true) ∧
      byteLength (unlines (aliceLogLines ++ writtenLines aliceLines)) ≤ 500000) ∧
    ((readFile (feed alice 0 aliceSettled aliceLines).files (logPath alice)).getD [] =
        unlines (aliceLogLines ++ writtenLines aliceLines) ∧
      extractCurrentTask
          ((readFile (feed alice 0 aliceSettled aliceLines).files (logPath alice)).getD []) =
        some (taskOrIdle (((feed alice 0 aliceSettled aliceLines).bots[0]?).bind
          Bot.currentTask))) :=
  ⟨⟨by decide, by decide, by decide, by decide, by decide, by decide, by decide⟩,
    pull_agrees_with_tail alice 0 aliceSettled aliceLogLines aliceLines (by decide) (by decide)
      (by decide) (by decide) (by decide) (by decide) (by decide)⟩

/-- C4 (as stated) fails on single lines fed to alice's fresh record.  A stop
marker line: the live tail has no stop marker and leaves the task null
(`Idle`), the pull-based scan returns `Stopped`.  A line that ends with the
task marker, after a task `A`: the live tail keeps `A`, the scan returns the
empty text.  A line with two task markers: the live tail reads up to the end
of the line, the scan up to the second marker.  A line with a carriage
return: the live tail stops at it, the scan does not. -/
theorem tail_and_pull_disagree :
    (taskOrIdle (((feed alice 0 aliceSettled
        [(clock3, "PAccountBuilder: Stopped".toList)]).bots[0]?).bind Bot.currentTask) =
        "Idle".toList ∧
      extractCurrentTask ((readFile (feed alice 0 aliceSettled
        [(clock3, "PAccountBuilder: Stopped".toList)]).files (logPath alice)).getD []) =
        some "Stopped".toList) ∧
    (taskOrIdle (((feed alice 0 aliceSettled
        [(clock3, "Executing task: A".toList),
         (clock3, "Executing task:".toList)]).bots[0]?).bind Bot.currentTask) = "A".toList ∧
      extractCurrentTask ((readFile (feed alice 0 aliceSettled
        [(clock3, "Executing task: A".toList),
         (clock3, "Executing task:".toList)]).files (logPath alice)).getD []) = some []) ∧
    (taskOrIdle (((feed alice 0 aliceSettled
        [(clock3, "Executing task: A Executing task: B".toList)]).bots[0]?).bind
          Bot.currentTask) = "A Executing task: B".toList ∧
      extractCurrentTask ((readFile (feed alice 0 aliceSettled
        [(clock3, "Executing task: A Executing task: B".toList)]).files
          (logPath alice)).getD []) = some "A".toList) ∧
    (taskOrIdle (((feed alice 0 aliceSettled
        [(clock3, "Executing task: A\rB".toList)]).bots[0]?).bind Bot.currentTask) =
        "A".toList ∧
      extractCurrentTask ((readFile (feed alice 0 aliceSettled
        [(clock3, "Executing task: A\rB".toList)]).files (logPath alice)).getD []) =
        some "A\rB".toList) := by
  decide

/-- C11 at work: bob has no record while alice runs; a stop request for bob
answers success and leaves everything else as it was. -/
theorem stop_absent_noop_witness :
    mapGet aliceSettled.runningBots bob = none ∧
    stopRequest bob aliceSettled =
      { aliceSettled with responses := Response.success :: aliceSettled.responses } :=
  ⟨by decide, (stop_absent_noop bob none none aliceSettled).1 (by decide)⟩

/-- C12 at work: carol is not stored, bob's password decrypts to the empty text. -/
theorem startBot_refuses_witness :
    (∀ a ∈ storedAccounts, a.username ≠ carol) ∧
    startRequest demoDecrypt storedAccounts carol none none "java".toList (some 4242) aliceSettled =
      { aliceSettled with
        responses := Response.error 404 "Account not found".toList :: aliceSettled.responses } ∧
    storedAccounts.find? (fun a => a.username = bob) = some bobStored ∧
    demoDecrypt bobStored.password = some [] ∧
    startRequest demoDecrypt storedAccounts bob none none "java".toList (some 4242) aliceSettled =
      { aliceSettled with
        responses := Response.error 400 "No password".toList :: aliceSettled.responses } :=
  ⟨by decide,
   (startBot_refuses demoDecrypt storedAccounts carol none none "java".toList (some 4242)
      aliceSettled).1 (by decide),
   by decide, by decide,
   (startBot_refuses demoDecrypt storedAccounts bob none none "java".toList (some 4242)
      aliceSettled).2 bobStored (by decide) (by decide)⟩

/-- C16, the claim as it was worded fails: in the pair `script=a=b` the text
behind the first `=` is `a=b`, and the argument built for it carries `a` alone. -/
theorem buildLaunchCommand_second_equals :
    argPairs scriptConfig.args = ["world=301".toList, "fast".toList, "script=a=b".toList] ∧
    textAfter "=".toList "script=a=b".toList = some "a=b".toList ∧
    buildLaunchCommand "java".toList scriptConfig =
      ["cmd".toList, "/c".toList, "start".toList, "/B".toList, "\"\"".toList,
       "\"java\"".toList, "-Dusername=alice".toList, "-Dpassword=pw".toList,
       "-Xms512m".toList, "-Xmx4096m".toList, "-Dworld=\"301\"".toList,
       "-Dscript=\"a\"".toList, "-cp".toList, "PureInstaller.jar;RuneLite.jar".toList,
       "ca.arnah.runelite.LauncherHijack".toList] := by
  decide

/-- C15 at work: a directory without `.log` files, and the directory `sharedDir`. -/
theorem discoverLog_choice_witness :
    (dotLogFiles [({ name := "notes.txt".toList, time := 9, content := "alice".toList } : LogFile)] = [] ∧
      discoverLog alice [({ name := "notes.txt".toList, time := 9, content := "alice".toList } : LogFile)] =
        none) ∧
    dotLogFiles sharedDir ≠ [] ∧
    discoverLog alice sharedDir = some "c.log".toList ∧
    discoverLog carol sharedDir = some "d.log".toList ∧
    discoverLog "zoe".toList sharedDir = some "b.log".toList ∧
    ∃ (five rest : List LogFile) (f : LogFile),
      (five ++ rest).Perm (dotLogFiles sharedDir) ∧
      five.length = min 5 (dotLogFiles sharedDir).length ∧
      (∀ a ∈ five, ∀ c ∈ rest, c.time ≤ a.time) ∧
      f ∈ dotLogFiles sharedDir ∧
      discoverLog alice sharedDir = some f.name ∧
      (∀ (b : Nat) (s : State),
        (startTail alice b (some sharedDir) s).tails =
          s.tails ++ [({ file := f.name, username := alice, bot := b, watching := true } : Tail)]) ∧
      ((∃ g ∈ five, mentions alice g = true) →
        f ∈ five ∧ mentions alice f = true ∧
        ∀ g ∈ five, mentions alice g = true → g.time ≤ f.time) ∧
      ((∀ g ∈ five, mentions alice g = false) →
        ∀ g ∈ dotLogFiles sharedDir, g.time ≤ f.time) :=
  ⟨⟨by decide,
    ((discoverLog_choice alice
      [({ name := "notes.txt".toList, time := 9, content := "alice".toList } : LogFile)]).1
      (by decide)).1⟩,
   by decide, by decide, by decide, by decide,
   (discoverLog_choice alice sharedDir).2 (by decide)⟩

/-- C13, the code on a log that is over the limit: alice's rolling log holds 600
lines of a thousand characters, and one more line is written.  Of the 601
lines the file is left with 499: the last 498 old ones and the new one. -/
theorem writeToCustomLog_keeps_499 :
    readFile fullState.files (logPath alice) = some (unlines (List.replicate 600 longLine)) ∧
    500000 < byteLength (unlines (List.replicate 600 longLine) ++
      "2026-01-01 00:00:00 GMT m\n".toList) ∧
    readFile (writeToCustomLog alice "m".toList fullState).files (logPath alice) =
      some (unlines (List.replicate 498 longLine ++ ["2026-01-01 00:00:00 GMT m".toList])) ∧
    (List.replicate 498 longLine ++ ["2026-01-01 00:00:00 GMT m".toList]).length = 499 := by
  have hread : readFile fullState.files (logPath alice) = some fullLog := readFile_head _ _ _
  have hline : timestamp fullState.clock ++ " ".toList ++ "m".toList =
      "2026-01-01 00:00:00 GMT m".toList := by decide
  have hlong : '\n' ∉ longLine := fun h => absurd (List.eq_of_mem_replicate h) (by decide)
  have hbig : 500000 < byteLength (unlines (List.replicate 600 longLine) ++
      ("2026-01-01 00:00:00 GMT m".toList ++ "\n".toList)) := by
    rw [byteLength_append]
    have h1 := length_le_byteLength (unlines (List.replicate 600 longLine))
    rw [length_unlines_replicate] at h1
    have h2 : longLine.length = 1000 := List.length_replicate _ _
    rw [h2] at h1
    omega
  refine ⟨hread, hbig, ?_, ?_⟩
  · rw [writeToCustomLog_log, hread, hline]
    have hcut := appendRolling_lines (List.replicate 600 longLine)
      "2026-01-01 00:00:00 GMT m".toList
      (fun l h => by rw [List.eq_of_mem_replicate h]; exact hlong) (by decide) hbig
    rw [sliceLast_replicate_snoc 600 _ _ (by omega)] at hcut
    exact congrArg some hcut
  · rw [List.length_append, List.length_replicate]
    rfl

/-- C14, the code at work: the live tail broadcasts alice's task `Mine iron`
and leaves the task map without an entry for her; the log query that follows
derives the same task and broadcasts it a second time. -/
theorem query_repeats_live_broadcast :
    aliceAnnounced.broadcasts = [(alice, "Mine iron".toList)] ∧
    taskGet aliceAnnounced.currentTasks alice = none ∧
    extractCurrentTask (readLogs alice aliceAnnounced) = some "Mine iron".toList ∧
    (step aliceAnnounced (Event.logs alice)).broadcasts =
      [(alice, "Mine iron".toList), (alice, "Mine iron".toList)] ∧
    (step (step aliceAnnounced (Event.logs alice)) (Event.logs alice)).broadcasts =
      [(alice, "Mine iron".toList), (alice, "Mine iron".toList)] := by
  decide

/-- C16 at work: a configuration that differs from `scriptConfig` in its plugin
alone gives the same launch command. -/
theorem buildLaunchCommand_eq_witness :
    buildLaunchCommand "java".toList { scriptConfig with plugin := some "Miner".toList } =
      buildLaunchCommand "java".toList scriptConfig :=
  (buildLaunchCommand_eq "java".toList scriptConfig).2
    { scriptConfig with plugin := some "Miner".toList } rfl rfl rfl

/-- C5 (as stated) fails: alice's resolver found no `java.exe`, so no pid was
resolved and her record still holds the pid of the spawned shell; the liveness
tick probes that pid all the same, and on the report of its absence the record
becomes `stopped`, the timer is cancelled and a grace timer is set. -/
theorem tick_stops_unresolved :
    (aliceStarted.bots[0]?).map Bot.pid = some (some 4242) ∧
    (aliceUnresolved.bots[0]?).map Bot.pid = some (some 4242) ∧
    (aliceUnresolved.bots[0]?).map Bot.status = some Status.starting ∧
    (aliceUnresolved.polls[0]?).map Poll.active = some true ∧
    (step aliceUnresolved (Event.tick 0)).polls[0]? =
      some { username := alice, bot := 0, active := true, inflight := 1 } ∧
    ((run aliceUnresolved [Event.tick 0, Event.probeDone 0 true]).bots[0]?).map Bot.status =
      some Status.stopped ∧
    ((run aliceUnresolved [Event.tick 0, Event.probeDone 0 true]).polls[0]?).map Poll.active =
      some false ∧
    (run aliceUnresolved [Event.tick 0, Event.probeDone 0 true]).removals.length = 1 := by
  decide

end Agent
